import Mathlib

/-!
# Geometry core of larlite: `DistToBoxWall`, `Point`, `Trajectory`, shower isolation

Shallow embedding of

* `UserDev/BasicTool/GeoAlgo/DistToBoxWall.cxx`
* `UserDev/SelectionTool/ShowerPdfTool/GeoObjects.h`
* `UserDev/SelectionTool/ShowerPdfTool/SPAlgo/SPAlgoSingleE.cxx`
  (`AreShowersStartPtCorrelated`, `IsolatedStartPtShowers`)

A C++ `double` is modelled by `Dbl K`: a finite value carried in a linearly
ordered field `K`, the negative zero, the two infinities and NaN.  The
arithmetic and the comparisons on `Dbl K` are the IEEE 754 ones on the special
values, so that a division by a zero direction component evaluates to what the
compiled code produces.  The operations `+ - * /` are exact on finite values
(no rounding, no overflow, no underflow).  The operations `addR`, `subR`,
`mulR`, `divR`, `pow2R`, `sqrtR` round the exact result by a rounding function
`rnd`; `round64` is the binary64 rounding as far as the range goes: a result
too large overflows to an infinity, a result too small underflows to a zero.

The directional `DistanceToWall` is embedded twice: `DistanceToWallDir` in exact
arithmetic, and `DistanceToWallDirR` with every arithmetic operation rounded by
`rnd`.  The second is used where the overflow or the underflow of the squared
direction components decides the outcome: the zero-magnitude error, the
invariance under scaling of the direction, the divisors of the per-axis
divisions.  The definitions are computable for `K = ℚ`.
-/

set_option autoImplicit false
set_option linter.unusedVariables false
set_option linter.unusedSectionVars false

namespace geoalgo

/-! ## The `double` model -/

/-- Value of a C++ `double`.  `fin 0` is `+0.0`, `nzero` is `-0.0`. -/
inductive Dbl (K : Type) where
  | fin (v : K)
  | nzero
  | pinf
  | ninf
  | nan
deriving DecidableEq

namespace Dbl

variable {K : Type} [LinearOrderedField K]

/-- Sign bit of a double (NaN is given `false`; it is never consulted). -/
def signbit : Dbl K → Bool
  | fin v => decide (v < 0)
  | nzero => true
  | pinf => false
  | ninf => true
  | nan => false

/-- Zero of the given sign bit. -/
def zero (s : Bool) : Dbl K := if s then nzero else fin 0

/-- Infinity of the given sign bit. -/
def inf (s : Bool) : Dbl K := if s then ninf else pinf

/-- The test `std::isnan`. -/
def isNaN : Dbl K → Bool
  | nan => true
  | _ => false

/-- The real value of a finite double, `none` for the infinities and NaN. -/
def toFin? : Dbl K → Option K
  | fin v => some v
  | nzero => some 0
  | _ => none

/-- Unary minus: flips the sign bit. -/
def neg : Dbl K → Dbl K
  | fin v => if v = 0 then nzero else fin (-v)
  | nzero => fin 0
  | pinf => ninf
  | ninf => pinf
  | nan => nan

/-- IEEE addition, exact on finite operands. -/
def add (a b : Dbl K) : Dbl K :=
  if a.isNaN || b.isNaN then nan else
  match a.toFin?, b.toFin? with
  | some v, some w => if v + w = 0 then zero (a.signbit && b.signbit) else fin (v + w)
  | some _, none => b
  | none, some _ => a
  | none, none => if a = b then a else nan

/-- IEEE subtraction `a - b = a + (-b)`. -/
def sub (a b : Dbl K) : Dbl K := add a (neg b)

/-- IEEE multiplication, exact on finite operands. -/
def mul (a b : Dbl K) : Dbl K :=
  if a.isNaN || b.isNaN then nan else
  match a.toFin?, b.toFin? with
  | some v, some w => if v * w = 0 then zero (xor a.signbit b.signbit) else fin (v * w)
  | some v, none => if v = 0 then nan else inf (xor a.signbit b.signbit)
  | none, some w => if w = 0 then nan else inf (xor a.signbit b.signbit)
  | none, none => inf (xor a.signbit b.signbit)

/-- IEEE division, exact on finite operands; `x / 0` is an infinity for
`x ≠ 0` and NaN for `x = 0`. -/
def div (a b : Dbl K) : Dbl K :=
  if a.isNaN || b.isNaN then nan else
  match a.toFin?, b.toFin? with
  | some v, some w =>
      if w = 0 then (if v = 0 then nan else inf (xor a.signbit b.signbit))
      else if v = 0 then zero (xor a.signbit b.signbit)
      else fin (v / w)
  | some _, none => zero (xor a.signbit b.signbit)
  | none, some _ => inf (xor a.signbit b.signbit)
  | none, none => nan

instance : Neg (Dbl K) := ⟨neg⟩
instance : Add (Dbl K) := ⟨add⟩
instance : Sub (Dbl K) := ⟨sub⟩
instance : Mul (Dbl K) := ⟨mul⟩
instance : Div (Dbl K) := ⟨div⟩

/-- The comparison `a < b` of two doubles (false as soon as one is NaN). -/
def lt (a b : Dbl K) : Bool :=
  if a.isNaN || b.isNaN then false else
  match a.toFin?, b.toFin? with
  | some v, some w => decide (v < w)
  | some _, none => decide (b = pinf)
  | none, some _ => decide (a = ninf)
  | none, none => decide (a = ninf ∧ b = pinf)

/-- The comparison `a > b`, that is `b < a`. -/
def gt (a b : Dbl K) : Bool := lt b a

/-- The comparison `a == 0`, which is what `!a` tests. -/
def isZero (a : Dbl K) : Bool := decide (a.toFin? = some 0)

/-- The call `pow(a, 2)`. -/
def pow2 (a : Dbl K) : Dbl K := a * a

/-- The call `sqrt(a)`; `rsqrt` is the square root on non-negative finite
values (from `<cmath>`, a parameter of the model). -/
def sqrt (rsqrt : K → K) : Dbl K → Dbl K
  | fin v => if v < 0 then nan else fin (rsqrt v)
  | nzero => nzero
  | pinf => pinf
  | ninf => nan
  | nan => nan

/-- The call `abs(a)` on a double: clears the sign bit. -/
def abs : Dbl K → Dbl K
  | fin v => fin |v|
  | nzero => fin 0
  | pinf => pinf
  | ninf => pinf
  | nan => nan

/-- Rounding of the exact result of an operation: `rnd` maps a non-zero real
result to the double that is stored; zeros, infinities and NaN are kept. -/
def rd (rnd : K → Dbl K) : Dbl K → Dbl K
  | fin v => if v = 0 then fin 0 else rnd v
  | d => d

/-- The binary64 rounding as far as the range goes: a result of magnitude at
least `2^1024 - 2^970` (`DBL_MAX` plus half an ulp) overflows to the infinity of
its sign, a result of magnitude at most `2^-1075` (half the least subnormal)
underflows to the zero of its sign; in between the value is kept exactly (the
rounding error inside the range is not modelled). -/
def round64 (v : K) : Dbl K :=
  if 2 ^ 1024 - 2 ^ 970 ≤ |v| then inf (decide (v < 0))
  else if |v| ≤ 1 / 2 ^ 1075 then zero (decide (v < 0))
  else fin v

/-- `a + b`, the result rounded by `rnd`. -/
def addR (rnd : K → Dbl K) (a b : Dbl K) : Dbl K := rd rnd (a + b)

/-- `a - b`, the result rounded by `rnd`. -/
def subR (rnd : K → Dbl K) (a b : Dbl K) : Dbl K := rd rnd (a - b)

/-- `a * b`, the result rounded by `rnd`. -/
def mulR (rnd : K → Dbl K) (a b : Dbl K) : Dbl K := rd rnd (a * b)

/-- `a / b`, the result rounded by `rnd`. -/
def divR (rnd : K → Dbl K) (a b : Dbl K) : Dbl K := rd rnd (a / b)

/-- `pow(a, 2)`, the result rounded by `rnd`. -/
def pow2R (rnd : K → Dbl K) (a : Dbl K) : Dbl K := rd rnd (pow2 a)

/-- `sqrt(a)`, the result rounded by `rnd`. -/
def sqrtR (rnd : K → Dbl K) (rsqrt : K → K) (a : Dbl K) : Dbl K := rd rnd (Dbl.sqrt rsqrt a)

end Dbl

/-! ## `DistToBoxWall` -/

/-- Modelled from the spec: `GeoAlgoException.h` is not among the sources.  The
exception carries a message; the model keeps which message it is and the sizes
printed in it. -/
inductive GeoAlgoException where
  /-- " size mismatch: lhs != rhs" -/
  | sizeMismatch (lhs rhs : Nat)
  /-- " Direction vector magnitude is 0!" -/
  | zeroMagnitude
deriving DecidableEq

/-- The data members `_xyz_min`, `_xyz_max` of `DistToBoxWall`, both vectors of
length 3. -/
structure DistToBoxWall (K : Type) where
  xyz_min : Fin 3 → Dbl K
  xyz_max : Fin 3 → Dbl K

namespace DistToBoxWall

variable {K : Type} [LinearOrderedField K]

open Dbl

/-- `DistToBoxWall::Reset`. -/
def Reset (_self : DistToBoxWall K) : DistToBoxWall K :=
  { xyz_min := ![fin 0, fin (-116.5), fin 0]
    xyz_max := ![fin 256.35, fin 116.5, fin 1036.8] }

/-- `DistToBoxWall::DistToBoxWall()`: both vectors are `(3,0)`, then `Reset()`. -/
def new : DistToBoxWall K :=
  Reset { xyz_min := fun _ => fin 0, xyz_max := fun _ => fin 0 }

/-- The configuration whose six bounds are the finite values given, in the
argument order of the six-argument constructor. -/
def ofBounds (x_min x_max y_min y_max z_min z_max : K) : DistToBoxWall K :=
  { xyz_min := ![fin x_min, fin y_min, fin z_min]
    xyz_max := ![fin x_max, fin y_max, fin z_max] }

/-- The box test shared by the two `DistanceToWall` overloads (lines 72-74 and
162-164): true when the point is outside on some axis. -/
def outside (self : DistToBoxWall K) (x y z : Dbl K) : Bool :=
  (x.lt (self.xyz_min 0) || (self.xyz_max 0).lt x) ||
  (y.lt (self.xyz_min 1) || (self.xyz_max 1).lt y) ||
  (z.lt (self.xyz_min 2) || (self.xyz_max 2).lt z)

/-- `DistToBoxWall::DistanceToWall(double x, double y, double z)`. -/
def DistanceToWall (self : DistToBoxWall K) (x y z : Dbl K) : Dbl K :=
  if self.outside x y z then fin (-1) else
  let dist_to_yz := x - self.xyz_min 0
  let dist_to_yz := if dist_to_yz.gt (self.xyz_max 0 - x) then self.xyz_max 0 - x else dist_to_yz
  let dist_to_zx := y - self.xyz_min 1
  let dist_to_zx := if dist_to_zx.gt (self.xyz_max 1 - y) then self.xyz_max 1 - y else dist_to_zx
  let dist_to_xy := z - self.xyz_min 2
  let dist_to_xy := if dist_to_xy.gt (self.xyz_max 2 - z) then self.xyz_max 2 - z else dist_to_xy
  let dist := if dist_to_yz.lt dist_to_zx then dist_to_yz else dist_to_zx
  let dist := if dist.lt dist_to_xy then dist else dist_to_xy
  dist

/-- `DistToBoxWall::DistanceToWall(double x, double y, double z, double dirx,
double diry, double dirz, bool ForwardOrBack)` in exact arithmetic on the finite
values; `rsqrt` is the `sqrt` of `<cmath>` on non-negative finite values.  It
is `DistanceToWallDirR` without rounding (`DistanceToWallDirR_fin_eq`): the
overflow and the underflow of the squares at line 170 are not in this
definition, they are in `DistanceToWallDirR` with `round64`. -/
def DistanceToWallDir (rsqrt : K → K) (self : DistToBoxWall K) (x y z dirx diry dirz : Dbl K)
    (ForwardOrBack : Bool) : Except GeoAlgoException (Dbl K) :=
  if self.outside x y z then .ok (fin (-1)) else
  let dir_magnitude := Dbl.sqrt rsqrt (pow2 dirx + pow2 diry + pow2 dirz)
  if dir_magnitude.isZero then .error GeoAlgoException.zeroMagnitude else
  let dirx := dirx / dir_magnitude
  let diry := diry / dir_magnitude
  let dirz := dirz / dir_magnitude
  let dirx := if !ForwardOrBack then dirx * fin (-1) else dirx
  let diry := if !ForwardOrBack then diry * fin (-1) else diry
  let dirz := if !ForwardOrBack then dirz * fin (-1) else dirz
  let dist_to_yz :=
    if dirx.lt (fin 0) then (x - self.xyz_min 0) / (fin (-1) * dirx)
    else (self.xyz_max 0 - x) / dirx
  let dist_to_xy :=
    if dirz.lt (fin 0) then (z - self.xyz_min 2) / (fin (-1) * dirz)
    else (self.xyz_max 2 - z) / dirz
  let dist_to_zx :=
    if dirx.lt (fin 0) then (x - self.xyz_min 1) / (fin (-1) * dirx)
    else (self.xyz_max 1 - x) / dirx
  let dist := if dist_to_yz.lt dist_to_zx then dist_to_yz else dist_to_zx
  let dist := if dist.lt dist_to_xy then dist else dist_to_xy
  .ok dist

/-- The magnitude computed at line 170,
`sqrt( pow(dirx,2) + pow(diry,2) + pow(dirz,2) )`, every operation rounded by
`rnd`. -/
def dir_magnitudeR (rnd : K → Dbl K) (rsqrt : K → K) (dirx diry dirz : Dbl K) : Dbl K :=
  sqrtR rnd rsqrt (addR rnd (addR rnd (pow2R rnd dirx) (pow2R rnd diry)) (pow2R rnd dirz))

/-- `DistToBoxWall::DistanceToWall(double x, double y, double z, double dirx,
double diry, double dirz, bool ForwardOrBack)` with the result of every
arithmetic operation rounded by `rnd`.  With `rnd = round64` a square that
leaves the binary64 range overflows or underflows as in the compiled code; with
`rnd = fin` (no rounding) this is `DistanceToWallDir`. -/
def DistanceToWallDirR (rnd : K → Dbl K) (rsqrt : K → K) (self : DistToBoxWall K)
    (x y z dirx diry dirz : Dbl K) (ForwardOrBack : Bool) : Except GeoAlgoException (Dbl K) :=
  if self.outside x y z then .ok (fin (-1)) else
  let dir_magnitude := dir_magnitudeR rnd rsqrt dirx diry dirz
  if dir_magnitude.isZero then .error GeoAlgoException.zeroMagnitude else
  let dirx := divR rnd dirx dir_magnitude
  let diry := divR rnd diry dir_magnitude
  let dirz := divR rnd dirz dir_magnitude
  let dirx := if !ForwardOrBack then mulR rnd dirx (fin (-1)) else dirx
  let diry := if !ForwardOrBack then mulR rnd diry (fin (-1)) else diry
  let dirz := if !ForwardOrBack then mulR rnd dirz (fin (-1)) else dirz
  let dist_to_yz :=
    if dirx.lt (fin 0) then divR rnd (subR rnd x (self.xyz_min 0)) (mulR rnd (fin (-1)) dirx)
    else divR rnd (subR rnd (self.xyz_max 0) x) dirx
  let dist_to_xy :=
    if dirz.lt (fin 0) then divR rnd (subR rnd z (self.xyz_min 2)) (mulR rnd (fin (-1)) dirz)
    else divR rnd (subR rnd (self.xyz_max 2) z) dirz
  let dist_to_zx :=
    if dirx.lt (fin 0) then divR rnd (subR rnd x (self.xyz_min 1)) (mulR rnd (fin (-1)) dirx)
    else divR rnd (subR rnd (self.xyz_max 1) x) dirx
  let dist := if dist_to_yz.lt dist_to_zx then dist_to_yz else dist_to_zx
  let dist := if dist.lt dist_to_xy then dist else dist_to_xy
  .ok dist

/-- The three per-axis divisions performed by `DistanceToWallDirR` (lines
198-231), as pairs (numerator, divisor) in the order of the source:
`dist_to_yz`, `dist_to_xy`, `dist_to_zx`; the empty list when the function
returns `-1` or throws before reaching them. -/
def DistanceToWallDirDivisionsR (rnd : K → Dbl K) (rsqrt : K → K) (self : DistToBoxWall K)
    (x y z dirx diry dirz : Dbl K) (ForwardOrBack : Bool) : List (Dbl K × Dbl K) :=
  if self.outside x y z then [] else
  let dir_magnitude := dir_magnitudeR rnd rsqrt dirx diry dirz
  if dir_magnitude.isZero then [] else
  let dirx := divR rnd dirx dir_magnitude
  let diry := divR rnd diry dir_magnitude
  let dirz := divR rnd dirz dir_magnitude
  let dirx := if !ForwardOrBack then mulR rnd dirx (fin (-1)) else dirx
  let diry := if !ForwardOrBack then mulR rnd diry (fin (-1)) else diry
  let dirz := if !ForwardOrBack then mulR rnd dirz (fin (-1)) else dirz
  let div_yz :=
    if dirx.lt (fin 0) then (subR rnd x (self.xyz_min 0), mulR rnd (fin (-1)) dirx)
    else (subR rnd (self.xyz_max 0) x, dirx)
  let div_xy :=
    if dirz.lt (fin 0) then (subR rnd z (self.xyz_min 2), mulR rnd (fin (-1)) dirz)
    else (subR rnd (self.xyz_max 2) z, dirz)
  let div_zx :=
    if dirx.lt (fin 0) then (subR rnd x (self.xyz_min 1), mulR rnd (fin (-1)) dirx)
    else (subR rnd (self.xyz_max 1) x, dirx)
  [div_yz, div_xy, div_zx]

/-- `DistToBoxWall::DistanceToWallFromOut(std::vector<double> const &point)`.
The function reads `point[0]`, `point[1]`, `point[2]` without a size check; the
model takes these three entries.  `abs` is the overload on `double`, the
absolute value. -/
def DistanceToWallFromOut (self : DistToBoxWall K) (point : Fin 3 → Dbl K) : Dbl K :=
  if ((point 0).gt (self.xyz_min 0) && (self.xyz_max 0).gt (point 0)) &&
     ((point 1).gt (self.xyz_min 1) && (self.xyz_max 1).gt (point 1)) &&
     ((point 2).gt (self.xyz_min 2) && (self.xyz_max 2).gt (point 2)) then fin (-1) else
  let x_dist_min := Dbl.abs (point 0 - self.xyz_min 0)
  let y_dist_min := Dbl.abs (point 1 - self.xyz_min 1)
  let z_dist_min := Dbl.abs (point 2 - self.xyz_min 2)
  let x_dist_max := Dbl.abs (point 0 - self.xyz_max 0)
  let y_dist_max := Dbl.abs (point 1 - self.xyz_max 1)
  let z_dist_max := Dbl.abs (point 2 - self.xyz_max 2)
  if (point 0).gt (self.xyz_max 0) || (point 0).lt (self.xyz_min 0) then
    (if x_dist_min.lt x_dist_max then x_dist_min else x_dist_max)
  else if (point 1).gt (self.xyz_max 1) || (point 1).lt (self.xyz_min 1) then
    (if y_dist_min.lt y_dist_max then y_dist_min else y_dist_max)
  else
    (if z_dist_min.lt z_dist_max then z_dist_min else z_dist_max)

/-- The exit distance on one axis for the unit direction component `u`:
`(c - min) / (-u)` when `u` is negative, else `(max - c) / u`. -/
def exitDistance (c c_min c_max u : K) : K :=
  if u < 0 then (c - c_min) / (-u) else (c_max - c) / u

/-- A unit direction component: the component divided by the magnitude,
negated when `forward` is false. -/
def unitDir (dir dir_magnitude : K) (forward : Bool) : K :=
  if forward then dir / dir_magnitude else -(dir / dir_magnitude)

/-- The directional distance for a point inside the box in the words of the
specification: the minimum over the axes x, y, z of the exit distance, each
axis with its own coordinate, direction component and bounds. -/
def DistanceToWallDirSpec (rsqrt : K → K) (x_min x_max y_min y_max z_min z_max : K)
    (x y z dirx diry dirz : K) (forward : Bool) : K :=
  let dir_magnitude := rsqrt (dirx * dirx + diry * diry + dirz * dirz)
  min (min (exitDistance x x_min x_max (unitDir dirx dir_magnitude forward))
      (exitDistance y y_min y_max (unitDir diry dir_magnitude forward)))
    (exitDistance z z_min z_max (unitDir dirz dir_magnitude forward))

end DistToBoxWall

/-! ## `Point` -/

/-- `class Point : public std::vector<double>`. -/
abbrev Point (K : Type) := List (Dbl K)

namespace Point

variable {K : Type} [LinearOrderedField K]

open Dbl

/-- The unchecked element access `p[i]` of `std::vector`; an index out of
range (undefined behaviour in the source) reads NaN. -/
def at_ (p : Point K) (i : Nat) : Dbl K := p.getD i nan

/-- `Point::compat(const Point& obj)`. -/
def compat (self obj : Point K) : Except GeoAlgoException Unit :=
  if self.length ≠ obj.length then
    .error (GeoAlgoException.sizeMismatch self.length obj.length)
  else .ok ()

/-- `Point::_SquaredDistance_(const Point& obj)`. -/
def _SquaredDistance_ (self obj : Point K) : Dbl K :=
  (List.range self.length).foldl
    (fun dist2 i => dist2 + pow2 (obj.at_ i - self.at_ i)) (fin 0)

/-- `Point::_Distance_(const Point& obj)`. -/
def _Distance_ (rsqrt : K → K) (self obj : Point K) : Dbl K :=
  Dbl.sqrt rsqrt (self._SquaredDistance_ obj)

/-- `Point::SquaredDistance(const Point& obj)`. -/
def SquaredDistance (self obj : Point K) : Except GeoAlgoException (Dbl K) :=
  match self.compat obj with
  | .error e => .error e
  | .ok () => .ok (self._SquaredDistance_ obj)

/-- `Point::Distance(const Point& obj)`. -/
def Distance (rsqrt : K → K) (self obj : Point K) : Except GeoAlgoException (Dbl K) :=
  match self.SquaredDistance obj with
  | .error e => .error e
  | .ok d2 => .ok (Dbl.sqrt rsqrt d2)

/-- `Point::DotProduct(const Point &obj)`. -/
def DotProduct (self obj : Point K) : Except GeoAlgoException (Dbl K) :=
  match self.compat obj with
  | .error e => .error e
  | .ok () => .ok ((List.range self.length).foldl
      (fun res i => res + self.at_ i * obj.at_ i) (fin 0))

/-- `Point::operator+=(const Point& rhs)`: the outcome of the call and the
value of `*this` when the call is left. -/
def operator_add_assign (self rhs : Point K) : Except GeoAlgoException Unit × Point K :=
  match self.compat rhs with
  | .error e => (.error e, self)
  | .ok () => (.ok (), (List.range self.length).foldl
      (fun this i => this.set i (this.at_ i + rhs.at_ i)) self)

/-- `Point::operator-=(const Point& rhs)`: the outcome of the call and the
value of `*this` when the call is left. -/
def operator_sub_assign (self rhs : Point K) : Except GeoAlgoException Unit × Point K :=
  match self.compat rhs with
  | .error e => (.error e, self)
  | .ok () => (.ok (), (List.range self.length).foldl
      (fun this i => this.set i (this.at_ i - rhs.at_ i)) self)

/-- `Point::operator*=(const double rhs)`: the value of `*this` afterwards. -/
def operator_mul_assign (self : Point K) (rhs : Dbl K) : Point K :=
  self.map (fun v => v * rhs)

/-- `Point::operator/=(const double rhs)`: the value of `*this` afterwards. -/
def operator_div_assign (self : Point K) (rhs : Dbl K) : Point K :=
  self.map (fun v => v / rhs)

/-- `Point::operator+(const Point& rhs)`: `res` is a copy of `*this`, then
`res += rhs`. -/
def operator_add (self rhs : Point K) : Except GeoAlgoException (Point K) :=
  let res := self
  match operator_add_assign res rhs with
  | (.error e, _) => .error e
  | (.ok (), res) => .ok res

/-- `Point::operator-(const Point& rhs)`: `res` is a copy of `*this`, then
`res -= rhs`. -/
def operator_sub (self rhs : Point K) : Except GeoAlgoException (Point K) :=
  let res := self
  match operator_sub_assign res rhs with
  | (.error e, _) => .error e
  | (.ok (), res) => .ok res

/-- `Point::operator*(const Point& rhs)`. -/
def operator_mul (self rhs : Point K) : Except GeoAlgoException (Dbl K) :=
  match self.compat rhs with
  | .error e => .error e
  | .ok () => .ok ((List.range self.length).foldl
      (fun res i => res + self.at_ i * rhs.at_ i) (fin 0))

/-- `Point::operator*(const double& rhs)`. -/
def operator_mul_scalar (self : Point K) (rhs : Dbl K) : Point K :=
  let res := self
  res.map (fun v => v * rhs)

/-- `Point::operator/(const double& rhs)`. -/
def operator_div_scalar (self : Point K) (rhs : Dbl K) : Point K :=
  let res := self
  res.map (fun v => v / rhs)

/-- `Point::_SquaredDistance_` with every element access checked: `none` as
soon as an index is out of range for the vector it is used on. -/
def _SquaredDistance_inRange (self obj : Point K) : Option (Dbl K) :=
  (List.range self.length).foldlM
    (fun dist2 i =>
      (obj[i]?).bind fun o => (self[i]?).bind fun s => some (dist2 + pow2 (o - s)))
    (fin 0)

/-- The value `std::numeric_limits<double>::max()`, `(2 - 2^-52) * 2^1023`. -/
def DBL_MAX : K := 2 ^ 1024 - 2 ^ 971

/-- `Point::Point(size_t n)`: `n` coordinates, all the invalid value. -/
def ofSize (n : Nat) : Point K := List.replicate n (fin DBL_MAX)

/-- `Point::Point(const std::vector<double> &obj)`. -/
def ofVector (obj : List (Dbl K)) : Point K := obj

end Point

/-! ## `Trajectory` -/

/-- `class Trajectory : public std::vector<geoalgo::Point>`. -/
abbrev Trajectory (K : Type) := List (Point K)

namespace Trajectory

variable {K : Type} [LinearOrderedField K]

open Dbl

/-- The unchecked element access `t[i]` of `std::vector`; an index out of
range (undefined behaviour in the source) reads the empty point. -/
def at_ (t : Trajectory K) (i : Nat) : Point K := t.getD i []

/-- `Trajectory::compat(const Point& obj)`. -/
def compat (self : Trajectory K) (obj : Point K) : Except GeoAlgoException Unit :=
  match self with
  | [] => .ok ()
  | first :: _ =>
    if first.length ≠ obj.length then
      .error (GeoAlgoException.sizeMismatch first.length obj.length)
    else .ok ()

/-- `Trajectory::push_back(const Point& obj)`: the outcome of the call and the
trajectory when the call is left. -/
def push_back (self : Trajectory K) (obj : Point K) :
    Except GeoAlgoException Unit × Trajectory K :=
  match self.compat obj with
  | .error e => (.error e, self)
  | .ok () => (.ok (), self ++ [obj])

/-- `Trajectory::Length()`. -/
def Length (rsqrt : K → K) (self : Trajectory K) : Dbl K :=
  if self.length < 2 then fin 0 else
  (List.range (self.length - 1)).foldl
    (fun length i => length + (self.at_ i)._Distance_ rsqrt (self.at_ (i + 1))) (fin 0)

/-- `Trajectory::Length()` with every element access checked, in the
trajectory and in the two points of each `_Distance_` call: `none` as soon as
an index is out of range. -/
def Length_inRange (rsqrt : K → K) (self : Trajectory K) : Option (Dbl K) :=
  if self.length < 2 then some (fin 0) else
  (List.range (self.length - 1)).foldlM
    (fun length i =>
      (self[i]?).bind fun p => (self[i + 1]?).bind fun q =>
        (p._SquaredDistance_inRange q).bind fun d2 => some (length + Dbl.sqrt rsqrt d2))
    (fin 0)

/-- `Trajectory::Length()` with each unchecked `_Distance_` call replaced by the
dimension-checked `Distance`, as the specification compares them. -/
def Length_checked (rsqrt : K → K) (self : Trajectory K) : Except GeoAlgoException (Dbl K) :=
  if self.length < 2 then .ok (fin 0) else
  (List.range (self.length - 1)).foldlM
    (fun length i =>
      match (self.at_ i).Distance rsqrt (self.at_ (i + 1)) with
      | .error e => .error e
      | .ok d => .ok (length + d))
    (fin 0)

/-- `Trajectory::Trajectory()`. -/
def empty : Trajectory K := []

/-- `Trajectory::Trajectory(size_t npoints, size_t ndimension)`. -/
def ofSize (npoints ndimension : Nat) : Trajectory K :=
  List.replicate npoints (Point.ofSize ndimension)

/-- The loop `for(auto const& p : obj) this->push_back(p)` of the two sequence
constructors, from the trajectory built so far; an exception leaves the loop. -/
def push_back_all (self : Trajectory K) : List (Point K) → Except GeoAlgoException (Trajectory K)
  | [] => .ok self
  | p :: rest =>
    match self.push_back p with
    | (.error e, _) => .error e
    | (.ok (), self) => push_back_all self rest

/-- `Trajectory::Trajectory(const std::vector<std::vector<double> > &obj)`. -/
def ofVectors (obj : List (List (Dbl K))) : Except GeoAlgoException (Trajectory K) :=
  push_back_all [] (obj.map Point.ofVector)

/-- `Trajectory::Trajectory(const std::vector<geoalgo::Point> &obj)`. -/
def ofPoints (obj : List (Point K)) : Except GeoAlgoException (Trajectory K) :=
  push_back_all [] obj

/-- The uniform-dimension invariant: every point of the trajectory has the
dimension of the first point. -/
def Uniform (t : Trajectory K) : Prop := ∀ p ∈ t, p.length = (t.at_ 0).length

instance (t : Trajectory K) : Decidable (Uniform t) :=
  inferInstanceAs (Decidable (∀ p ∈ t, p.length = (t.at_ 0).length))

/-- The trajectories obtained from one of the four constructors followed by
successful calls of `push_back`. -/
inductive Constructed : Trajectory K → Prop
  | empty : Constructed Trajectory.empty
  | ofSize (npoints ndimension : Nat) : Constructed (Trajectory.ofSize npoints ndimension)
  | ofVectors (obj : List (List (Dbl K))) (t : Trajectory K) :
      Trajectory.ofVectors obj = .ok t → Constructed t
  | ofPoints (obj : List (Point K)) (t : Trajectory K) :
      Trajectory.ofPoints obj = .ok t → Constructed t
  | push_back (t : Trajectory K) (obj : Point K) (t' : Trajectory K) :
      Constructed t → t.push_back obj = (.ok (), t') → Constructed t'

end Trajectory

end geoalgo

/-! ## `SPAlgoSingleE`: start-point isolation -/

namespace sptool

open geoalgo

namespace SPAlgoSingleE

variable {K : Type} [LinearOrderedField K] {SPAShower : Type}

/-- `SPAlgoSingleE::AreShowersStartPtCorrelated`.  The class `SPAShower` is not
among the sources: it is a type parameter, and `Dist s1 s2` stands for
`s1.Start().Dist(s2.Start())`. -/
def AreShowersStartPtCorrelated (Dist : SPAShower → SPAShower → Dbl K)
    (s1 s2 : SPAShower) : Bool :=
  let dist := Dist s1 s2
  if dist.lt (Dbl.fin 1) then true else false

/-- The statement
`if( !(std::find(bad.begin(),bad.end(),i) != bad.end()) ) bad.push_back(i);`. -/
def push_back_if_absent (bad_shower_indices : List Nat) (i : Nat) : List Nat :=
  if !(decide (i ∈ bad_shower_indices)) then bad_shower_indices ++ [i] else bad_shower_indices

/-- `SPAlgoSingleE::IsolatedStartPtShowers`.  The checked access `showers.at(i)`
is `showers[i]?`, and `none` stands for its `std::out_of_range`. -/
def IsolatedStartPtShowers (Dist : SPAShower → SPAShower → Dbl K)
    (showers : List SPAShower) : Option (List SPAShower) :=
  let isolated_showers : List SPAShower := []
  if showers.length = 0 then some isolated_showers else
  if showers.length = 1 then
    (showers[0]?).bind fun s => some (isolated_showers ++ [s])
  else
    let bad : Option (List Nat) :=
      (List.range (showers.length - 1)).foldlM
        (fun bad_shower_indices i =>
          (List.range' (i + 1) (showers.length - (i + 1))).foldlM
            (fun bad_shower_indices j =>
              (showers[i]?).bind fun si => (showers[j]?).bind fun sj =>
                if AreShowersStartPtCorrelated Dist si sj then
                  some (push_back_if_absent (push_back_if_absent bad_shower_indices i) j)
                else some bad_shower_indices)
            bad_shower_indices)
        []
    bad.bind fun bad_shower_indices =>
      (List.range showers.length).foldlM
        (fun isolated_showers idx =>
          if !(decide (idx ∈ bad_shower_indices)) then
            (showers[idx]?).bind fun s => some (isolated_showers ++ [s])
          else some isolated_showers)
        isolated_showers

/-- Whether the showers at two indices are correlated:
`AreShowersStartPtCorrelated` applied to the lower-index and the higher-index
shower of the pair. -/
def pairCorrelated (Dist : SPAShower → SPAShower → Dbl K) (showers : List SPAShower)
    (i j : Nat) : Bool :=
  match showers[min i j]?, showers[max i j]? with
  | some s1, some s2 => AreShowersStartPtCorrelated Dist s1 s2
  | _, _ => false

/-- Whether no other index is correlated with index `i`. -/
def isolatedIndex (Dist : SPAShower → SPAShower → Dbl K) (showers : List SPAShower)
    (i : Nat) : Bool :=
  (List.range showers.length).all fun j => j == i || !pairCorrelated Dist showers i j

/-- The isolated showers in the words of the claim: the showers at the isolated
indices, in the original order. -/
def IsolatedStartPtShowersSpec (Dist : SPAShower → SPAShower → Dbl K)
    (showers : List SPAShower) : List SPAShower :=
  (List.range showers.length).filterMap fun i =>
    if isolatedIndex Dist showers i then showers[i]? else none

end SPAlgoSingleE

end sptool

namespace geoalgo

/-! ## Arithmetic of finite doubles -/

namespace Dbl

variable {K : Type} [LinearOrderedField K]

theorem fin_add_fin (a b : K) : (fin a + fin b : Dbl K) = fin (a + b) := by
  show add (fin a) (fin b) = fin (a + b)
  by_cases h : a + b = 0
  · have hs : ¬ (a < 0 ∧ b < 0) := fun hab => by linarith [hab.1, hab.2]
    simp [add, isNaN, toFin?, signbit, zero, h, hs]
  · simp [add, isNaN, toFin?, h]

theorem fin_sub_fin (a b : K) : (fin a - fin b : Dbl K) = fin (a - b) := by
  show add (fin a) (neg (fin b)) = fin (a - b)
  by_cases hb : b = 0
  · subst hb
    by_cases ha : a = 0
    · subst ha
      simp [add, neg, isNaN, toFin?, signbit, zero]
    · simp [add, neg, isNaN, toFin?, ha]
  · have h := fin_add_fin a (-b)
    simp only [neg, hb, if_false]
    rw [sub_eq_add_neg]
    exact h

theorem lt_fin_fin (a b : K) : (fin a).lt (fin b) = decide (a < b) := by
  simp [lt, isNaN, toFin?]

theorem gt_fin_fin (a b : K) : (fin a).gt (fin b) = decide (b < a) := by
  simp [gt, lt_fin_fin]

theorem ite_gt_fin (a b : K) :
    (if (fin a).gt (fin b) then fin b else fin a : Dbl K) = fin (min a b) := by
  rw [gt_fin_fin]
  by_cases h : b < a
  · simp [h, min_eq_right h.le]
  · simp [h, min_eq_left (not_lt.mp h)]

theorem ite_lt_fin (a b : K) :
    (if (fin a).lt (fin b) then fin a else fin b : Dbl K) = fin (min a b) := by
  rw [lt_fin_fin]
  by_cases h : a < b
  · simp [h, min_eq_left h.le]
  · simp [h, min_eq_right (not_lt.mp h)]

end Dbl

/-! ## `DistanceToWall(x, y, z)` -/

namespace DistToBoxWall

variable {K : Type} [LinearOrderedField K]

open Dbl

theorem outside_ofBounds (x_min x_max y_min y_max z_min z_max x y z : K) :
    (ofBounds x_min x_max y_min y_max z_min z_max).outside (fin x) (fin y) (fin z) = true ↔
      (x < x_min ∨ x_max < x) ∨ (y < y_min ∨ y_max < y) ∨ (z < z_min ∨ z_max < z) := by
  simp [outside, ofBounds, lt_fin_fin, or_assoc]

theorem DistanceToWall_of_not_outside (x_min x_max y_min y_max z_min z_max x y z : K)
    (h : (ofBounds x_min x_max y_min y_max z_min z_max).outside (fin x) (fin y) (fin z) = false) :
    (ofBounds x_min x_max y_min y_max z_min z_max).DistanceToWall (fin x) (fin y) (fin z) =
      fin (min (min (min (x - x_min) (x_max - x)) (min (y - y_min) (y_max - y)))
        (min (z - z_min) (z_max - z))) := by
  unfold DistanceToWall
  rw [h]
  simp only [ofBounds, Matrix.cons_val_zero, Matrix.cons_val_one, Matrix.head_cons,
    Matrix.cons_val_two, Matrix.tail_cons, fin_sub_fin, ite_gt_fin, ite_lt_fin]
  simp

end DistToBoxWall

end geoalgo

namespace geoalgo

namespace Dbl

variable {K : Type} [LinearOrderedField K]

theorem add_def (a b : Dbl K) : a + b = add a b := rfl

theorem sub_def (a b : Dbl K) : a - b = add a (neg b) := rfl

theorem mul_def (a b : Dbl K) : a * b = mul a b := rfl

theorem div_def (a b : Dbl K) : a / b = div a b := rfl

theorem abs_fin (a : K) : Dbl.abs (fin a) = fin |a| := rfl

theorem pow2_fin (a : K) : pow2 (fin a) = fin (a * a) := by
  show mul (fin a) (fin a) = fin (a * a)
  by_cases h : a = 0
  · simp [mul, isNaN, toFin?, zero, h]
  · simp [mul, isNaN, toFin?, h]

theorem sqrt_fin (rsqrt : K → K) {v : K} (h : 0 ≤ v) :
    Dbl.sqrt rsqrt (fin v) = fin (rsqrt v) := by
  simp [Dbl.sqrt, not_lt.mpr h]

theorem isZero_fin (a : K) : isZero (fin a) = decide (a = 0) := by
  simp [isZero, toFin?]

theorem fin_mul_fin_of_ne {a b : K} (h : a * b ≠ 0) : (fin a * fin b : Dbl K) = fin (a * b) := by
  show mul (fin a) (fin b) = fin (a * b)
  simp only [mul, isNaN, toFin?, Bool.or_self, Bool.false_eq_true, if_false, if_neg h]

theorem fin_div_fin_of_ne {a b : K} (ha : a ≠ 0) (hb : b ≠ 0) :
    (fin a / fin b : Dbl K) = fin (a / b) := by
  show div (fin a) (fin b) = fin (a / b)
  simp only [div, isNaN, toFin?, Bool.or_self, Bool.false_eq_true, if_false, if_neg ha, if_neg hb]

theorem fin_div_fin_of_pos (a : K) {b : K} (hb : 0 < b) :
    (fin a / fin b : Dbl K) = fin (a / b) := by
  by_cases ha : a = 0
  · subst ha
    show div (fin 0) (fin b) = fin (0 / b)
    simp [div, isNaN, toFin?, signbit, zero, hb.ne', not_lt.mpr hb.le]
  · exact fin_div_fin_of_ne ha hb.ne'

end Dbl

namespace DistToBoxWall

variable {K : Type} [LinearOrderedField K]

open Dbl

theorem new_eq_ofBounds :
    (DistToBoxWall.new : DistToBoxWall K) = ofBounds 0 256.35 (-116.5) 116.5 0 1036.8 := rfl

theorem outside_eq_false_iff (x_min x_max y_min y_max z_min z_max x y z : K) :
    (ofBounds x_min x_max y_min y_max z_min z_max).outside (fin x) (fin y) (fin z) = false ↔
      (x_min ≤ x ∧ x ≤ x_max) ∧ (y_min ≤ y ∧ y ≤ y_max) ∧ (z_min ≤ z ∧ z ≤ z_max) := by
  rw [← Bool.not_eq_true, outside_ofBounds]
  simp only [not_or, not_lt, and_assoc]

theorem sum_sq_nonneg (a b c : K) : 0 ≤ a * a + b * b + c * c := by
  nlinarith [mul_self_nonneg a, mul_self_nonneg b, mul_self_nonneg c]

theorem sum_sq_eq_zero_iff (a b c : K) : a * a + b * b + c * c = 0 ↔ a = 0 ∧ b = 0 ∧ c = 0 := by
  constructor
  · intro h
    have ha := mul_self_nonneg a
    have hb := mul_self_nonneg b
    have hc := mul_self_nonneg c
    refine ⟨?_, ?_, ?_⟩ <;> apply mul_self_eq_zero.mp <;> linarith
  · rintro ⟨rfl, rfl, rfl⟩
    simp

theorem dir_magnitude_fin (rsqrt : K → K) (a b c : K) :
    Dbl.sqrt rsqrt (pow2 (fin a) + pow2 (fin b) + pow2 (fin c)) =
      fin (rsqrt (a * a + b * b + c * c)) := by
  rw [pow2_fin, pow2_fin, pow2_fin, fin_add_fin, fin_add_fin, sqrt_fin rsqrt (sum_sq_nonneg a b c)]

theorem DistanceToWallDir_outside (rsqrt : K → K) (self : DistToBoxWall K)
    (x y z dirx diry dirz : Dbl K) (fwd : Bool) (h : self.outside x y z = true) :
    self.DistanceToWallDir rsqrt x y z dirx diry dirz fwd = .ok (fin (-1)) := by
  simp [DistanceToWallDir, h]

theorem DistanceToWallDir_zeroMagnitude (rsqrt : K → K) (self : DistToBoxWall K)
    (x y z dirx diry dirz : Dbl K) (fwd : Bool) (h : self.outside x y z = false)
    (hm : (Dbl.sqrt rsqrt (pow2 dirx + pow2 diry + pow2 dirz)).isZero = true) :
    self.DistanceToWallDir rsqrt x y z dirx diry dirz fwd =
      .error GeoAlgoException.zeroMagnitude := by
  simp [DistanceToWallDir, h, hm]

theorem DistanceToWallDir_returns (rsqrt : K → K) (self : DistToBoxWall K)
    (x y z dirx diry dirz : Dbl K) (fwd : Bool) (h : self.outside x y z = false)
    (hm : (Dbl.sqrt rsqrt (pow2 dirx + pow2 diry + pow2 dirz)).isZero = false) :
    ∃ d, self.DistanceToWallDir rsqrt x y z dirx diry dirz fwd = .ok d := by
  simp [DistanceToWallDir, h, hm]

/-- The unit direction component computed by lines 181-192 for a non-zero
finite component. -/
theorem unit_dir_fin {dir m : K} (hd : dir ≠ 0) (hm : m ≠ 0) (fwd : Bool) :
    (if (!fwd) = true then fin dir / fin m * fin (-1) else fin dir / fin m : Dbl K) =
      fin (unitDir dir m fwd) := by
  have hq : dir / m ≠ 0 := div_ne_zero hd hm
  rw [fin_div_fin_of_ne hd hm]
  cases fwd
  · have hne : dir / m * -1 ≠ 0 := mul_ne_zero hq (by norm_num)
    simp only [Bool.not_false, if_true, fin_mul_fin_of_ne hne, unitDir, Bool.false_eq_true,
      if_false, mul_neg, mul_one]
  · simp [unitDir]

/-- One per-axis exit distance as lines 199-205 compute it, for a non-zero
finite unit direction component. -/
theorem axis_exit_fin (c c_min c_max : K) {u : K} (hu : u ≠ 0) :
    (if (fin u).lt (fin 0) = true then (fin c - fin c_min) / (fin (-1) * fin u)
      else (fin c_max - fin c) / fin u : Dbl K) = fin (exitDistance c c_min c_max u) := by
  rw [lt_fin_fin, fin_sub_fin, fin_sub_fin]
  by_cases h : u < 0
  · have hne : (-1 : K) * u ≠ 0 := mul_ne_zero (by norm_num) hu
    have hpos : (0 : K) < -u := by linarith
    simp only [h, decide_True, if_true, fin_mul_fin_of_ne hne, neg_mul, one_mul,
      fin_div_fin_of_pos _ hpos, exitDistance]
  · have hpos : 0 < u := lt_of_le_of_ne (not_lt.mp h) (Ne.symm hu)
    simp only [h, decide_False, Bool.false_eq_true, if_false, fin_div_fin_of_pos _ hpos,
      exitDistance]

/-- What the directional `DistanceToWall` evaluates to for a point inside the
box when the x and z direction components are non-zero: the "zx" distance of
lines 224-231 is computed from `x` and `dirx` with the y bounds, and `diry` is
not read. -/
theorem DistanceToWallDir_fin (rsqrt : K → K)
    (x_min x_max y_min y_max z_min z_max x y z dirx diry dirz : K) (fwd : Bool)
    (hx : x_min ≤ x ∧ x ≤ x_max) (hy : y_min ≤ y ∧ y ≤ y_max) (hz : z_min ≤ z ∧ z ≤ z_max)
    (hm : rsqrt (dirx * dirx + diry * diry + dirz * dirz) ≠ 0)
    (hdx : dirx ≠ 0) (hdz : dirz ≠ 0) :
    (ofBounds x_min x_max y_min y_max z_min z_max).DistanceToWallDir rsqrt
        (fin x) (fin y) (fin z) (fin dirx) (fin diry) (fin dirz) fwd =
      .ok (fin (min
        (min
          (exitDistance x x_min x_max
            (unitDir dirx (rsqrt (dirx * dirx + diry * diry + dirz * dirz)) fwd))
          (exitDistance x y_min y_max
            (unitDir dirx (rsqrt (dirx * dirx + diry * diry + dirz * dirz)) fwd)))
        (exitDistance z z_min z_max
          (unitDir dirz (rsqrt (dirx * dirx + diry * diry + dirz * dirz)) fwd)))) := by
  have ho := (outside_eq_false_iff x_min x_max y_min y_max z_min z_max x y z).mpr ⟨hx, hy, hz⟩
  have hux : unitDir dirx (rsqrt (dirx * dirx + diry * diry + dirz * dirz)) fwd ≠ 0 := by
    cases fwd <;> simp [unitDir, hdx, hm]
  have huz : unitDir dirz (rsqrt (dirx * dirx + diry * diry + dirz * dirz)) fwd ≠ 0 := by
    cases fwd <;> simp [unitDir, hdz, hm]
  simp only [DistanceToWallDir, ho, Bool.false_eq_true, if_false, dir_magnitude_fin, isZero_fin,
    hm, decide_False, unit_dir_fin hdx hm, unit_dir_fin hdz hm]
  simp only [ofBounds, Matrix.cons_val_zero, Matrix.cons_val_one, Matrix.head_cons,
    Matrix.cons_val_two, Matrix.tail_cons, axis_exit_fin _ _ _ hux, axis_exit_fin _ _ _ huz,
    ite_lt_fin]

/-- What `DistanceToWallFromOut` evaluates to on finite bounds and coordinates. -/
theorem DistanceToWallFromOut_fin (x_min x_max y_min y_max z_min z_max x y z : K) :
    (ofBounds x_min x_max y_min y_max z_min z_max).DistanceToWallFromOut ![fin x, fin y, fin z] =
      if (x_min < x ∧ x < x_max) ∧ (y_min < y ∧ y < y_max) ∧ (z_min < z ∧ z < z_max) then fin (-1)
      else if x_max < x ∨ x < x_min then fin (min |x - x_min| |x - x_max|)
      else if y_max < y ∨ y < y_min then fin (min |y - y_min| |y - y_max|)
      else fin (min |z - z_min| |z - z_max|) := by
  simp only [DistanceToWallFromOut, ofBounds, Matrix.cons_val_zero, Matrix.cons_val_one,
    Matrix.head_cons, Matrix.cons_val_two, Matrix.tail_cons, fin_sub_fin, abs_fin, ite_lt_fin]
  simp only [gt_fin_fin, lt_fin_fin, Bool.and_eq_true, Bool.or_eq_true, decide_eq_true_eq,
    and_assoc]

/-- C1: for every finite box and every point with `min ≤ coordinate ≤ max` on
the three axes, `DistanceToWall(x,y,z)` returns the minimum over the three axes
of `min (coordinate - min) (max - coordinate)`. -/
theorem DistanceToWall_inside_eq (x_min x_max y_min y_max z_min z_max x y z : K)
    (hx : x_min ≤ x ∧ x ≤ x_max) (hy : y_min ≤ y ∧ y ≤ y_max) (hz : z_min ≤ z ∧ z ≤ z_max) :
    (ofBounds x_min x_max y_min y_max z_min z_max).DistanceToWall (fin x) (fin y) (fin z) =
      fin (min (min (min (x - x_min) (x_max - x)) (min (y - y_min) (y_max - y)))
        (min (z - z_min) (z_max - z))) :=
  DistanceToWall_of_not_outside _ _ _ _ _ _ _ _ _
    ((outside_eq_false_iff _ _ _ _ _ _ _ _ _).mpr ⟨hx, hy, hz⟩)

/-- C1, witness: on the default box the point `(128, 0, 500)` is inside and
`DistanceToWall` returns `116.5`. -/
theorem DistanceToWall_inside_eq_witness :
    (((0 : ℚ) ≤ 128 ∧ (128 : ℚ) ≤ 256.35) ∧ ((-116.5 : ℚ) ≤ 0 ∧ (0 : ℚ) ≤ 116.5) ∧
      ((0 : ℚ) ≤ 500 ∧ (500 : ℚ) ≤ 1036.8)) ∧
    (DistToBoxWall.new : DistToBoxWall ℚ).DistanceToWall (fin 128) (fin 0) (fin 500) =
      fin 116.5 := by
  refine ⟨by norm_num, ?_⟩
  have h := DistanceToWall_inside_eq (K := ℚ) 0 256.35 (-116.5) 116.5 0 1036.8 128 0 500
    (by norm_num) (by norm_num) (by norm_num)
  rw [new_eq_ofBounds, h]
  norm_num

/-- C2: for every finite box and point, `DistanceToWall(x,y,z)` returns `-1`
exactly when the point is outside the box on some axis, and for a point inside
or on the boundary the result is a non-negative finite value. -/
theorem DistanceToWall_eq_neg_one_iff (x_min x_max y_min y_max z_min z_max x y z : K) :
    ((ofBounds x_min x_max y_min y_max z_min z_max).DistanceToWall (fin x) (fin y) (fin z) =
        fin (-1) ↔
      (x < x_min ∨ x_max < x) ∨ (y < y_min ∨ y_max < y) ∨ (z < z_min ∨ z_max < z)) ∧
    ((x_min ≤ x ∧ x ≤ x_max) ∧ (y_min ≤ y ∧ y ≤ y_max) ∧ (z_min ≤ z ∧ z ≤ z_max) →
      ∃ d : K, 0 ≤ d ∧
        (ofBounds x_min x_max y_min y_max z_min z_max).DistanceToWall (fin x) (fin y) (fin z) =
          fin d) := by
  have hin : (x_min ≤ x ∧ x ≤ x_max) ∧ (y_min ≤ y ∧ y ≤ y_max) ∧ (z_min ≤ z ∧ z ≤ z_max) →
      ∃ d : K, 0 ≤ d ∧
        (ofBounds x_min x_max y_min y_max z_min z_max).DistanceToWall (fin x) (fin y) (fin z) =
          fin d := by
    rintro ⟨hx, hy, hz⟩
    refine ⟨_, ?_, DistanceToWall_of_not_outside _ _ _ _ _ _ _ _ _
      ((outside_eq_false_iff _ _ _ _ _ _ _ _ _).mpr ⟨hx, hy, hz⟩)⟩
    simp only [le_min_iff, sub_nonneg]
    exact ⟨⟨⟨hx.1, hx.2⟩, hy.1, hy.2⟩, hz.1, hz.2⟩
  refine ⟨⟨fun h => ?_, fun h => ?_⟩, hin⟩
  · by_contra hno
    have hins := (outside_eq_false_iff x_min x_max y_min y_max z_min z_max x y z).mp
      (by rw [← Bool.not_eq_true, outside_ofBounds]; exact hno)
    obtain ⟨d, hd, hval⟩ := hin hins
    rw [hval] at h
    have := Dbl.fin.inj h
    linarith
  · have ho := (outside_ofBounds x_min x_max y_min y_max z_min z_max x y z).mpr h
    simp [DistanceToWall, ho]

/-- C2, witness: on the default box the point `(-5, 0, 500)` is outside on x
and `DistanceToWall` returns `-1`. -/
theorem DistanceToWall_eq_neg_one_iff_witness :
    (DistToBoxWall.new : DistToBoxWall ℚ).DistanceToWall (fin (-5)) (fin 0) (fin 500) =
      fin (-1) := by
  rw [new_eq_ofBounds]
  exact (DistanceToWall_eq_neg_one_iff (K := ℚ) 0 256.35 (-116.5) 116.5 0 1036.8 (-5) 0 500).1.mpr
    (Or.inl (Or.inl (by norm_num)))

/-- C3: on the default box, for the inside point `(100, 0, 500)` and the
direction `(1, 2, 2)` (magnitude 3, `forward = true`), the directional
`DistanceToWall` returns `49.5`, which is `(max_y - x) / u_x`, whereas the
minimum of the three per-axis exit distances, each axis with its own coordinate,
direction component and bounds, is `174.75`. -/
theorem DistanceToWallDir_zx_uses_x :
    (DistToBoxWall.new : DistToBoxWall ℚ).DistanceToWallDir Rat.sqrt
        (fin 100) (fin 0) (fin 500) (fin 1) (fin 2) (fin 2) true = .ok (fin 49.5) ∧
    DistanceToWallDirSpec Rat.sqrt (0 : ℚ) 256.35 (-116.5) 116.5 0 1036.8
        100 0 500 1 2 2 true = 174.75 := by
  have h9 : Rat.sqrt 9 = 3 := by norm_num
  constructor
  · rw [new_eq_ofBounds, DistanceToWallDir_fin Rat.sqrt _ _ _ _ _ _ _ _ _ _ _ _ _
      (by norm_num) (by norm_num) (by norm_num) (by norm_num [h9]) (by norm_num) (by norm_num)]
    norm_num [exitDistance, unitDir, h9]
  · norm_num [DistanceToWallDirSpec, exitDistance, unitDir, h9]

/-- C4: on the default box, for the point `(0, 0, 0)` and the direction
`(1, 0, 0)`, the directional `DistanceToWall` returns `116.5` with
`forward = true` (not `max_x - x = 256.35`) and negative infinity with
`forward = false` (not `x - min_x = 0`). -/
theorem DistanceToWallDir_along_x_default :
    (DistToBoxWall.new : DistToBoxWall ℚ).DistanceToWallDir Rat.sqrt
        (fin 0) (fin 0) (fin 0) (fin 1) (fin 0) (fin 0) true = .ok (fin 116.5) ∧
    (DistToBoxWall.new : DistToBoxWall ℚ).DistanceToWallDir Rat.sqrt
        (fin 0) (fin 0) (fin 0) (fin 1) (fin 0) (fin 0) false = .ok ninf := by
  have h1 : Rat.sqrt 1 = 1 := by norm_num
  constructor
  · simp only [DistanceToWallDir, new_eq_ofBounds, outside, ofBounds, Matrix.cons_val_zero,
      Matrix.cons_val_one, Matrix.head_cons, Matrix.cons_val_two, Matrix.tail_cons, pow2,
      add_def, sub_def, mul_def, div_def, Dbl.add, Dbl.mul, Dbl.div, Dbl.neg, Dbl.lt, Dbl.sqrt,
      Dbl.isZero, isNaN, toFin?, signbit, zero, inf]
    norm_num [h1]
  · simp only [DistanceToWallDir, new_eq_ofBounds, outside, ofBounds, Matrix.cons_val_zero,
      Matrix.cons_val_one, Matrix.head_cons, Matrix.cons_val_two, Matrix.tail_cons, pow2,
      add_def, sub_def, mul_def, div_def, Dbl.add, Dbl.mul, Dbl.div, Dbl.neg, Dbl.lt, Dbl.sqrt,
      Dbl.isZero, isNaN, toFin?, signbit, zero, inf]
    norm_num [h1]
    intro h
    cases h

/-- C6: for every finite box and point, `DistanceToWallFromOut` returns `-1`
exactly when the point is strictly inside the box on all three axes; in every
other case the result is a non-negative finite value. -/
theorem DistanceToWallFromOut_eq_neg_one_iff (x_min x_max y_min y_max z_min z_max x y z : K) :
    ((ofBounds x_min x_max y_min y_max z_min z_max).DistanceToWallFromOut
        ![fin x, fin y, fin z] = fin (-1) ↔
      (x_min < x ∧ x < x_max) ∧ (y_min < y ∧ y < y_max) ∧ (z_min < z ∧ z < z_max)) ∧
    (¬ ((x_min < x ∧ x < x_max) ∧ (y_min < y ∧ y < y_max) ∧ (z_min < z ∧ z < z_max)) →
      ∃ d : K, 0 ≤ d ∧
        (ofBounds x_min x_max y_min y_max z_min z_max).DistanceToWallFromOut
          ![fin x, fin y, fin z] = fin d) := by
  have hout : ¬ ((x_min < x ∧ x < x_max) ∧ (y_min < y ∧ y < y_max) ∧ (z_min < z ∧ z < z_max)) →
      ∃ d : K, 0 ≤ d ∧
        (ofBounds x_min x_max y_min y_max z_min z_max).DistanceToWallFromOut
          ![fin x, fin y, fin z] = fin d := by
    intro hno
    rw [DistanceToWallFromOut_fin, if_neg hno]
    split_ifs
    · exact ⟨_, le_min (abs_nonneg _) (abs_nonneg _), rfl⟩
    · exact ⟨_, le_min (abs_nonneg _) (abs_nonneg _), rfl⟩
    · exact ⟨_, le_min (abs_nonneg _) (abs_nonneg _), rfl⟩
  refine ⟨⟨fun h => ?_, fun h => ?_⟩, hout⟩
  · by_contra hno
    obtain ⟨d, hd, hval⟩ := hout hno
    rw [hval] at h
    have := Dbl.fin.inj h
    linarith
  · rw [DistanceToWallFromOut_fin, if_pos h]

/-- C6, witness: on the default box the interior point `(128, 0, 500)` gives
`-1` and the boundary point `(0, 0, 500)` gives a non-negative value. -/
theorem DistanceToWallFromOut_eq_neg_one_iff_witness :
    (DistToBoxWall.new : DistToBoxWall ℚ).DistanceToWallFromOut ![fin 128, fin 0, fin 500] =
        fin (-1) ∧
    ∃ d : ℚ, 0 ≤ d ∧
      (DistToBoxWall.new : DistToBoxWall ℚ).DistanceToWallFromOut ![fin 0, fin 0, fin 500] =
        fin d := by
  rw [new_eq_ofBounds]
  have h1 := DistanceToWallFromOut_eq_neg_one_iff (K := ℚ) 0 256.35 (-116.5) 116.5 0 1036.8
    128 0 500
  have h2 := DistanceToWallFromOut_eq_neg_one_iff (K := ℚ) 0 256.35 (-116.5) 116.5 0 1036.8
    0 0 500
  exact ⟨h1.1.mpr (by norm_num), h2.2 (by norm_num)⟩

/-- C7: for every finite box and every point that is out of the `[min,max]`
range on at least one axis, `DistanceToWallFromOut` returns
`min |c - min_a| |c - max_a|` for the first axis `a`, in the order x, y, z, on
which the point is out of range, whatever the later coordinates are. -/
theorem DistanceToWallFromOut_first_axis (x_min x_max y_min y_max z_min z_max x y z : K)
    (hout : (x < x_min ∨ x_max < x) ∨ (y < y_min ∨ y_max < y) ∨ (z < z_min ∨ z_max < z)) :
    (ofBounds x_min x_max y_min y_max z_min z_max).DistanceToWallFromOut
        ![fin x, fin y, fin z] =
      if x < x_min ∨ x_max < x then fin (min |x - x_min| |x - x_max|)
      else if y < y_min ∨ y_max < y then fin (min |y - y_min| |y - y_max|)
      else fin (min |z - z_min| |z - z_max|) := by
  have hno : ¬ ((x_min < x ∧ x < x_max) ∧ (y_min < y ∧ y < y_max) ∧ (z_min < z ∧ z < z_max)) := by
    rintro ⟨⟨h1, h2⟩, ⟨h3, h4⟩, h5, h6⟩
    rcases hout with (h | h) | (h | h) | (h | h) <;> exact lt_asymm h ‹_›
  rw [DistanceToWallFromOut_fin, if_neg hno]
  simp only [or_comm]

/-- C7, witness: on the default box the point `(-10, 300, 5000)` is out of
range on all three axes and the value is the x one, `10`. -/
theorem DistanceToWallFromOut_first_axis_witness :
    (((-10 : ℚ) < 0 ∨ (256.35 : ℚ) < -10) ∨ ((300 : ℚ) < -116.5 ∨ (116.5 : ℚ) < 300) ∨
      ((5000 : ℚ) < 0 ∨ (1036.8 : ℚ) < 5000)) ∧
    (DistToBoxWall.new : DistToBoxWall ℚ).DistanceToWallFromOut
      ![fin (-10), fin 300, fin 5000] = fin 10 := by
  have hout : ((-10 : ℚ) < 0 ∨ (256.35 : ℚ) < -10) ∨ ((300 : ℚ) < -116.5 ∨ (116.5 : ℚ) < 300) ∨
      ((5000 : ℚ) < 0 ∨ (1036.8 : ℚ) < 5000) := Or.inl (Or.inl (by norm_num))
  refine ⟨hout, ?_⟩
  rw [new_eq_ofBounds,
    DistanceToWallFromOut_first_axis (K := ℚ) 0 256.35 (-116.5) 116.5 0 1036.8 (-10) 300 5000 hout,
    if_pos (Or.inl (by norm_num))]
  norm_num [abs_of_neg, abs_of_nonneg]

/-- C8: for every finite box with `x_min ≤ x_max`, `DistanceToWallFromOut`
returns `x_min - x` for a point with `x < x_min` and `x - x_max` for a point
with `x_max < x`. -/
theorem DistanceToWallFromOut_x_out (x_min x_max y_min y_max z_min z_max x y z : K)
    (hbox : x_min ≤ x_max) :
    (x < x_min →
      (ofBounds x_min x_max y_min y_max z_min z_max).DistanceToWallFromOut
        ![fin x, fin y, fin z] = fin (x_min - x)) ∧
    (x_max < x →
      (ofBounds x_min x_max y_min y_max z_min z_max).DistanceToWallFromOut
        ![fin x, fin y, fin z] = fin (x - x_max)) := by
  constructor
  · intro h
    have hno : ¬ ((x_min < x ∧ x < x_max) ∧ (y_min < y ∧ y < y_max) ∧ (z_min < z ∧ z < z_max)) :=
      fun hin => lt_asymm h hin.1.1
    rw [DistanceToWallFromOut_fin, if_neg hno, if_pos (Or.inr h), abs_of_neg (by linarith),
      abs_of_neg (by linarith)]
    congr 1
    rw [min_eq_left (by linarith)]
    ring
  · intro h
    have hno : ¬ ((x_min < x ∧ x < x_max) ∧ (y_min < y ∧ y < y_max) ∧ (z_min < z ∧ z < z_max)) :=
      fun hin => lt_asymm h hin.1.2
    rw [DistanceToWallFromOut_fin, if_neg hno, if_pos (Or.inl h), abs_of_pos (by linarith),
      abs_of_pos (by linarith)]
    congr 1
    rw [min_eq_right (by linarith)]

/-- C8, witness: on the default box the point `(-10, 0, 500)` gives `10`. -/
theorem DistanceToWallFromOut_x_out_witness :
    (0 : ℚ) ≤ 256.35 ∧
    (DistToBoxWall.new : DistToBoxWall ℚ).DistanceToWallFromOut
      ![fin (-10), fin 0, fin 500] = fin 10 := by
  have hbox : (0 : ℚ) ≤ 256.35 := by norm_num
  refine ⟨hbox, ?_⟩
  rw [new_eq_ofBounds,
    (DistanceToWallFromOut_x_out (K := ℚ) 0 256.35 (-116.5) 116.5 0 1036.8 (-10) 0 500 hbox).1
      (by norm_num)]
  norm_num

/-- C9: on the default box, for the inside point `(200, 0, 500)` and the
direction `(1, 2, 2)` (magnitude 3, `forward = true`), the directional
`DistanceToWall` returns the negative value `-250.5`, which is
`(max_y - x) / u_x`. -/
theorem DistanceToWallDir_negative_inside :
    (DistToBoxWall.new : DistToBoxWall ℚ).DistanceToWallDir Rat.sqrt
        (fin 200) (fin 0) (fin 500) (fin 1) (fin 2) (fin 2) true = .ok (fin (-250.5)) := by
  have h9 : Rat.sqrt 9 = 3 := by norm_num
  rw [new_eq_ofBounds, DistanceToWallDir_fin Rat.sqrt _ _ _ _ _ _ _ _ _ _ _ _ _
    (by norm_num) (by norm_num) (by norm_num) (by norm_num [h9]) (by norm_num) (by norm_num)]
  norm_num [exitDistance, unitDir, h9]

end DistToBoxWall

namespace Point

theorem compat_of_ne {K : Type} {a b : Point K} (h : a.length ≠ b.length) :
    a.compat b = .error (GeoAlgoException.sizeMismatch a.length b.length) := by
  simp [compat, h]

theorem compat_of_eq {K : Type} {a b : Point K} (h : a.length = b.length) :
    a.compat b = .ok () := by
  simp [compat, h]

variable {K : Type} [LinearOrderedField K]

open Dbl

/-- C10: each dimension-checked operation of `Point` raises the size-mismatch
error when the two sizes differ, before anything is computed: no value is
returned and `+=`, `-=` leave `*this` as it was; when the sizes agree each of
them returns normally. -/
theorem dimension_checked_ops (rsqrt : K → K) (a b : Point K) :
    (a.length ≠ b.length →
      a.SquaredDistance b = .error (GeoAlgoException.sizeMismatch a.length b.length) ∧
      a.Distance rsqrt b = .error (GeoAlgoException.sizeMismatch a.length b.length) ∧
      a.DotProduct b = .error (GeoAlgoException.sizeMismatch a.length b.length) ∧
      a.operator_add_assign b =
        (.error (GeoAlgoException.sizeMismatch a.length b.length), a) ∧
      a.operator_sub_assign b =
        (.error (GeoAlgoException.sizeMismatch a.length b.length), a) ∧
      a.operator_add b = .error (GeoAlgoException.sizeMismatch a.length b.length) ∧
      a.operator_sub b = .error (GeoAlgoException.sizeMismatch a.length b.length) ∧
      a.operator_mul b = .error (GeoAlgoException.sizeMismatch a.length b.length)) ∧
    (a.length = b.length →
      (∃ v, a.SquaredDistance b = .ok v) ∧
      (∃ v, a.Distance rsqrt b = .ok v) ∧
      (∃ v, a.DotProduct b = .ok v) ∧
      (∃ p, a.operator_add_assign b = (.ok (), p)) ∧
      (∃ p, a.operator_sub_assign b = (.ok (), p)) ∧
      (∃ p, a.operator_add b = .ok p) ∧
      (∃ p, a.operator_sub b = .ok p) ∧
      (∃ v, a.operator_mul b = .ok v)) := by
  constructor
  · intro h
    simp [SquaredDistance, Distance, DotProduct, operator_add_assign, operator_sub_assign,
      operator_add, operator_sub, operator_mul, compat_of_ne h]
  · intro h
    simp [SquaredDistance, Distance, DotProduct, operator_add_assign, operator_sub_assign,
      operator_add, operator_sub, operator_mul, compat_of_eq h]

/-- C10, witness: adding a 2-dimensional point to a 3-dimensional one raises
and leaves the left operand unchanged; two 2-dimensional points are added. -/
theorem dimension_checked_ops_witness :
    Point.operator_add_assign [fin (1 : ℚ), fin 2, fin 3] [fin 4, fin 5] =
        (.error (GeoAlgoException.sizeMismatch 3 2), [fin 1, fin 2, fin 3]) ∧
    ∃ p, Point.operator_add [fin (1 : ℚ), fin 2] [fin 4, fin 5] = .ok p :=
  ⟨((dimension_checked_ops (K := ℚ) Rat.sqrt [fin 1, fin 2, fin 3] [fin 4, fin 5]).1
      (by decide)).2.2.2.1,
    ((dimension_checked_ops (K := ℚ) Rat.sqrt [fin 1, fin 2] [fin 4, fin 5]).2
      rfl).2.2.2.2.2.1⟩

end Point

/-! ## Arithmetic of all doubles: sign changes -/

namespace Dbl

variable {K : Type} [LinearOrderedField K]

theorem neg_def (a : Dbl K) : -a = neg a := rfl

theorem sign_cases (v : K) :
    (v < 0 ∧ ¬ 0 < v ∧ v ≠ 0 ∧ v ≤ 0 ∧ ¬ 0 ≤ v) ∨ v = 0 ∨
      (0 < v ∧ ¬ v < 0 ∧ v ≠ 0 ∧ ¬ v ≤ 0 ∧ 0 ≤ v) := by
  rcases lt_trichotomy v 0 with h | h | h
  · exact Or.inl ⟨h, not_lt.mpr h.le, h.ne, h.le, not_le.mpr h⟩
  · exact Or.inr (Or.inl h)
  · exact Or.inr (Or.inr ⟨h, not_lt.mpr h.le, h.ne', not_le.mpr h, h.le⟩)

theorem pow2_neg (a : Dbl K) : pow2 (-a) = pow2 a := by
  cases a with
  | fin v =>
    by_cases h : v = 0
    · subst h
      simp [pow2, mul_def, neg_def, neg, mul, isNaN, toFin?, signbit, zero]
    · simp [pow2, mul_def, neg_def, neg, mul, isNaN, toFin?, signbit, zero, h]
  | nzero => simp [pow2, mul_def, neg_def, neg, mul, isNaN, toFin?, signbit, zero]
  | pinf => simp [pow2, mul_def, neg_def, neg, mul, isNaN, toFin?, signbit, inf]
  | ninf => simp [pow2, mul_def, neg_def, neg, mul, isNaN, toFin?, signbit, inf]
  | nan => rfl

theorem div_mul_neg_one (a m : Dbl K) : a / m * fin (-1) = (-a) / m := by
  have h1 : ¬ ((-1 : K) = 0) := by norm_num
  have h2 : ((-1 : K) < 0) := by norm_num
  cases a with
  | fin v =>
    cases m with
    | fin w =>
      rcases sign_cases v with ⟨a1, a2, a3, a4, a5⟩ | rfl | ⟨a1, a2, a3, a4, a5⟩ <;>
        rcases sign_cases w with ⟨b1, b2, b3, b4, b5⟩ | rfl | ⟨b1, b2, b3, b4, b5⟩ <;>
        simp [mul_def, div_def, neg_def, neg, mul, div, isNaN, toFin?, signbit, zero, inf,
          h1, h2, neg_div, *]
    | nzero =>
      rcases sign_cases v with ⟨a1, a2, a3, a4, a5⟩ | rfl | ⟨a1, a2, a3, a4, a5⟩ <;>
        simp [mul_def, div_def, neg_def, neg, mul, div, isNaN, toFin?, signbit, zero, inf,
          h1, h2, *]
    | pinf =>
      rcases sign_cases v with ⟨a1, a2, a3, a4, a5⟩ | rfl | ⟨a1, a2, a3, a4, a5⟩ <;>
        simp [mul_def, div_def, neg_def, neg, mul, div, isNaN, toFin?, signbit, zero, inf,
          h1, h2, *]
    | ninf =>
      rcases sign_cases v with ⟨a1, a2, a3, a4, a5⟩ | rfl | ⟨a1, a2, a3, a4, a5⟩ <;>
        simp [mul_def, div_def, neg_def, neg, mul, div, isNaN, toFin?, signbit, zero, inf,
          h1, h2, *]
    | nan => simp [mul_def, div_def, neg_def, neg, mul, div, isNaN]
  | nzero =>
    cases m with
    | fin w =>
      rcases sign_cases w with ⟨b1, b2, b3, b4, b5⟩ | rfl | ⟨b1, b2, b3, b4, b5⟩ <;>
        simp [mul_def, div_def, neg_def, neg, mul, div, isNaN, toFin?, signbit, zero, inf,
          h1, h2, *]
    | nzero => simp [mul_def, div_def, neg_def, neg, mul, div, isNaN, toFin?, signbit, zero, inf]
    | pinf => simp [mul_def, div_def, neg_def, neg, mul, div, isNaN, toFin?, signbit, zero, inf, h1, h2]
    | ninf => simp [mul_def, div_def, neg_def, neg, mul, div, isNaN, toFin?, signbit, zero, inf, h1, h2]
    | nan => simp [mul_def, div_def, neg_def, neg, mul, div, isNaN]
  | pinf =>
    cases m with
    | fin w =>
      rcases sign_cases w with ⟨b1, b2, b3, b4, b5⟩ | rfl | ⟨b1, b2, b3, b4, b5⟩ <;>
        simp [mul_def, div_def, neg_def, neg, mul, div, isNaN, toFin?, signbit, zero, inf,
          h1, h2, *]
    | nzero => simp [mul_def, div_def, neg_def, neg, mul, div, isNaN, toFin?, signbit, zero, inf, h1, h2]
    | pinf => simp [mul_def, div_def, neg_def, neg, mul, div, isNaN, toFin?, signbit, zero, inf, h1, h2]
    | ninf => simp [mul_def, div_def, neg_def, neg, mul, div, isNaN, toFin?, signbit, zero, inf, h1, h2]
    | nan => simp [mul_def, div_def, neg_def, neg, mul, div, isNaN]
  | ninf =>
    cases m with
    | fin w =>
      rcases sign_cases w with ⟨b1, b2, b3, b4, b5⟩ | rfl | ⟨b1, b2, b3, b4, b5⟩ <;>
        simp [mul_def, div_def, neg_def, neg, mul, div, isNaN, toFin?, signbit, zero, inf,
          h1, h2, *]
    | nzero => simp [mul_def, div_def, neg_def, neg, mul, div, isNaN, toFin?, signbit, zero, inf, h1, h2]
    | pinf => simp [mul_def, div_def, neg_def, neg, mul, div, isNaN, toFin?, signbit, zero, inf, h1, h2]
    | ninf => simp [mul_def, div_def, neg_def, neg, mul, div, isNaN, toFin?, signbit, zero, inf, h1, h2]
    | nan => simp [mul_def, div_def, neg_def, neg, mul, div, isNaN]
  | nan => simp [mul_def, div_def, neg_def, neg, mul, div, isNaN]
theorem pow2_sub_comm (x y : Dbl K) : pow2 (x - y) = pow2 (y - x) := by
  cases x with
  | fin v =>
    cases y with
    | fin w =>
      rw [fin_sub_fin, fin_sub_fin, pow2_fin, pow2_fin]
      congr 1
      ring
    | nzero =>
      rcases sign_cases v with ⟨a1, a2, a3, a4, a5⟩ | rfl | ⟨a1, a2, a3, a4, a5⟩ <;>
        simp [pow2, sub_def, mul_def, neg, add, mul, isNaN, toFin?, signbit, zero, inf, *]
    | pinf =>
      rcases sign_cases v with ⟨a1, a2, a3, a4, a5⟩ | rfl | ⟨a1, a2, a3, a4, a5⟩ <;>
        simp [pow2, sub_def, mul_def, neg, add, mul, isNaN, toFin?, signbit, zero, inf, *]
    | ninf =>
      rcases sign_cases v with ⟨a1, a2, a3, a4, a5⟩ | rfl | ⟨a1, a2, a3, a4, a5⟩ <;>
        simp [pow2, sub_def, mul_def, neg, add, mul, isNaN, toFin?, signbit, zero, inf, *]
    | nan => simp [pow2, sub_def, mul_def, neg, add, mul, isNaN]
  | nzero =>
    cases y with
    | fin w =>
      rcases sign_cases w with ⟨a1, a2, a3, a4, a5⟩ | rfl | ⟨a1, a2, a3, a4, a5⟩ <;>
        simp [pow2, sub_def, mul_def, neg, add, mul, isNaN, toFin?, signbit, zero, inf, *]
    | nzero => rfl
    | pinf => simp [pow2, sub_def, mul_def, neg, add, mul, isNaN, toFin?, signbit, zero, inf]
    | ninf => simp [pow2, sub_def, mul_def, neg, add, mul, isNaN, toFin?, signbit, zero, inf]
    | nan => simp [pow2, sub_def, mul_def, neg, add, mul, isNaN]
  | pinf =>
    cases y with
    | fin w =>
      rcases sign_cases w with ⟨a1, a2, a3, a4, a5⟩ | rfl | ⟨a1, a2, a3, a4, a5⟩ <;>
        simp [pow2, sub_def, mul_def, neg, add, mul, isNaN, toFin?, signbit, zero, inf, *]
    | nzero => simp [pow2, sub_def, mul_def, neg, add, mul, isNaN, toFin?, signbit, zero, inf]
    | pinf => rfl
    | ninf => simp [pow2, sub_def, mul_def, neg, add, mul, isNaN, toFin?, signbit, zero, inf]
    | nan => simp [pow2, sub_def, mul_def, neg, add, mul, isNaN]
  | ninf =>
    cases y with
    | fin w =>
      rcases sign_cases w with ⟨a1, a2, a3, a4, a5⟩ | rfl | ⟨a1, a2, a3, a4, a5⟩ <;>
        simp [pow2, sub_def, mul_def, neg, add, mul, isNaN, toFin?, signbit, zero, inf, *]
    | nzero => simp [pow2, sub_def, mul_def, neg, add, mul, isNaN, toFin?, signbit, zero, inf]
    | pinf => simp [pow2, sub_def, mul_def, neg, add, mul, isNaN, toFin?, signbit, zero, inf]
    | ninf => rfl
    | nan => simp [pow2, sub_def, mul_def, neg, add, mul, isNaN]
  | nan =>
    cases y <;> simp [pow2, sub_def, mul_def, neg, add, mul, isNaN]

theorem fin_div_fin_scale (a : K) {k m : K} (hk : 0 < k) (hm : m ≠ 0) :
    (fin (k * a) / fin (k * m) : Dbl K) = fin a / fin m := by
  have hkm : k * m ≠ 0 := mul_ne_zero hk.ne' hm
  by_cases ha : a = 0
  · subst ha
    have hsign : (k * m < 0) ↔ (m < 0) := by
      constructor
      · intro h
        by_contra hno
        have : 0 ≤ k * m := mul_nonneg hk.le (not_lt.mp hno)
        exact absurd h (not_lt.mpr this)
      · intro h
        exact mul_neg_of_pos_of_neg hk h
    simp [div_def, div, isNaN, toFin?, signbit, hkm, hm, hsign]
  · rw [fin_div_fin_of_ne (mul_ne_zero hk.ne' ha) hkm, fin_div_fin_of_ne ha hm,
      mul_div_mul_left _ _ hk.ne']

end Dbl

/-! ## `DistToBoxWall`: direction reversal, scaling, reset -/

namespace DistToBoxWall

variable {K : Type} [LinearOrderedField K]

open Dbl

/-- C16: for every box, point and direction, the directional `DistanceToWall`
with `forward = false` has the outcome (value, `-1` or error) of the call with
`forward = true` on the negated direction. -/
theorem DistanceToWallDir_backward_eq_neg_forward (rsqrt : K → K) (self : DistToBoxWall K)
    (x y z dirx diry dirz : Dbl K) :
    self.DistanceToWallDir rsqrt x y z dirx diry dirz false =
      self.DistanceToWallDir rsqrt x y z (-dirx) (-diry) (-dirz) true := by
  simp only [DistanceToWallDir, pow2_neg, Bool.not_false, Bool.not_true, if_true,
    Bool.false_eq_true, if_false, div_mul_neg_one]

/-- C17: `Reset()` sets `min = (0, -116.5, 0)` and `max = (256.35, 116.5, 1036.8)`
whatever the configuration was, so it is idempotent; the default constructor
gives the same configuration; and in it `min ≤ max` on every axis. -/
theorem Reset_restores_default (self : DistToBoxWall K) :
    (self.Reset.xyz_min = ![fin 0, fin (-116.5), fin 0] ∧
      self.Reset.xyz_max = ![fin 256.35, fin 116.5, fin 1036.8]) ∧
    self.Reset.Reset = self.Reset ∧
    (DistToBoxWall.new : DistToBoxWall K) = self.Reset ∧
    ∀ i : Fin 3, ∃ lo hi : K,
      self.Reset.xyz_min i = fin lo ∧ self.Reset.xyz_max i = fin hi ∧ lo ≤ hi := by
  refine ⟨⟨rfl, rfl⟩, rfl, rfl, ?_⟩
  intro i
  fin_cases i
  · exact ⟨0, 256.35, rfl, rfl, by norm_num⟩
  · exact ⟨-116.5, 116.5, rfl, rfl, by norm_num⟩
  · exact ⟨0, 1036.8, rfl, rfl, by norm_num⟩

/-- C19: on the default box, for the inside point `(0, 100, 500)` and the
direction `(1, 2, 2)` (all components non-zero, magnitude 3, `forward = true`)
the directional `DistanceToWall` returns `t = 349.5`, and the point `p + t u`
has the y coordinate `333`, beyond `max_y = 116.5`: it is outside the box. -/
theorem DistanceToWallDir_leaves_box :
    (DistToBoxWall.new : DistToBoxWall ℚ).DistanceToWallDir Rat.sqrt
        (fin 0) (fin 100) (fin 500) (fin 1) (fin 2) (fin 2) true = .ok (fin 349.5) ∧
    (100 : ℚ) + 349.5 * unitDir 2 (Rat.sqrt (1 * 1 + 2 * 2 + 2 * 2)) true = 333 ∧
    (116.5 : ℚ) < 333 := by
  have h9 : Rat.sqrt 9 = 3 := by norm_num
  refine ⟨?_, ?_, by norm_num⟩
  · rw [new_eq_ofBounds, DistanceToWallDir_fin Rat.sqrt _ _ _ _ _ _ _ _ _ _ _ _ _
      (by norm_num) (by norm_num) (by norm_num) (by norm_num [h9]) (by norm_num) (by norm_num)]
    norm_num [exitDistance, unitDir, h9]
  · norm_num [unitDir, h9]

end DistToBoxWall

/-! ## `Point`: distances and arithmetic -/

namespace Point

variable {K : Type} [LinearOrderedField K]

open Dbl

theorem Distance_eq_unchecked (rsqrt : K → K) (a b : Point K) (h : a.length = b.length) :
    a.Distance rsqrt b = .ok (a._Distance_ rsqrt b) := by
  simp only [Distance, SquaredDistance, compat_of_eq h, _Distance_]
theorem at_map_fin (a : List K) (i : Nat) (hi : i < a.length) :
    Point.at_ (a.map fin) i = fin (a.getD i 0) := by
  simp [at_, List.getD_eq_getElem?_getD, List.getElem?_map, List.getElem?_eq_getElem hi]

/-- The accumulation `res = 0; for(i < n) res += g(i)` on finite terms. -/
theorem foldl_add_fin (n : Nat) (g : Nat → Dbl K) (f : Nat → K)
    (h : ∀ i, i < n → g i = fin (f i)) :
    (List.range n).foldl (fun acc i => acc + g i) (fin 0) =
      fin (∑ i ∈ Finset.range n, f i) := by
  induction n with
  | zero => simp
  | succ n ih =>
    rw [List.range_succ, List.foldl_append, ih (fun i hi => h i (Nat.lt_succ_of_lt hi))]
    simp only [List.foldl_cons, List.foldl_nil]
    rw [h n (Nat.lt_succ_self n), fin_add_fin, Finset.sum_range_succ]

theorem unchecked_SquaredDistance_fin (a b : List K) (h : a.length = b.length) :
    Point._SquaredDistance_ (a.map fin) (b.map fin) =
      fin (∑ i ∈ Finset.range a.length, (b.getD i 0 - a.getD i 0) ^ 2) := by
  unfold _SquaredDistance_
  rw [List.length_map]
  refine foldl_add_fin a.length _ _ (fun i hi => ?_)
  rw [at_map_fin a i hi, at_map_fin b i (h ▸ hi), fin_sub_fin, pow2_fin, sq]

theorem sum_sq_diff_nonneg (a b : List K) :
    0 ≤ ∑ i ∈ Finset.range a.length, (b.getD i 0 - a.getD i 0) ^ 2 :=
  Finset.sum_nonneg (fun _ _ => sq_nonneg _)

theorem unchecked_SquaredDistance_comm (a b : Point K) (h : a.length = b.length) :
    a._SquaredDistance_ b = b._SquaredDistance_ a := by
  unfold _SquaredDistance_
  rw [h]
  congr 1
  funext dist2 i
  rw [pow2_sub_comm]

theorem at_set (p : Point K) (i j : Nat) (v : Dbl K) :
    Point.at_ (p.set i v) j = if i = j ∧ i < p.length then v else p.at_ j := by
  simp only [at_, List.getD_eq_getElem?_getD, List.getElem?_set]
  by_cases hij : i = j
  · subst hij
    by_cases hi : i < p.length
    · simp [hi]
    · simp [hi, List.getElem?_eq_none (not_lt.mp hi)]
  · simp [hij]

/-- The loop `for(size_t i=0; i<n; ++i) (*this)[i] = op((*this)[i], rhs[i])`
keeps the size and changes exactly the first `n` coordinates. -/
theorem loop_set (op : Dbl K → Dbl K → Dbl K) (a b : Point K) (n : Nat) (hn : n ≤ a.length) :
    ((List.range n).foldl (fun this i => this.set i (op (Point.at_ this i) (b.at_ i))) a).length =
        a.length ∧
    ∀ j, Point.at_ ((List.range n).foldl
        (fun this i => this.set i (op (Point.at_ this i) (b.at_ i))) a) j =
      if j < n then op (a.at_ j) (b.at_ j) else a.at_ j := by
  induction n with
  | zero => simp
  | succ n ih =>
    obtain ⟨hl, hv⟩ := ih (Nat.le_of_succ_le hn)
    rw [List.range_succ, List.foldl_append]
    simp only [List.foldl_cons, List.foldl_nil]
    refine ⟨by rw [List.length_set, hl], fun j => ?_⟩
    rw [at_set, hl, hv n, hv j]
    have hn' : n < a.length := hn
    by_cases hj : n = j
    · subst hj
      simp [hn']
    · rcases Nat.lt_or_gt_of_ne hj with h | h
      · have h1 : ¬ j < n := by omega
        have h2 : ¬ j < n + 1 := by omega
        simp [hj, h1, h2]
      · have h2 : j < n + 1 := by omega
        simp [hj, h, h2]

theorem operator_add_assign_eq (a b : Point K) (h : a.length = b.length) :
    ∃ r : Point K, a.operator_add_assign b = (.ok (), r) ∧ r.length = a.length ∧
      ∀ i, i < a.length → r.at_ i = a.at_ i + b.at_ i := by
  obtain ⟨hl, hv⟩ := loop_set (fun u v => u + v) a b a.length le_rfl
  refine ⟨_, ?_, hl, fun i hi => ?_⟩
  · simp only [operator_add_assign, compat_of_eq h]
  · rw [hv i, if_pos hi]

theorem operator_sub_assign_eq (a b : Point K) (h : a.length = b.length) :
    ∃ r : Point K, a.operator_sub_assign b = (.ok (), r) ∧ r.length = a.length ∧
      ∀ i, i < a.length → r.at_ i = a.at_ i - b.at_ i := by
  obtain ⟨hl, hv⟩ := loop_set (fun u v => u - v) a b a.length le_rfl
  refine ⟨_, ?_, hl, fun i hi => ?_⟩
  · simp only [operator_sub_assign, compat_of_eq h]
  · rw [hv i, if_pos hi]

theorem at_map (p : Point K) (f : Dbl K → Dbl K) (i : Nat) (hi : i < p.length) :
    Point.at_ (p.map f) i = f (p.at_ i) := by
  simp [at_, List.getD_eq_getElem?_getD, List.getElem?_map, List.getElem?_eq_getElem hi]

/-- C11: for Points `a`, `b` of equal dimension `SquaredDistance` and
`Distance` are symmetric, and for a Point `c` of finite coordinates the
distance from `c` to `c` is `0` (`sqrt(0)` being `0`). -/
theorem Distance_symm_and_self (rsqrt : K → K) (a b : Point K) (c : List K) :
    (a.length = b.length →
      a.SquaredDistance b = b.SquaredDistance a ∧ a.Distance rsqrt b = b.Distance rsqrt a) ∧
    (rsqrt 0 = 0 →
      Point.Distance rsqrt (c.map fin) (c.map fin) = .ok (fin 0)) := by
  constructor
  · intro h
    have hs : a.SquaredDistance b = b.SquaredDistance a := by
      simp only [SquaredDistance, compat_of_eq h, compat_of_eq h.symm,
        unchecked_SquaredDistance_comm a b h]
    exact ⟨hs, by simp only [Distance, hs]⟩
  · intro h0
    simp only [Distance, SquaredDistance, compat_of_eq (rfl : (c.map fin).length = _),
      unchecked_SquaredDistance_fin c c rfl, sub_self, ne_eq, OfNat.ofNat_ne_zero, not_false_eq_true,
      zero_pow, Finset.sum_const_zero]
    rw [sqrt_fin rsqrt le_rfl, h0]

/-- C11, witness: the points `(0, 0)` and `(3, 4)`. -/
theorem Distance_symm_and_self_witness :
    (Point.SquaredDistance [fin (0 : ℚ), fin 0] [fin 3, fin 4] =
        Point.SquaredDistance [fin 3, fin 4] [fin 0, fin 0] ∧
      Point.Distance Rat.sqrt [fin (0 : ℚ), fin 0] [fin 3, fin 4] =
        Point.Distance Rat.sqrt [fin 3, fin 4] [fin 0, fin 0]) ∧
    Point.Distance Rat.sqrt ([3, 4].map fin) ([3, 4].map fin) = .ok (fin (0 : ℚ)) :=
  ⟨(Distance_symm_and_self (K := ℚ) Rat.sqrt [fin 0, fin 0] [fin 3, fin 4] []).1 rfl,
    (Distance_symm_and_self (K := ℚ) Rat.sqrt [] [] [3, 4]).2 (by norm_num)⟩

/-- C12: for Points `a`, `b` of finite coordinates and equal dimension,
`SquaredDistance` is the sum over the axes of the squared coordinate
differences and `Distance` is its square root; when that root is exact and
non-negative, `SquaredDistance(a,b) = pow(Distance(a,b), 2)` and the distance
is not negative. -/
theorem SquaredDistance_eq_sum (rsqrt : K → K) (a b : List K) (h : a.length = b.length) :
    Point.SquaredDistance (a.map fin) (b.map fin) =
      .ok (fin (∑ i ∈ Finset.range a.length, (b.getD i 0 - a.getD i 0) ^ 2)) ∧
    Point.Distance rsqrt (a.map fin) (b.map fin) =
      .ok (fin (rsqrt (∑ i ∈ Finset.range a.length, (b.getD i 0 - a.getD i 0) ^ 2))) ∧
    (0 ≤ rsqrt (∑ i ∈ Finset.range a.length, (b.getD i 0 - a.getD i 0) ^ 2) ∧
      rsqrt (∑ i ∈ Finset.range a.length, (b.getD i 0 - a.getD i 0) ^ 2) *
        rsqrt (∑ i ∈ Finset.range a.length, (b.getD i 0 - a.getD i 0) ^ 2) =
        ∑ i ∈ Finset.range a.length, (b.getD i 0 - a.getD i 0) ^ 2 →
      ∃ d2 d : Dbl K, Point.SquaredDistance (a.map fin) (b.map fin) = .ok d2 ∧
        Point.Distance rsqrt (a.map fin) (b.map fin) = .ok d ∧
        d2 = pow2 d ∧ d.lt (fin 0) = false) := by
  have hl : (a.map (fin : K → Dbl K)).length = (b.map (fin : K → Dbl K)).length := by
    simp [h]
  have hsq : Point.SquaredDistance (a.map fin) (b.map fin) =
      .ok (fin (∑ i ∈ Finset.range a.length, (b.getD i 0 - a.getD i 0) ^ 2)) := by
    simp only [SquaredDistance, compat_of_eq hl, unchecked_SquaredDistance_fin a b h]
  have hd : Point.Distance rsqrt (a.map fin) (b.map fin) =
      .ok (fin (rsqrt (∑ i ∈ Finset.range a.length, (b.getD i 0 - a.getD i 0) ^ 2))) := by
    simp only [Distance, hsq, sqrt_fin rsqrt (sum_sq_diff_nonneg a b)]
  refine ⟨hsq, hd, fun hs => ⟨_, _, hsq, hd, ?_, ?_⟩⟩
  · rw [pow2_fin, hs.2]
  · rw [lt_fin_fin]
    simpa using hs.1

/-- C12, witness: for `(0, 0)` and `(3, 4)` the squared distance is `25`, the
distance `5`, and `25 = pow(5, 2)`. -/
theorem SquaredDistance_eq_sum_witness :
    Point.SquaredDistance ([0, 0].map fin) ([3, 4].map fin) = .ok (fin (25 : ℚ)) ∧
    Point.Distance Rat.sqrt ([0, 0].map fin) ([3, 4].map fin) = .ok (fin (5 : ℚ)) ∧
    ∃ d2 d : Dbl ℚ, Point.SquaredDistance ([0, 0].map fin) ([3, 4].map fin) = .ok d2 ∧
      Point.Distance Rat.sqrt ([0, 0].map fin) ([3, 4].map fin) = .ok d ∧
      d2 = pow2 d ∧ d.lt (fin 0) = false := by
  have h25 : Rat.sqrt 25 = 5 := by norm_num
  obtain ⟨h1, h2, h3⟩ := SquaredDistance_eq_sum (K := ℚ) Rat.sqrt [0, 0] [3, 4] rfl
  refine ⟨?_, ?_, h3 (by norm_num [Finset.sum_range_succ, h25])⟩
  · rw [h1]
    norm_num [Finset.sum_range_succ]
  · rw [h2]
    norm_num [Finset.sum_range_succ, h25]

/-- C18: for Points `a`, `b` of equal dimension and every scalar `k`, `a + b`
and `a - b` (and `+=`, `-=`) return a Point of the dimension of `a` whose
`i`-th coordinate is `a[i] + b[i]`, `a[i] - b[i]`; `a * k` and `a / k` (and
`*=`, `/=`), which have no dimension check and no error outcome, return a Point
of the dimension of `a` whose `i`-th coordinate is `a[i] * k`, `a[i] / k`. -/
theorem arithmetic_elementwise (a b : Point K) (k : Dbl K) (h : a.length = b.length) :
    (∃ r : Point K, a.operator_add b = .ok r ∧ a.operator_add_assign b = (.ok (), r) ∧
      r.length = a.length ∧ ∀ i, i < a.length → r.at_ i = a.at_ i + b.at_ i) ∧
    (∃ r : Point K, a.operator_sub b = .ok r ∧ a.operator_sub_assign b = (.ok (), r) ∧
      r.length = a.length ∧ ∀ i, i < a.length → r.at_ i = a.at_ i - b.at_ i) ∧
    ((a.operator_mul_scalar k).length = a.length ∧
      a.operator_mul_assign k = a.operator_mul_scalar k ∧
      ∀ i, i < a.length → (a.operator_mul_scalar k).at_ i = a.at_ i * k) ∧
    ((a.operator_div_scalar k).length = a.length ∧
      a.operator_div_assign k = a.operator_div_scalar k ∧
      ∀ i, i < a.length → (a.operator_div_scalar k).at_ i = a.at_ i / k) := by
  refine ⟨?_, ?_, ?_, ?_⟩
  · obtain ⟨r, hr, hl, hv⟩ := operator_add_assign_eq a b h
    exact ⟨r, by simp [operator_add, hr], hr, hl, hv⟩
  · obtain ⟨r, hr, hl, hv⟩ := operator_sub_assign_eq a b h
    exact ⟨r, by simp [operator_sub, hr], hr, hl, hv⟩
  · exact ⟨by simp [operator_mul_scalar], rfl, fun i hi => at_map a _ i hi⟩
  · exact ⟨by simp [operator_div_scalar], rfl, fun i hi => at_map a _ i hi⟩

/-- C18, witness: `(1, 2) + (3, 5)` is defined and has dimension 2. -/
theorem arithmetic_elementwise_witness :
    ([fin (1 : ℚ), fin 2] : Point ℚ).length = ([fin 3, fin 5] : Point ℚ).length ∧
    ∃ r : Point ℚ, Point.operator_add [fin 1, fin 2] [fin 3, fin 5] = .ok r ∧
      r.length = 2 ∧ r.at_ 1 = fin 2 + fin 5 := by
  obtain ⟨r, h1, _, h3, h4⟩ :=
    (arithmetic_elementwise (K := ℚ) [fin 1, fin 2] [fin 3, fin 5] (fin 2) rfl).1
  exact ⟨rfl, r, h1, h3, h4 1 (by decide)⟩

end Point

/-! ## `Trajectory` -/

namespace Trajectory

variable {K : Type} [LinearOrderedField K]

open Dbl

theorem at_mem (t : Trajectory K) (i : Nat) (hi : i < t.length) : t.at_ i ∈ t := by
  simp only [at_, List.getD_eq_getElem?_getD, List.getElem?_eq_getElem hi, Option.getD_some]
  exact List.getElem_mem hi

theorem Uniform.length_eq {t : Trajectory K} (h : Uniform t) (i j : Nat) (hi : i < t.length)
    (hj : j < t.length) : (t.at_ i).length = (t.at_ j).length := by
  rw [h _ (at_mem t i hi), h _ (at_mem t j hj)]

theorem uniform_nil : Uniform ([] : Trajectory K) := fun _ hp => by cases hp

theorem uniform_cons (first : Point K) (rest : Trajectory K) :
    Uniform (first :: rest) ↔ ∀ p ∈ rest, p.length = first.length := by
  simp [Uniform, at_]

theorem push_back_cons (first : Point K) (rest : Trajectory K) (p : Point K) :
    Trajectory.push_back (first :: rest) p =
      if first.length = p.length then (.ok (), first :: (rest ++ [p]))
      else (.error (GeoAlgoException.sizeMismatch first.length p.length), first :: rest) := by
  by_cases h : first.length = p.length <;> simp [push_back, compat, h]

theorem push_back_uniform (t : Trajectory K) (p : Point K) (t' : Trajectory K)
    (hu : Uniform t) (h : t.push_back p = (.ok (), t')) : Uniform t' := by
  cases t with
  | nil =>
    simp only [push_back, compat, List.nil_append, Prod.mk.injEq, true_and] at h
    subst h
    exact (uniform_cons p []).mpr (fun q hq => by cases hq)
  | cons first rest =>
    rw [push_back_cons] at h
    by_cases hp : first.length = p.length
    · rw [if_pos hp] at h
      simp only [Prod.mk.injEq, true_and] at h
      subst h
      rw [uniform_cons] at hu ⊢
      intro q hq
      rcases List.mem_append.mp hq with hq | hq
      · exact hu q hq
      · rw [List.mem_singleton.mp hq, hp]
    · rw [if_neg hp] at h
      simp at h

theorem push_back_all_cons (first : Point K) (obj : List (Point K)) :
    ∀ rest : Trajectory K,
      ((∀ p ∈ obj, p.length = first.length) →
        push_back_all (first :: rest) obj = .ok (first :: rest ++ obj)) ∧
      ((¬ ∀ p ∈ obj, p.length = first.length) →
        ∃ e, push_back_all (first :: rest) obj = .error e) := by
  induction obj with
  | nil =>
    intro rest
    simp [push_back_all]
  | cons q qs ih =>
    intro rest
    by_cases hq : first.length = q.length
    · have hstep : push_back_all (first :: rest) (q :: qs) =
          push_back_all (first :: (rest ++ [q])) qs := by
        simp only [push_back_all, push_back_cons, if_pos hq]
      rw [hstep]
      obtain ⟨h1, h2⟩ := ih (rest ++ [q])
      constructor
      · intro hall
        rw [h1 (fun p hp => hall p (List.mem_cons_of_mem _ hp))]
        simp
      · intro hno
        apply h2
        intro hall
        apply hno
        intro p hp
        rcases List.mem_cons.mp hp with rfl | hp
        · exact hq.symm
        · exact hall p hp
    · constructor
      · intro hall
        exact absurd (hall q (List.mem_cons_self _ _)).symm hq
      · intro _
        refine ⟨GeoAlgoException.sizeMismatch first.length q.length, ?_⟩
        simp only [push_back_all, push_back_cons, if_neg hq]

theorem push_back_all_nil (obj : List (Point K)) :
    (Uniform obj → push_back_all ([] : Trajectory K) obj = .ok obj) ∧
    (¬ Uniform obj → ∃ e, push_back_all ([] : Trajectory K) obj = .error e) := by
  cases obj with
  | nil => exact ⟨fun _ => rfl, fun h => absurd uniform_nil h⟩
  | cons first qs =>
    have hstep : push_back_all ([] : Trajectory K) (first :: qs) = push_back_all [first] qs := by
      simp [push_back_all, push_back, compat]
    rw [hstep, uniform_cons]
    obtain ⟨h1, h2⟩ := push_back_all_cons first qs []
    exact ⟨fun h => by simpa using h1 h, h2⟩

theorem push_back_all_ok_iff (obj : List (Point K)) :
    (push_back_all ([] : Trajectory K) obj = .ok obj ↔ Uniform obj) ∧
    ((∃ e, push_back_all ([] : Trajectory K) obj = .error e) ↔ ¬ Uniform obj) := by
  obtain ⟨h1, h2⟩ := push_back_all_nil obj
  constructor
  · refine ⟨fun h => ?_, h1⟩
    by_contra hno
    obtain ⟨e, he⟩ := h2 hno
    rw [he] at h
    cases h
  · refine ⟨fun ⟨e, he⟩ hu => ?_, h2⟩
    rw [h1 hu] at he
    cases he

theorem map_ofVector (obj : List (List (Dbl K))) : obj.map Point.ofVector = obj := by
  have hid : (Point.ofVector : List (Dbl K) → Point K) = id := rfl
  rw [hid, List.map_id]

theorem uniform_ofSize (npoints ndimension : Nat) :
    Uniform (Trajectory.ofSize npoints ndimension : Trajectory K) := by
  cases npoints with
  | zero => exact uniform_nil
  | succ n =>
    intro p hp
    simp only [ofSize, List.mem_replicate] at hp
    simp [hp.2, ofSize, at_, List.replicate_succ]

/-- C13: `push_back` of a Point `p` raises exactly when the trajectory has a
first point whose size differs from the size of `p`, with the size-mismatch
error and the trajectory unchanged; otherwise it succeeds and the trajectory is
the old one with `p` as last element; the empty trajectory accepts any `p`. -/
theorem push_back_checked (t : Trajectory K) (p : Point K) :
    ((∃ e, (t.push_back p).1 = .error e) ↔
      ∃ first, t.head? = some first ∧ first.length ≠ p.length) ∧
    (∀ first, t.head? = some first → first.length ≠ p.length →
      t.push_back p = (.error (GeoAlgoException.sizeMismatch first.length p.length), t)) ∧
    ((¬ ∃ first, t.head? = some first ∧ first.length ≠ p.length) →
      t.push_back p = (.ok (), t ++ [p])) ∧
    Trajectory.push_back ([] : Trajectory K) p = (.ok (), [p]) := by
  cases t with
  | nil => simp [push_back, compat]
  | cons first rest =>
    by_cases h : first.length = p.length
    · simp [push_back, compat, h]
    · simp [push_back, compat, h]

/-- C13, witness: a 1-dimensional point is refused by a trajectory of one
2-dimensional point, and accepted by the empty trajectory. -/
theorem push_back_checked_witness :
    Trajectory.push_back [[fin (0 : ℚ), fin 0]] [fin 1] =
        (.error (GeoAlgoException.sizeMismatch 2 1), [[fin 0, fin 0]]) ∧
    Trajectory.push_back ([] : Trajectory ℚ) [fin 1] = (.ok (), [[fin 1]]) :=
  ⟨(push_back_checked (K := ℚ) [[fin 0, fin 0]] [fin 1]).2.1 [fin 0, fin 0] rfl (by decide),
    (push_back_checked (K := ℚ) [] [fin 1]).2.2.2⟩

/-- C14: `Length()` is `0` for fewer than 2 points; for a trajectory of
uniform dimension with at least 2 points each `Distance(point[i], point[i+1])`
returns a value `ds[i]`, and `Length()` is the sum of these values, added in
order from `0`. -/
theorem Length_eq_sum (rsqrt : K → K) (t : Trajectory K) :
    (t.length < 2 → t.Length rsqrt = fin 0) ∧
    (Uniform t → 2 ≤ t.length →
      ∃ ds : List (Dbl K), ds.length = t.length - 1 ∧
        (∀ i, i < t.length - 1 →
          (t.at_ i).Distance rsqrt (t.at_ (i + 1)) = .ok (ds.getD i nan)) ∧
        t.Length rsqrt = ds.foldl (fun length d => length + d) (fin 0)) := by
  constructor
  · intro h
    simp [Length, h]
  · intro hu h2
    refine ⟨(List.range (t.length - 1)).map
      (fun i => (t.at_ i)._Distance_ rsqrt (t.at_ (i + 1))), by simp, fun i hi => ?_, ?_⟩
    · rw [Point.Distance_eq_unchecked rsqrt _ _
        (hu.length_eq i (i + 1) (by omega) (by omega))]
      simp [List.getD_eq_getElem?_getD, List.getElem?_map, List.getElem?_range hi]
    · simp only [Length, not_lt.mpr h2, if_false, List.foldl_map]

/-- C14, witness: the points `(0,0,0), (3,4,0)` give the length `5`, and with
`(3,4,5)` added the length `10`. -/
theorem Length_eq_sum_witness :
    (∃ ds : List (Dbl ℚ), ds.length = 1 ∧
      Trajectory.Length Rat.sqrt [[fin 0, fin 0, fin 0], [fin 3, fin 4, fin 0]] =
        ds.foldl (fun length d => length + d) (fin 0)) ∧
    Trajectory.Length Rat.sqrt [[fin (0 : ℚ), fin 0, fin 0], [fin 3, fin 4, fin 0]] = fin 5 ∧
    Trajectory.Length Rat.sqrt
      [[fin (0 : ℚ), fin 0, fin 0], [fin 3, fin 4, fin 0], [fin 3, fin 4, fin 5]] = fin 10 := by
  have h25 : Rat.sqrt 25 = 5 := by norm_num
  refine ⟨?_, ?_, ?_⟩
  · obtain ⟨ds, h1, _, h3⟩ := (Length_eq_sum (K := ℚ) Rat.sqrt
      [[fin 0, fin 0, fin 0], [fin 3, fin 4, fin 0]]).2
      (by simp [Uniform, at_]) (by simp)
    exact ⟨ds, h1, h3⟩
  · simp [Length, Point._Distance_, Point._SquaredDistance_, Trajectory.at_, Point.at_,
      List.range_succ, fin_sub_fin, pow2_fin, fin_add_fin, Dbl.sqrt]
    norm_num [h25, fin_add_fin]
  · simp [Length, Point._Distance_, Point._SquaredDistance_, Trajectory.at_, Point.at_,
      List.range_succ, fin_sub_fin, pow2_fin, fin_add_fin, Dbl.sqrt]
    norm_num [h25, fin_add_fin]

/-- C15: every trajectory obtained from a constructor followed by successful
calls of `push_back` has all its points of the dimension of the first one; each
of the two sequence constructors returns its input when the input is of
uniform dimension and raises exactly when it is not. -/
theorem constructed_uniform :
    (∀ t : Trajectory K, Constructed t → Uniform t) ∧
    (∀ obj : List (Point K),
      (Trajectory.ofPoints obj = .ok obj ↔ Uniform obj) ∧
      ((∃ e, Trajectory.ofPoints obj = .error e) ↔ ¬ Uniform obj)) ∧
    (∀ obj : List (List (Dbl K)),
      (Trajectory.ofVectors obj = .ok obj ↔ Uniform obj) ∧
      ((∃ e, Trajectory.ofVectors obj = .error e) ↔ ¬ Uniform obj)) := by
  have hP : ∀ obj : List (Point K),
      (Trajectory.ofPoints obj = .ok obj ↔ Uniform obj) ∧
      ((∃ e, Trajectory.ofPoints obj = .error e) ↔ ¬ Uniform obj) :=
    fun obj => push_back_all_ok_iff obj
  have hV : ∀ obj : List (List (Dbl K)),
      (Trajectory.ofVectors obj = .ok obj ↔ Uniform obj) ∧
      ((∃ e, Trajectory.ofVectors obj = .error e) ↔ ¬ Uniform obj) := by
    intro obj
    have hmap : obj.map Point.ofVector = obj := map_ofVector obj
    have := push_back_all_ok_iff (K := K) obj
    simpa only [ofVectors, hmap] using this
  have hok : ∀ (obj : List (Point K)) (t : Trajectory K),
      push_back_all ([] : Trajectory K) obj = .ok t → Uniform t := by
    intro obj t h
    by_cases hu : Uniform obj
    · rw [(push_back_all_nil obj).1 hu] at h
      cases h
      exact hu
    · obtain ⟨e, he⟩ := (push_back_all_nil obj).2 hu
      rw [he] at h
      cases h
  refine ⟨?_, hP, hV⟩
  intro t ht
  induction ht with
  | empty => exact uniform_nil
  | ofSize n d => exact uniform_ofSize n d
  | ofVectors obj t h =>
    have hmap : obj.map Point.ofVector = obj := map_ofVector obj
    rw [ofVectors, hmap] at h
    exact hok obj t h
  | ofPoints obj t h => exact hok obj t h
  | push_back t obj t' _ h ih => exact push_back_uniform t obj t' ih h

/-- C15, witness: the trajectory of 2 points of dimension 3 is uniform, and the
constructor from the points `(1)`, `(1, 2)` raises. -/
theorem constructed_uniform_witness :
    Uniform (Trajectory.ofSize 2 3 : Trajectory ℚ) ∧
    ∃ e, Trajectory.ofPoints [[fin (1 : ℚ)], [fin 1, fin 2]] = .error e :=
  ⟨(constructed_uniform (K := ℚ)).1 _ (Constructed.ofSize 2 3),
    (((constructed_uniform (K := ℚ)).2.1 [[fin 1], [fin 1, fin 2]]).2).mpr
      (by simp [Uniform, at_])⟩

end Trajectory

/-! ## Loops -/

/-- A monadic loop in `Option` whose every step succeeds is the pure loop. -/
theorem foldlM_option_eq_some {α β : Type} (f : β → α → Option β) (g : β → α → β)
    (l : List α) (h : ∀ b, ∀ a ∈ l, f b a = some (g b a)) (b : β) :
    l.foldlM f b = some (l.foldl g b) := by
  induction l generalizing b with
  | nil => rfl
  | cons a l ih =>
    rw [List.foldlM_cons, h b a (List.mem_cons_self _ _)]
    exact ih (fun b' a' ha' => h b' a' (List.mem_cons_of_mem _ ha')) (g b a)

/-- A monadic loop in `Except` whose every step returns is the pure loop. -/
theorem foldlM_except_eq_ok {ε α β : Type} (f : β → α → Except ε β) (g : β → α → β)
    (l : List α) (h : ∀ b, ∀ a ∈ l, f b a = .ok (g b a)) (b : β) :
    l.foldlM f b = .ok (l.foldl g b) := by
  induction l generalizing b with
  | nil => rfl
  | cons a l ih =>
    rw [List.foldlM_cons, h b a (List.mem_cons_self _ _)]
    exact ih (fun b' a' ha' => h b' a' (List.mem_cons_of_mem _ ha')) (g b a)

theorem foldl_congr_mem {α β : Type} (f g : β → α → β) (l : List α)
    (h : ∀ b, ∀ a ∈ l, f b a = g b a) (b : β) : l.foldl f b = l.foldl g b := by
  induction l generalizing b with
  | nil => rfl
  | cons a l ih =>
    rw [List.foldl_cons, List.foldl_cons, h b a (List.mem_cons_self _ _)]
    exact ih (fun b' a' ha' => h b' a' (List.mem_cons_of_mem _ ha')) (g b a)

/-! ## `DistToBoxWall`: boundary points -/

namespace DistToBoxWall

variable {K : Type} [LinearOrderedField K]

open Dbl

/-- C23: on the default box the boundary point `(0, 0, 500)`, which is on the
wall `x = min_x`, gives `500`, the distance to the nearer z wall, and not `0`. -/
theorem DistanceToWallFromOut_boundary_default :
    (DistToBoxWall.new : DistToBoxWall ℚ).DistanceToWallFromOut ![fin 0, fin 0, fin 500] =
      fin 500 := by
  rw [new_eq_ofBounds, DistanceToWallFromOut_fin]
  norm_num [abs_of_neg, abs_of_nonneg]

end DistToBoxWall

/-! ## The unchecked distances inside `Trajectory` -/

namespace Point

variable {K : Type} [LinearOrderedField K]

open Dbl

theorem getElem?_eq_some_at (p : Point K) (i : Nat) (hi : i < p.length) :
    p[i]? = some (p.at_ i) := by
  simp [at_, List.getD_eq_getElem?_getD, List.getElem?_eq_getElem hi]

theorem unchecked_SquaredDistance_inRange (a b : Point K) (h : a.length ≤ b.length) :
    a._SquaredDistance_inRange b = some (a._SquaredDistance_ b) := by
  unfold _SquaredDistance_inRange _SquaredDistance_
  refine foldlM_option_eq_some _ _ _ (fun dist2 i hi => ?_) _
  have hi' : i < a.length := List.mem_range.mp hi
  rw [getElem?_eq_some_at b i (lt_of_lt_of_le hi' h), getElem?_eq_some_at a i hi']
  rfl

end Point

namespace Trajectory

variable {K : Type} [LinearOrderedField K]

open Dbl

theorem traj_getElem?_eq_some_at (t : Trajectory K) (i : Nat) (hi : i < t.length) :
    t[i]? = some (t.at_ i) := by
  simp [at_, List.getD_eq_getElem?_getD, List.getElem?_eq_getElem hi]

theorem Length_inRange_eq (rsqrt : K → K) (t : Trajectory K) (hu : Uniform t) :
    t.Length_inRange rsqrt = some (t.Length rsqrt) := by
  unfold Length_inRange Length
  by_cases h2 : t.length < 2
  · simp [h2]
  · rw [if_neg h2, if_neg h2]
    refine foldlM_option_eq_some _ _ _ (fun length i hi => ?_) _
    have hi' : i < t.length - 1 := List.mem_range.mp hi
    rw [traj_getElem?_eq_some_at t i (by omega), traj_getElem?_eq_some_at t (i + 1) (by omega)]
    simp only [Option.some_bind]
    rw [Point.unchecked_SquaredDistance_inRange _ _
      (le_of_eq (hu.length_eq i (i + 1) (by omega) (by omega)))]
    rfl

theorem Length_checked_eq (rsqrt : K → K) (t : Trajectory K) (hu : Uniform t) :
    t.Length_checked rsqrt = .ok (t.Length rsqrt) := by
  unfold Length_checked Length
  by_cases h2 : t.length < 2
  · simp [h2]
  · rw [if_neg h2, if_neg h2]
    refine foldlM_except_eq_ok _ _ _ (fun length i hi => ?_) _
    have hi' : i < t.length - 1 := List.mem_range.mp hi
    rw [Point.Distance_eq_unchecked rsqrt _ _ (hu.length_eq i (i + 1) (by omega) (by omega))]

/-- C22: for a trajectory of uniform dimension, `Length()` makes no element
access out of range, in the trajectory or in the points of its unchecked
distance calls, and it returns the value obtained with the dimension-checked
`Distance` in their place, which does not raise; and for Points of equal
dimension the checked `SquaredDistance`, `Distance` return the values of
`_SquaredDistance_`, `_Distance_`, computed with all indices in range. -/
theorem unchecked_fast_path (rsqrt : K → K) (t : Trajectory K) (a b : Point K) :
    (Uniform t →
      t.Length_inRange rsqrt = some (t.Length rsqrt) ∧
      t.Length_checked rsqrt = .ok (t.Length rsqrt)) ∧
    (a.length = b.length →
      a.SquaredDistance b = .ok (a._SquaredDistance_ b) ∧
      a.Distance rsqrt b = .ok (a._Distance_ rsqrt b) ∧
      a._SquaredDistance_inRange b = some (a._SquaredDistance_ b)) := by
  refine ⟨fun hu => ⟨Length_inRange_eq rsqrt t hu, Length_checked_eq rsqrt t hu⟩, fun h => ?_⟩
  refine ⟨?_, Point.Distance_eq_unchecked rsqrt a b h,
    Point.unchecked_SquaredDistance_inRange a b (le_of_eq h)⟩
  simp only [Point.SquaredDistance, Point.compat_of_eq h]

/-- C22, witness: the trajectory `(0,0,0), (3,4,0)` and the points `(0,0)`,
`(3,4)`. -/
theorem unchecked_fast_path_witness :
    Trajectory.Length_inRange Rat.sqrt [[fin (0 : ℚ), fin 0, fin 0], [fin 3, fin 4, fin 0]] =
        some (Trajectory.Length Rat.sqrt [[fin 0, fin 0, fin 0], [fin 3, fin 4, fin 0]]) ∧
    Trajectory.Length_checked Rat.sqrt [[fin (0 : ℚ), fin 0, fin 0], [fin 3, fin 4, fin 0]] =
        .ok (Trajectory.Length Rat.sqrt [[fin 0, fin 0, fin 0], [fin 3, fin 4, fin 0]]) ∧
    Point.Distance Rat.sqrt [fin (0 : ℚ), fin 0] [fin 3, fin 4] =
        .ok (Point._Distance_ Rat.sqrt [fin 0, fin 0] [fin 3, fin 4]) := by
  have h := unchecked_fast_path (K := ℚ) Rat.sqrt
    [[fin 0, fin 0, fin 0], [fin 3, fin 4, fin 0]] [fin 0, fin 0] [fin 3, fin 4]
  have hu : Uniform ([[fin 0, fin 0, fin 0], [fin 3, fin 4, fin 0]] : Trajectory ℚ) := by
    simp [Uniform, Trajectory.at_]
  exact ⟨(h.1 hu).1, (h.1 hu).2, (h.2 rfl).2.1⟩

theorem at_append_left (t : Trajectory K) (p : Point K) (i : Nat) (hi : i < t.length) :
    Trajectory.at_ (t ++ [p]) i = t.at_ i := by
  simp [at_, List.getD_eq_getElem?_getD, List.getElem?_append_left hi]

theorem at_append_length (t : Trajectory K) (p : Point K) :
    Trajectory.at_ (t ++ [p]) t.length = p := by
  simp [at_, List.getD_eq_getElem?_getD]

/-- `Length()` after one more point is `Length()` before plus the unchecked
distance from the last point. -/
theorem Length_append (rsqrt : K → K) (t : Trajectory K) (p : Point K) (hne : t ≠ []) :
    Trajectory.Length rsqrt (t ++ [p]) =
      t.Length rsqrt + (t.at_ (t.length - 1))._Distance_ rsqrt p := by
  have hn : 1 ≤ t.length := Nat.one_le_iff_ne_zero.mpr (fun h => hne (List.length_eq_zero.mp h))
  have hlen : (t ++ [p]).length - 1 = (t.length - 1) + 1 := by
    simp only [List.length_append, List.length_singleton]
    omega
  have h2 : ¬ (t ++ [p]).length < 2 := by
    simp only [List.length_append, List.length_singleton]
    omega
  have hfold : (List.range (t.length - 1)).foldl
      (fun length i => length + (Trajectory.at_ (t ++ [p]) i)._Distance_ rsqrt
        (Trajectory.at_ (t ++ [p]) (i + 1))) (fin 0) = t.Length rsqrt := by
    unfold Length
    by_cases h : t.length < 2
    · have h1 : t.length - 1 = 0 := by omega
      simp [h, h1]
    · rw [if_neg h]
      refine foldl_congr_mem _ _ _ (fun b i hi => ?_) _
      have hi' : i < t.length - 1 := List.mem_range.mp hi
      rw [at_append_left t p i (by omega), at_append_left t p (i + 1) (by omega)]
  have hlast : Trajectory.at_ (t ++ [p]) (t.length - 1 + 1) = p := by
    have : t.length - 1 + 1 = t.length := by omega
    rw [this, at_append_length]
  rw [Length, if_neg h2, hlen, List.range_succ, List.foldl_append, hfold]
  simp only [List.foldl_cons, List.foldl_nil]
  rw [at_append_left t p (t.length - 1) (by omega), hlast]

theorem uniform_append (t : Trajectory K) (p : Point K) (hne : t ≠ []) :
    Uniform (t ++ [p]) ↔ Uniform t ∧ p.length = (t.at_ 0).length := by
  cases t with
  | nil => exact absurd rfl hne
  | cons first rest =>
    simp only [List.cons_append, uniform_cons, List.mem_append, List.mem_singleton, at_,
      List.getD_cons_zero]
    constructor
    · intro h
      exact ⟨fun q hq => h q (Or.inl hq), h p (Or.inr rfl)⟩
    · rintro ⟨h1, h2⟩ q (hq | hq)
      · exact h1 q hq
      · rw [hq, h2]

theorem traj_at_map_fin (ts : List (List K)) (i : Nat) :
    Trajectory.at_ (ts.map (List.map fin)) i = (ts.getD i []).map fin := by
  simp only [at_, List.getD_eq_getElem?_getD, List.getElem?_map]
  cases ts[i]? <;> rfl

theorem unchecked_Distance_fin (rsqrt : K → K) (a b : List K) (h : a.length = b.length) :
    Point._Distance_ rsqrt (a.map fin) (b.map fin) =
      fin (rsqrt (∑ i ∈ Finset.range a.length, (b.getD i 0 - a.getD i 0) ^ 2)) := by
  rw [Point._Distance_, Point.unchecked_SquaredDistance_fin a b h,
    sqrt_fin rsqrt (Point.sum_sq_diff_nonneg a b)]

/-- `Length()` of a trajectory of finite coordinates and uniform dimension is
a non-negative finite value. -/
theorem Length_fin_nonneg (rsqrt : K → K) (hr : ∀ v, 0 ≤ v → 0 ≤ rsqrt v) (ts : List (List K)) :
    Uniform (ts.map (List.map fin) : Trajectory K) →
      ∃ L : K, 0 ≤ L ∧ Trajectory.Length rsqrt (ts.map (List.map fin)) = fin L := by
  induction ts using List.reverseRecOn with
  | nil =>
    intro _
    exact ⟨0, le_rfl, by simp [Length]⟩
  | append_singleton ts q ih =>
    intro hu
    by_cases hne : ts = []
    · subst hne
      exact ⟨0, le_rfl, by simp [Length]⟩
    · have hne' : (ts.map (List.map fin) : Trajectory K) ≠ [] := by
        simpa using hne
      rw [List.map_append, List.map_singleton] at hu ⊢
      obtain ⟨hu1, hq⟩ := (uniform_append _ _ hne').mp hu
      obtain ⟨L, hL, hLen⟩ := ih hu1
      have hpos : 0 < (ts.map (List.map fin) : Trajectory K).length :=
        List.length_pos.mpr hne'
      have hlast : (Trajectory.at_ (ts.map (List.map fin))
          ((ts.map (List.map fin) : Trajectory K).length - 1)).length =
          (q.map (fin : K → Dbl K)).length := by
        rw [hq]
        exact hu1.length_eq _ 0 (by omega) hpos
      have hlast' : (ts.getD (ts.length - 1) []).length = q.length := by
        simpa only [traj_at_map_fin, List.length_map] using hlast
      rw [Length_append rsqrt _ _ hne', hLen, List.length_map, traj_at_map_fin,
        unchecked_Distance_fin rsqrt _ _ hlast', fin_add_fin]
      exact ⟨_, add_nonneg hL (hr _ (Point.sum_sq_diff_nonneg _ _)), rfl⟩

/-- C24: for a non-empty trajectory `t` of uniform dimension and a Point `p`
of that dimension, `push_back` succeeds, `Distance(last point, p)` returns a
value `d` and `Length()` afterwards is `Length()` before plus `d`; for finite
coordinates and a non-negative square root, `Length()` is a non-negative real
`L`, `d` is non-negative and the new length is `L + d`, not less than `L`. -/
theorem Length_push_back (rsqrt : K → K) :
    (∀ (t : Trajectory K) (p : Point K), t ≠ [] → Uniform t → p.length = (t.at_ 0).length →
      t.push_back p = (.ok (), t ++ [p]) ∧
      ∃ d : Dbl K, (t.at_ (t.length - 1)).Distance rsqrt p = .ok d ∧
        Trajectory.Length rsqrt (t ++ [p]) = t.Length rsqrt + d) ∧
    ((∀ v, 0 ≤ v → 0 ≤ rsqrt v) →
      ∀ (ts : List (List K)) (q : List K), ts ≠ [] →
        Uniform (ts.map (List.map fin) : Trajectory K) → q.length = (ts.getD 0 []).length →
        ∃ L d : K, 0 ≤ L ∧ 0 ≤ d ∧
          Trajectory.Length rsqrt (ts.map (List.map fin)) = fin L ∧
          Point.Distance rsqrt ((ts.getD (ts.length - 1) []).map fin) (q.map fin) =
            .ok (fin d) ∧
          Trajectory.Length rsqrt ((ts ++ [q]).map (List.map fin)) = fin (L + d)) := by
  have hA : ∀ (t : Trajectory K) (p : Point K), t ≠ [] → Uniform t →
      p.length = (t.at_ 0).length →
      t.push_back p = (.ok (), t ++ [p]) ∧
      (t.at_ (t.length - 1)).Distance rsqrt p =
        .ok ((t.at_ (t.length - 1))._Distance_ rsqrt p) ∧
      Trajectory.Length rsqrt (t ++ [p]) =
        t.Length rsqrt + (t.at_ (t.length - 1))._Distance_ rsqrt p := by
    intro t p hne hu hp
    have hpos : 0 < t.length := List.length_pos.mpr hne
    have hlast : (t.at_ (t.length - 1)).length = p.length := by
      rw [hp]
      exact hu.length_eq _ 0 (by omega) hpos
    refine ⟨?_, Point.Distance_eq_unchecked rsqrt _ _ hlast, Length_append rsqrt t p hne⟩
    cases t with
    | nil => exact absurd rfl hne
    | cons first rest =>
      rw [push_back_cons, if_pos]
      · rfl
      · simpa [at_] using hp.symm
  refine ⟨fun t p hne hu hp => ?_, fun hr ts q hne hu hq => ?_⟩
  · obtain ⟨h1, h2, h3⟩ := hA t p hne hu hp
    exact ⟨h1, _, h2, h3⟩
  · have hne' : (ts.map (List.map fin) : Trajectory K) ≠ [] := by
      simpa using hne
    have hq' : (q.map fin : Point K).length =
        (Trajectory.at_ (ts.map (List.map fin)) 0).length := by
      rw [traj_at_map_fin, List.length_map, List.length_map, hq]
    obtain ⟨_, h2, h3⟩ := hA _ (q.map fin) hne' hu hq'
    obtain ⟨L, hL, hLen⟩ := Length_fin_nonneg rsqrt hr ts hu
    have hpos : 0 < ts.length := List.length_pos.mpr hne
    have hlast : (ts.getD (ts.length - 1) []).length = q.length := by
      have := hu.length_eq ((ts.map (List.map fin) : Trajectory K).length - 1) 0
        (by simpa using hpos) (by simpa using hpos)
      simp only [traj_at_map_fin, List.length_map] at this
      rw [this, hq]
    refine ⟨L, _, hL, hr _ (Point.sum_sq_diff_nonneg (ts.getD (ts.length - 1) []) q), hLen, ?_, ?_⟩
    · rw [List.length_map, traj_at_map_fin] at h2
      rw [h2, unchecked_Distance_fin rsqrt _ _ hlast]
    · rw [List.map_append, List.map_singleton, h3, hLen, List.length_map, traj_at_map_fin,
        unchecked_Distance_fin rsqrt _ _ hlast, fin_add_fin]

/-- C24, witness: the trajectory `(0,0,0), (3,4,0)` and the point `(3,4,5)`. -/
theorem Length_push_back_witness :
    ∃ L d : ℚ, 0 ≤ L ∧ 0 ≤ d ∧
      Trajectory.Length Rat.sqrt
        (([[0, 0, 0], [3, 4, 0]] : List (List ℚ)).map (List.map fin)) = fin L ∧
      Point.Distance Rat.sqrt
        ((([[0, 0, 0], [3, 4, 0]] : List (List ℚ)).getD
          (([[0, 0, 0], [3, 4, 0]] : List (List ℚ)).length - 1) []).map fin)
        (([3, 4, 5] : List ℚ).map fin) = .ok (fin d) ∧
      Trajectory.Length Rat.sqrt
        ((([[0, 0, 0], [3, 4, 0]] : List (List ℚ)) ++ [[3, 4, 5]]).map (List.map fin)) =
        fin (L + d) :=
  (Length_push_back (K := ℚ) Rat.sqrt).2 (fun v _ => Rat.sqrt_nonneg v)
    [[0, 0, 0], [3, 4, 0]] [3, 4, 5] (by simp) (by simp [Uniform, Trajectory.at_]) rfl

end Trajectory

end geoalgo

namespace geoalgo

/-! ## The directional query in rounded arithmetic -/

namespace Dbl

variable {K : Type} [LinearOrderedField K]

/-- Without rounding the value is kept. -/
theorem rd_fin (d : Dbl K) : rd fin d = d := by
  cases d with
  | fin v =>
    by_cases h : v = 0
    · simp [rd, h]
    · simp [rd, h]
  | nzero => rfl
  | pinf => rfl
  | ninf => rfl
  | nan => rfl

/-- A zero result is stored as it is. -/
theorem rd_fin_zero (rnd : K → Dbl K) : rd rnd (fin (0 : K)) = fin 0 := by
  simp [rd]

/-- Inside the binary64 range `round64` keeps the value. -/
theorem round64_fin {v : K} (hlo : 1 / 2 ^ 1075 < |v|) (hhi : |v| < 2 ^ 1024 - 2 ^ 970) :
    round64 v = fin v := by
  simp only [round64, if_neg (not_le.mpr hhi), if_neg (not_le.mpr hlo)]

/-- A non-negative result that is zero or above the underflow threshold, and
below the overflow threshold, is stored exactly by `round64`. -/
theorem rd_round64_fin_nonneg {v : K} (hv : 0 ≤ v) (h0 : v = 0 ∨ 1 / 2 ^ 1075 < v)
    (hhi : v < 2 ^ 1024 - 2 ^ 970) : rd round64 (fin v) = fin v := by
  by_cases h : v = 0
  · rw [h, rd_fin_zero]
  · have hlo : 1 / 2 ^ 1075 < v := h0.resolve_left h
    simp only [rd, if_neg h]
    exact round64_fin (by rwa [abs_of_nonneg hv]) (by rwa [abs_of_nonneg hv])

/-- A result of magnitude inside the binary64 range is stored exactly by
`round64`. -/
theorem rd_round64_fin {v : K} (hlo : 1 / 2 ^ 1075 < |v|) (hhi : |v| < 2 ^ 1024 - 2 ^ 970) :
    rd round64 (fin v) = fin v := by
  have h : v ≠ 0 := by
    intro h
    rw [h, abs_zero] at hlo
    exact absurd hlo (not_lt.mpr (by positivity))
  simp only [rd, if_neg h]
  exact round64_fin hlo hhi

/-- The square of a component that is zero or of magnitude in
`[2^-511, 2^511]` is stored exactly. -/
theorem pow2R_round64_fin {d : K} (hd : d = 0 ∨ 1 / 2 ^ 511 ≤ |d|) (hhi : |d| ≤ 2 ^ 511) :
    pow2R round64 (fin d) = fin (d * d) ∧ (d * d = 0 ∨ 1 / 2 ^ 1022 ≤ d * d) ∧
      d * d ≤ 2 ^ 1022 := by
  have hsq : d * d = |d| * |d| := (abs_mul_abs_self d).symm
  have hup : d * d ≤ 2 ^ 1022 := by
    rw [hsq]
    calc |d| * |d| ≤ 2 ^ 511 * 2 ^ 511 := mul_le_mul hhi hhi (abs_nonneg d) (by positivity)
      _ = 2 ^ 1022 := by norm_num
  have hlo : d * d = 0 ∨ 1 / 2 ^ 1022 ≤ d * d := by
    rcases hd with h | h
    · exact Or.inl (by rw [h, mul_zero])
    · right
      rw [hsq]
      calc (1 : K) / 2 ^ 1022 = 1 / 2 ^ 511 * (1 / 2 ^ 511) := by norm_num
        _ ≤ |d| * |d| := mul_le_mul h h (by positivity) (abs_nonneg d)
  refine ⟨?_, hlo, hup⟩
  rw [pow2R, pow2_fin]
  refine rd_round64_fin_nonneg (mul_self_nonneg d) ?_ (lt_of_le_of_lt hup (by norm_num))
  rcases hlo with h | h
  · exact Or.inl h
  · exact Or.inr (lt_of_lt_of_le (by norm_num) h)

/-- The sum of two stored squares is stored exactly. -/
theorem addR_round64_fin {a b : K} (ha : 0 ≤ a) (hb : 0 ≤ b)
    (ha0 : a = 0 ∨ 1 / 2 ^ 1022 ≤ a) (hb0 : b = 0 ∨ 1 / 2 ^ 1022 ≤ b)
    (hhi : a + b ≤ 3 * 2 ^ 1022) :
    addR round64 (fin a) (fin b) = fin (a + b) ∧ (a + b = 0 ∨ 1 / 2 ^ 1022 ≤ a + b) := by
  have hlo : a + b = 0 ∨ 1 / 2 ^ 1022 ≤ a + b := by
    rcases ha0 with h | h
    · rcases hb0 with h' | h'
      · exact Or.inl (by rw [h, h', add_zero])
      · exact Or.inr (le_trans h' (le_add_of_nonneg_left ha))
    · exact Or.inr (le_trans h (le_add_of_nonneg_right hb))
  refine ⟨?_, hlo⟩
  rw [addR, fin_add_fin]
  refine rd_round64_fin_nonneg (add_nonneg ha hb) ?_ (lt_of_le_of_lt hhi (by norm_num))
  rcases hlo with h | h
  · exact Or.inl h
  · exact Or.inr (lt_of_lt_of_le (by norm_num) h)

/-- A result at or above the overflow threshold is stored as `+inf`. -/
theorem round64_overflow {v : K} (h : 2 ^ 1024 - 2 ^ 970 ≤ v) : round64 v = pinf := by
  have hv : (0 : K) < v := lt_of_lt_of_le (by norm_num) h
  rw [round64, if_pos (by rwa [abs_of_pos hv])]
  simp [inf, not_lt.mpr hv.le]

/-- A positive result at or below the underflow threshold is stored as `+0`. -/
theorem round64_underflow {v : K} (hv : 0 ≤ v) (h : v ≤ 1 / 2 ^ 1075) : round64 v = fin 0 := by
  have hlt : ¬ (2 ^ 1024 - 2 ^ 970 ≤ |v|) := by
    rw [abs_of_nonneg hv]
    exact not_le.mpr (lt_of_le_of_lt h (by norm_num))
  rw [round64, if_neg hlt, if_pos (by rwa [abs_of_nonneg hv])]
  simp [zero, not_lt.mpr hv]

/-- The square of a component of magnitude at least `2^512` overflows. -/
theorem pow2R_round64_overflow {v : K} (hv : 2 ^ 512 ≤ |v|) : pow2R round64 (fin v) = pinf := by
  have hvv : (2 : K) ^ 1024 - 2 ^ 970 ≤ v * v := by
    rw [← abs_mul_abs_self v]
    calc (2 : K) ^ 1024 - 2 ^ 970 ≤ 2 ^ 512 * 2 ^ 512 := by norm_num
      _ ≤ |v| * |v| := mul_le_mul hv hv (by positivity) (abs_nonneg v)
  have hne : v * v ≠ 0 := fun h => by
    rw [h] at hvv
    exact absurd hvv (not_le.mpr (by norm_num))
  rw [pow2R, pow2_fin, rd, if_neg hne, round64_overflow hvv]

/-- The square of a component of magnitude at most `2^-538` underflows. -/
theorem pow2R_round64_underflow {v : K} (hv : |v| ≤ 1 / 2 ^ 538) :
    pow2R round64 (fin v) = fin 0 := by
  have hvv : v * v ≤ 1 / 2 ^ 1075 := by
    rw [← abs_mul_abs_self v]
    calc |v| * |v| ≤ 1 / 2 ^ 538 * (1 / 2 ^ 538) :=
          mul_le_mul hv hv (abs_nonneg v) (by positivity)
      _ ≤ 1 / 2 ^ 1075 := by norm_num
  rw [pow2R, pow2_fin, rd]
  split_ifs
  · rfl
  · exact round64_underflow (mul_self_nonneg v) hvv

/-- A quotient of finite non-zero values inside the binary64 range is stored
exactly by `round64`. -/
theorem divR_round64_fin {a b : K} (ha : a ≠ 0) (hb : b ≠ 0) (hlo : 1 / 2 ^ 1075 < |a / b|)
    (hhi : |a / b| < 2 ^ 1024 - 2 ^ 970) : divR round64 (fin a) (fin b) = fin (a / b) := by
  rw [divR, fin_div_fin_of_ne ha hb, rd_round64_fin hlo hhi]

/-- A product of finite values inside the binary64 range is stored exactly by
`round64`. -/
theorem mulR_round64_fin {a b : K} (hlo : 1 / 2 ^ 1075 < |a * b|)
    (hhi : |a * b| < 2 ^ 1024 - 2 ^ 970) : mulR round64 (fin a) (fin b) = fin (a * b) := by
  have h : a * b ≠ 0 := by
    intro h
    rw [h, abs_zero] at hlo
    exact absurd hlo (not_lt.mpr (by positivity))
  rw [mulR, fin_mul_fin_of_ne h, rd_round64_fin hlo hhi]

/-- A positive difference inside the binary64 range is stored exactly by
`round64`. -/
theorem subR_round64_fin_pos {a b : K} (hlo : 1 / 2 ^ 1075 < a - b)
    (hhi : a - b < 2 ^ 1024 - 2 ^ 970) : subR round64 (fin a) (fin b) = fin (a - b) := by
  have hpos : (0 : K) < a - b := lt_trans (by positivity) hlo
  rw [subR, fin_sub_fin, rd_round64_fin (by rwa [abs_of_pos hpos]) (by rwa [abs_of_pos hpos])]

/-- A quotient of positive values inside the binary64 range is stored exactly
by `round64`. -/
theorem divR_round64_fin_pos {a b : K} (ha : 0 < a) (hb : 0 < b) (hlo : 1 / 2 ^ 1075 * b < a)
    (hhi : a < (2 ^ 1024 - 2 ^ 970) * b) : divR round64 (fin a) (fin b) = fin (a / b) := by
  have hpos : 0 < a / b := div_pos ha hb
  refine divR_round64_fin ha.ne' hb.ne' ?_ ?_
  · rw [abs_of_pos hpos]
    exact (lt_div_iff₀ hb).mpr hlo
  · rw [abs_of_pos hpos]
    exact (div_lt_iff₀ hb).mpr hhi

/-- A non-negative finite value divided by `+inf` is `+0`. -/
theorem divR_fin_pinf (rnd : K → Dbl K) {a : K} (ha : 0 ≤ a) : divR rnd (fin a) pinf = fin 0 := by
  simp [divR, div_def, div, isNaN, toFin?, signbit, zero, rd, not_lt.mpr ha]

/-- A positive finite value divided by `+0` is `+inf`. -/
theorem divR_fin_zero (rnd : K → Dbl K) {a : K} (ha : 0 < a) : divR rnd (fin a) (fin 0) = pinf := by
  simp [divR, div_def, div, isNaN, toFin?, signbit, inf, rd, not_lt.mpr ha.le, ha.ne']

/-- Zero divided by a positive finite value is `+0`. -/
theorem divR_zero_fin (rnd : K → Dbl K) {b : K} (hb : 0 < b) :
    divR rnd (fin 0) (fin b) = fin 0 := by
  simp [divR, div_def, div, isNaN, toFin?, signbit, zero, rd, hb.ne', not_lt.mpr hb.le]

end Dbl

namespace DistToBoxWall

variable {K : Type} [LinearOrderedField K]

open Dbl

/-- Without rounding `DistanceToWallDirR` is `DistanceToWallDir`. -/
theorem DistanceToWallDirR_fin_eq (rsqrt : K → K) (self : DistToBoxWall K)
    (x y z dirx diry dirz : Dbl K) (fwd : Bool) :
    self.DistanceToWallDirR fin rsqrt x y z dirx diry dirz fwd =
      self.DistanceToWallDir rsqrt x y z dirx diry dirz fwd := by
  simp only [DistanceToWallDirR, DistanceToWallDir, dir_magnitudeR, sqrtR, addR, subR, mulR,
    divR, pow2R, rd_fin]

theorem DistanceToWallDirR_outside (rnd : K → Dbl K) (rsqrt : K → K) (self : DistToBoxWall K)
    (x y z dirx diry dirz : Dbl K) (fwd : Bool) (h : self.outside x y z = true) :
    self.DistanceToWallDirR rnd rsqrt x y z dirx diry dirz fwd = .ok (fin (-1)) := by
  simp [DistanceToWallDirR, h]

theorem DistanceToWallDirR_zeroMagnitude (rnd : K → Dbl K) (rsqrt : K → K)
    (self : DistToBoxWall K) (x y z dirx diry dirz : Dbl K) (fwd : Bool)
    (h : self.outside x y z = false)
    (hm : (dir_magnitudeR rnd rsqrt dirx diry dirz).isZero = true) :
    self.DistanceToWallDirR rnd rsqrt x y z dirx diry dirz fwd =
      .error GeoAlgoException.zeroMagnitude := by
  simp [DistanceToWallDirR, h, hm]

theorem DistanceToWallDirR_returns (rnd : K → Dbl K) (rsqrt : K → K) (self : DistToBoxWall K)
    (x y z dirx diry dirz : Dbl K) (fwd : Bool) (h : self.outside x y z = false)
    (hm : (dir_magnitudeR rnd rsqrt dirx diry dirz).isZero = false) :
    ∃ d, self.DistanceToWallDirR rnd rsqrt x y z dirx diry dirz fwd = .ok d := by
  simp [DistanceToWallDirR, h, hm]

/-- The error of the directional query is raised exactly for a point inside the
box and a computed magnitude that is zero. -/
theorem DistanceToWallDirR_error_iff (rnd : K → Dbl K) (rsqrt : K → K)
    (x_min x_max y_min y_max z_min z_max x y z : K) (dirx diry dirz : Dbl K) (fwd : Bool) :
    (ofBounds x_min x_max y_min y_max z_min z_max).DistanceToWallDirR rnd rsqrt
        (fin x) (fin y) (fin z) dirx diry dirz fwd = .error GeoAlgoException.zeroMagnitude ↔
      ((x_min ≤ x ∧ x ≤ x_max) ∧ (y_min ≤ y ∧ y ≤ y_max) ∧ (z_min ≤ z ∧ z ≤ z_max)) ∧
        (dir_magnitudeR rnd rsqrt dirx diry dirz).isZero = true := by
  cases ho : (ofBounds x_min x_max y_min y_max z_min z_max).outside (fin x) (fin y) (fin z)
  · have hin := (outside_eq_false_iff _ _ _ _ _ _ _ _ _).mp ho
    cases hm : (dir_magnitudeR rnd rsqrt dirx diry dirz).isZero
    · obtain ⟨d, hd⟩ := DistanceToWallDirR_returns rnd rsqrt _ (fin x) (fin y) (fin z)
        dirx diry dirz fwd ho hm
      rw [hd]
      constructor
      · intro h
        cases h
      · rintro ⟨_, h⟩
        cases h
    · rw [DistanceToWallDirR_zeroMagnitude _ _ _ _ _ _ _ _ _ _ ho hm]
      exact ⟨fun _ => ⟨hin, rfl⟩, fun _ => rfl⟩
  · rw [DistanceToWallDirR_outside _ _ _ _ _ _ _ _ _ _ ho]
    constructor
    · intro h
      cases h
    · rintro ⟨hin, _⟩
      rw [(outside_eq_false_iff _ _ _ _ _ _ _ _ _).mpr hin] at ho
      cases ho

/-- The magnitude of the zero direction is computed as zero whatever the
rounding. -/
theorem dir_magnitudeR_zero (rnd : K → Dbl K) (rsqrt : K → K) (h0 : rsqrt 0 = 0) :
    dir_magnitudeR rnd rsqrt (fin 0) (fin 0) (fin 0) = fin 0 := by
  simp [dir_magnitudeR, sqrtR, addR, pow2R, pow2_fin, fin_add_fin, rd, Dbl.sqrt, h0]

/-- The magnitude computed with `round64` for a direction whose components have
a magnitude of at most `2^-538`: the three squares underflow and the magnitude
is zero. -/
theorem dir_magnitudeR_round64_underflow (rsqrt : K → K) (h0 : rsqrt 0 = 0) {dx dy dz : K}
    (hx : |dx| ≤ 1 / 2 ^ 538) (hy : |dy| ≤ 1 / 2 ^ 538) (hz : |dz| ≤ 1 / 2 ^ 538) :
    dir_magnitudeR round64 rsqrt (fin dx) (fin dy) (fin dz) = fin 0 := by
  rw [dir_magnitudeR, pow2R_round64_underflow hx, pow2R_round64_underflow hy,
    pow2R_round64_underflow hz]
  simp [sqrtR, addR, fin_add_fin, rd, Dbl.sqrt, h0]

/-- The magnitude computed with `round64` for a direction whose components are
zero or of magnitude in `[2^-511, 2^511]`, the root being within a factor two
of the exact one: no operation overflows or underflows, and the magnitude is
zero exactly when the three components are. -/
theorem dir_magnitudeR_round64 (rsqrt : K → K) (dirx diry dirz : K)
    (hdx : (dirx = 0 ∨ 1 / 2 ^ 511 ≤ |dirx|) ∧ |dirx| ≤ 2 ^ 511)
    (hdy : (diry = 0 ∨ 1 / 2 ^ 511 ≤ |diry|) ∧ |diry| ≤ 2 ^ 511)
    (hdz : (dirz = 0 ∨ 1 / 2 ^ 511 ≤ |dirz|) ∧ |dirz| ≤ 2 ^ 511)
    (hs : 0 ≤ rsqrt (dirx * dirx + diry * diry + dirz * dirz) ∧
      rsqrt (dirx * dirx + diry * diry + dirz * dirz) *
          rsqrt (dirx * dirx + diry * diry + dirz * dirz) ≤
        4 * (dirx * dirx + diry * diry + dirz * dirz) ∧
      dirx * dirx + diry * diry + dirz * dirz ≤
        4 * (rsqrt (dirx * dirx + diry * diry + dirz * dirz) *
          rsqrt (dirx * dirx + diry * diry + dirz * dirz))) :
    dir_magnitudeR round64 rsqrt (fin dirx) (fin diry) (fin dirz) =
        fin (rsqrt (dirx * dirx + diry * diry + dirz * dirz)) ∧
      (rsqrt (dirx * dirx + diry * diry + dirz * dirz) = 0 ↔
        dirx = 0 ∧ diry = 0 ∧ dirz = 0) ∧
      (rsqrt (dirx * dirx + diry * diry + dirz * dirz) ≠ 0 →
        1 / 2 ^ 512 ≤ rsqrt (dirx * dirx + diry * diry + dirz * dirz) ∧
          rsqrt (dirx * dirx + diry * diry + dirz * dirz) ≤ 2 ^ 513) := by
  obtain ⟨hx, hx0, hxu⟩ := pow2R_round64_fin hdx.1 hdx.2
  obtain ⟨hy, hy0, hyu⟩ := pow2R_round64_fin hdy.1 hdy.2
  obtain ⟨hz, hz0, hzu⟩ := pow2R_round64_fin hdz.1 hdz.2
  obtain ⟨hxy, hxy0⟩ := addR_round64_fin (mul_self_nonneg dirx) (mul_self_nonneg diry) hx0 hy0
    (by linarith [mul_self_nonneg dirz])
  obtain ⟨hsum, hsum0⟩ := addR_round64_fin
    (add_nonneg (mul_self_nonneg dirx) (mul_self_nonneg diry)) (mul_self_nonneg dirz) hxy0 hz0
    (by linarith)
  generalize hsdef : dirx * dirx + diry * diry + dirz * dirz = s at hs hsum hsum0
  have hs_nonneg : 0 ≤ s := by
    rw [← hsdef]
    exact sum_sq_nonneg dirx diry dirz
  have hs_up : s ≤ 3 * 2 ^ 1022 := by
    rw [← hsdef]
    linarith
  obtain ⟨hm0, hm1, hm2⟩ := hs
  have hzero : rsqrt s = 0 ↔ s = 0 := by
    constructor
    · intro h
      rw [h, mul_zero, mul_zero] at hm2
      exact le_antisymm hm2 hs_nonneg
    · intro h
      have h1 : rsqrt s * rsqrt s ≤ 0 := by
        calc rsqrt s * rsqrt s ≤ 4 * s := hm1
          _ = 0 := by rw [h, mul_zero]
      exact mul_self_eq_zero.mp (le_antisymm h1 (mul_self_nonneg _))
  have hrange : rsqrt s ≠ 0 → 1 / 2 ^ 512 ≤ rsqrt s ∧ rsqrt s ≤ 2 ^ 513 := by
    intro hne
    have hsne : s ≠ 0 := fun h => hne (hzero.mpr h)
    have hslo : 1 / 2 ^ 1022 ≤ s := hsum0.resolve_left hsne
    constructor
    · by_contra hlt
      have hlt' : rsqrt s < 1 / 2 ^ 512 := not_le.mp hlt
      have hsq : rsqrt s * rsqrt s < 1 / 2 ^ 512 * (1 / 2 ^ 512) :=
        mul_lt_mul'' hlt' hlt' hm0 hm0
      have hnum : (1 : K) / 2 ^ 512 * (1 / 2 ^ 512) = 1 / 2 ^ 1024 := by norm_num
      have hnum' : (4 : K) * (1 / 2 ^ 1024) = 1 / 2 ^ 1022 := by norm_num
      rw [hnum] at hsq
      linarith
    · by_contra hlt
      have hlt' : 2 ^ 513 < rsqrt s := not_le.mp hlt
      have hsq : (2 : K) ^ 513 * 2 ^ 513 < rsqrt s * rsqrt s :=
        mul_lt_mul'' hlt' hlt' (by positivity) (by positivity)
      have hnum : (2 : K) ^ 513 * 2 ^ 513 = 2 ^ 1026 := by norm_num
      have hnum' : (4 : K) * (3 * 2 ^ 1022) < 2 ^ 1026 := by norm_num
      rw [hnum] at hsq
      linarith
  refine ⟨?_, ?_, hrange⟩
  · rw [dir_magnitudeR, hx, hy, hz, hxy, hsum, sqrtR, sqrt_fin rsqrt hs_nonneg]
    refine rd_round64_fin_nonneg hm0 ?_ ?_
    · by_cases hne : rsqrt s = 0
      · exact Or.inl hne
      · exact Or.inr (lt_of_lt_of_le (by norm_num) (hrange hne).1)
    · by_cases hne : rsqrt s = 0
      · rw [hne]
        norm_num
      · exact lt_of_le_of_lt (hrange hne).2 (by norm_num)
  · rw [hzero, ← hsdef]
    exact sum_sq_eq_zero_iff dirx diry dirz

/-- C5, amended: with every operation rounded by any `rnd`, the directional
`DistanceToWall` returns `-1` for every point outside the box whatever the
direction is, and raises the zero-magnitude error exactly when the point is
inside the box and the magnitude computed at line 170 is zero; the zero
direction raises it at every inside point.  With the binary64 range rounding
`round64`: a direction whose three components have a magnitude of at most
`2^-538` raises it at every inside point, and for a direction whose components
are zero or of magnitude in `[2^-511, 2^511]`, the root being within a factor
two of the exact one, the error is raised exactly when the point is inside and
the three components are zero. -/
theorem DistanceToWallDirR_sentinel_and_error (rnd : K → Dbl K) (rsqrt : K → K)
    (x_min x_max y_min y_max z_min z_max x y z : K) (dirx diry dirz : Dbl K)
    (dx dy dz : K) (fwd : Bool) :
    ((x < x_min ∨ x_max < x) ∨ (y < y_min ∨ y_max < y) ∨ (z < z_min ∨ z_max < z) →
      (ofBounds x_min x_max y_min y_max z_min z_max).DistanceToWallDirR rnd rsqrt
        (fin x) (fin y) (fin z) dirx diry dirz fwd = .ok (fin (-1))) ∧
    ((ofBounds x_min x_max y_min y_max z_min z_max).DistanceToWallDirR rnd rsqrt
        (fin x) (fin y) (fin z) dirx diry dirz fwd = .error GeoAlgoException.zeroMagnitude ↔
      ((x_min ≤ x ∧ x ≤ x_max) ∧ (y_min ≤ y ∧ y ≤ y_max) ∧ (z_min ≤ z ∧ z ≤ z_max)) ∧
        (dir_magnitudeR rnd rsqrt dirx diry dirz).isZero = true) ∧
    (rsqrt 0 = 0 →
      (x_min ≤ x ∧ x ≤ x_max) ∧ (y_min ≤ y ∧ y ≤ y_max) ∧ (z_min ≤ z ∧ z ≤ z_max) →
      (ofBounds x_min x_max y_min y_max z_min z_max).DistanceToWallDirR rnd rsqrt
        (fin x) (fin y) (fin z) (fin 0) (fin 0) (fin 0) fwd =
        .error GeoAlgoException.zeroMagnitude) ∧
    (rsqrt 0 = 0 →
      (x_min ≤ x ∧ x ≤ x_max) ∧ (y_min ≤ y ∧ y ≤ y_max) ∧ (z_min ≤ z ∧ z ≤ z_max) →
      |dx| ≤ 1 / 2 ^ 538 ∧ |dy| ≤ 1 / 2 ^ 538 ∧ |dz| ≤ 1 / 2 ^ 538 →
      (ofBounds x_min x_max y_min y_max z_min z_max).DistanceToWallDirR round64 rsqrt
        (fin x) (fin y) (fin z) (fin dx) (fin dy) (fin dz) fwd =
        .error GeoAlgoException.zeroMagnitude) ∧
    (((dx = 0 ∨ 1 / 2 ^ 511 ≤ |dx|) ∧ |dx| ≤ 2 ^ 511) ∧
      ((dy = 0 ∨ 1 / 2 ^ 511 ≤ |dy|) ∧ |dy| ≤ 2 ^ 511) ∧
      ((dz = 0 ∨ 1 / 2 ^ 511 ≤ |dz|) ∧ |dz| ≤ 2 ^ 511) →
      (0 ≤ rsqrt (dx * dx + dy * dy + dz * dz) ∧
        rsqrt (dx * dx + dy * dy + dz * dz) * rsqrt (dx * dx + dy * dy + dz * dz) ≤
          4 * (dx * dx + dy * dy + dz * dz) ∧
        dx * dx + dy * dy + dz * dz ≤
          4 * (rsqrt (dx * dx + dy * dy + dz * dz) * rsqrt (dx * dx + dy * dy + dz * dz))) →
      ((ofBounds x_min x_max y_min y_max z_min z_max).DistanceToWallDirR round64 rsqrt
          (fin x) (fin y) (fin z) (fin dx) (fin dy) (fin dz) fwd =
          .error GeoAlgoException.zeroMagnitude ↔
        ((x_min ≤ x ∧ x ≤ x_max) ∧ (y_min ≤ y ∧ y ≤ y_max) ∧ (z_min ≤ z ∧ z ≤ z_max)) ∧
          dx = 0 ∧ dy = 0 ∧ dz = 0)) := by
  refine ⟨fun h => ?_, DistanceToWallDirR_error_iff _ _ _ _ _ _ _ _ _ _ _ _ _ _ _,
    fun h0 hin => ?_, fun h0 hin hd => ?_, fun hr hs => ?_⟩
  · exact DistanceToWallDirR_outside _ _ _ _ _ _ _ _ _ _
      ((outside_ofBounds _ _ _ _ _ _ _ _ _).mpr h)
  · exact DistanceToWallDirR_zeroMagnitude _ _ _ _ _ _ _ _ _ _
      ((outside_eq_false_iff _ _ _ _ _ _ _ _ _).mpr hin)
      (by rw [dir_magnitudeR_zero rnd rsqrt h0]; simp [isZero, toFin?])
  · exact DistanceToWallDirR_zeroMagnitude _ _ _ _ _ _ _ _ _ _
      ((outside_eq_false_iff _ _ _ _ _ _ _ _ _).mpr hin)
      (by rw [dir_magnitudeR_round64_underflow rsqrt h0 hd.1 hd.2.1 hd.2.2]
          simp [isZero, toFin?])
  · obtain ⟨hmag, hzero, _⟩ := dir_magnitudeR_round64 rsqrt dx dy dz hr.1 hr.2.1 hr.2.2 hs
    rw [DistanceToWallDirR_error_iff, hmag, isZero_fin, decide_eq_true_eq, hzero]

/-- C5, witness: the default box with `round64`; the outside point
`(-5, 0, 500)` gives `-1` for the direction `(1/2^600, 0, 0)`; the inside point
`(128, 0, 500)` raises for the zero direction and for the direction
`(1/2^540, 0, 0)`, and does not raise for the direction `(1, 2, 2)`. -/
theorem DistanceToWallDirR_sentinel_and_error_witness :
    (DistToBoxWall.new : DistToBoxWall ℚ).DistanceToWallDirR round64 Rat.sqrt
        (fin (-5)) (fin 0) (fin 500) (fin (1 / 2 ^ 600)) (fin 0) (fin 0) true = .ok (fin (-1)) ∧
    (DistToBoxWall.new : DistToBoxWall ℚ).DistanceToWallDirR round64 Rat.sqrt
        (fin 128) (fin 0) (fin 500) (fin 0) (fin 0) (fin 0) true =
      .error GeoAlgoException.zeroMagnitude ∧
    (DistToBoxWall.new : DistToBoxWall ℚ).DistanceToWallDirR round64 Rat.sqrt
        (fin 128) (fin 0) (fin 500) (fin (1 / 2 ^ 540)) (fin 0) (fin 0) true =
      .error GeoAlgoException.zeroMagnitude ∧
    (DistToBoxWall.new : DistToBoxWall ℚ).DistanceToWallDirR round64 Rat.sqrt
        (fin 128) (fin 0) (fin 500) (fin 1) (fin 2) (fin 2) true ≠
      .error GeoAlgoException.zeroMagnitude := by
  have h0 : Rat.sqrt 0 = 0 := by norm_num
  have h9 : Rat.sqrt 9 = 3 := by norm_num
  have hin : ((0 : ℚ) ≤ 128 ∧ (128 : ℚ) ≤ 256.35) ∧ ((-116.5 : ℚ) ≤ 0 ∧ (0 : ℚ) ≤ 116.5) ∧
      ((0 : ℚ) ≤ 500 ∧ (500 : ℚ) ≤ 1036.8) := by
    norm_num
  rw [new_eq_ofBounds]
  refine ⟨?_, ?_, ?_, ?_⟩
  · exact (DistanceToWallDirR_sentinel_and_error (K := ℚ) round64 Rat.sqrt 0 256.35 (-116.5) 116.5
      0 1036.8 (-5) 0 500 (fin (1 / 2 ^ 600)) (fin 0) (fin 0) 0 0 0 true).1
      (Or.inl (Or.inl (by norm_num)))
  · exact (DistanceToWallDirR_sentinel_and_error (K := ℚ) round64 Rat.sqrt 0 256.35 (-116.5) 116.5
      0 1036.8 128 0 500 (fin 0) (fin 0) (fin 0) 0 0 0 true).2.2.1 h0 hin
  · exact (DistanceToWallDirR_sentinel_and_error (K := ℚ) round64 Rat.sqrt 0 256.35 (-116.5) 116.5
      0 1036.8 128 0 500 (fin 0) (fin 0) (fin 0) (1 / 2 ^ 540) 0 0 true).2.2.2.1 h0 hin
      ⟨by rw [abs_of_pos (by positivity)]; norm_num, by norm_num, by norm_num⟩
  · intro h
    have h3 := ((DistanceToWallDirR_sentinel_and_error (K := ℚ) round64 Rat.sqrt 0 256.35 (-116.5)
      116.5 0 1036.8 128 0 500 (fin 0) (fin 0) (fin 0) 1 2 2 true).2.2.2.2
      (by norm_num) (by norm_num [h9])).mp h
    exact absurd h3.2.1 (by norm_num)

/-- C5 as stated fails: on the default box, for the inside point
`(100, 0, 500)` and the direction `(2^-600, 0, 0)`, whose first component is not
zero, the square underflows to zero, the computed magnitude is zero and the
error is raised. -/
theorem DistanceToWallDirR_underflow_raises :
    (((0 : ℚ) ≤ 100 ∧ (100 : ℚ) ≤ 256.35) ∧ ((-116.5 : ℚ) ≤ 0 ∧ (0 : ℚ) ≤ 116.5) ∧
      ((0 : ℚ) ≤ 500 ∧ (500 : ℚ) ≤ 1036.8)) ∧
    (1 / 2 ^ 600 : ℚ) ≠ 0 ∧
    dir_magnitudeR round64 Rat.sqrt (fin (1 / 2 ^ 600 : ℚ)) (fin 0) (fin 0) = fin 0 ∧
    (DistToBoxWall.new : DistToBoxWall ℚ).DistanceToWallDirR round64 Rat.sqrt
        (fin 100) (fin 0) (fin 500) (fin (1 / 2 ^ 600)) (fin 0) (fin 0) true =
      .error GeoAlgoException.zeroMagnitude := by
  have h0 : Rat.sqrt 0 = 0 := by norm_num
  have hmag : dir_magnitudeR round64 Rat.sqrt (fin (1 / 2 ^ 600 : ℚ)) (fin 0) (fin 0) = fin 0 :=
    dir_magnitudeR_round64_underflow Rat.sqrt h0
      (by rw [abs_of_pos (by positivity)]; norm_num) (by norm_num) (by norm_num)
  refine ⟨by norm_num, by norm_num, hmag, ?_⟩
  rw [new_eq_ofBounds]
  exact DistanceToWallDirR_zeroMagnitude _ _ _ _ _ _ _ _ _ _
    ((outside_eq_false_iff _ _ _ _ _ _ _ _ _).mpr (by norm_num))
    (by rw [hmag]; simp [isZero, toFin?])

/-- C20, amended: with every operation rounded by any `rnd`, for every box,
point, finite direction `d` and scalar `k > 0`: when the magnitude computed for
`k * d` is `k` times the magnitude `m` computed for `d`, the directional
`DistanceToWall` has the same outcome on `k * d` as on `d`. -/
theorem DistanceToWallDirR_scale (rnd : K → Dbl K) (rsqrt : K → K) (self : DistToBoxWall K)
    (x y z : Dbl K) (dirx diry dirz k m : K) (fwd : Bool) (hk : 0 < k)
    (hm : dir_magnitudeR rnd rsqrt (fin dirx) (fin diry) (fin dirz) = fin m)
    (hkm : dir_magnitudeR rnd rsqrt (fin (k * dirx)) (fin (k * diry)) (fin (k * dirz)) =
      fin (k * m)) :
    self.DistanceToWallDirR rnd rsqrt x y z (fin (k * dirx)) (fin (k * diry)) (fin (k * dirz))
        fwd =
      self.DistanceToWallDirR rnd rsqrt x y z (fin dirx) (fin diry) (fin dirz) fwd := by
  by_cases h0 : m = 0
  · simp only [DistanceToWallDirR, hm, hkm, isZero_fin, h0, mul_zero, decide_True, if_true]
  · simp only [DistanceToWallDirR, hm, hkm, divR, fin_div_fin_scale _ hk h0, isZero_fin,
      mul_eq_zero, hk.ne', h0, or_self, decide_False]

/-- C20, witness: on the default box at `(100, 0, 500)` with `round64`, the
directions `(2, 4, 4)` and `(1, 2, 2)`, of computed magnitudes 6 and 3, give the
same outcome. -/
theorem DistanceToWallDirR_scale_witness :
    ((0 : ℚ) < 2 ∧
      dir_magnitudeR round64 Rat.sqrt (fin (1 : ℚ)) (fin 2) (fin 2) = fin 3 ∧
      dir_magnitudeR round64 Rat.sqrt (fin (2 * 1 : ℚ)) (fin (2 * 2)) (fin (2 * 2)) =
        fin (2 * 3)) ∧
    (DistToBoxWall.new : DistToBoxWall ℚ).DistanceToWallDirR round64 Rat.sqrt
        (fin 100) (fin 0) (fin 500) (fin (2 * 1)) (fin (2 * 2)) (fin (2 * 2)) true =
      (DistToBoxWall.new : DistToBoxWall ℚ).DistanceToWallDirR round64 Rat.sqrt
        (fin 100) (fin 0) (fin 500) (fin 1) (fin 2) (fin 2) true := by
  have h9 : Rat.sqrt 9 = 3 := by norm_num
  have h36 : Rat.sqrt 36 = 6 := by norm_num
  have h1 : dir_magnitudeR round64 Rat.sqrt (fin (1 : ℚ)) (fin 2) (fin 2) = fin 3 := by
    rw [(dir_magnitudeR_round64 Rat.sqrt (1 : ℚ) 2 2 (by norm_num) (by norm_num) (by norm_num)
      (by norm_num [h9])).1]
    norm_num [h9]
  have h2 : dir_magnitudeR round64 Rat.sqrt (fin (2 * 1 : ℚ)) (fin (2 * 2)) (fin (2 * 2)) =
      fin (2 * 3) := by
    rw [(dir_magnitudeR_round64 Rat.sqrt (2 * 1 : ℚ) (2 * 2) (2 * 2) (by norm_num) (by norm_num)
      (by norm_num) (by norm_num [h36])).1]
    norm_num [h36]
  exact ⟨⟨by norm_num, h1, h2⟩,
    DistanceToWallDirR_scale round64 Rat.sqrt _ (fin 100) (fin 0) (fin 500) 1 2 2 2 3 true
      (by norm_num) h1 h2⟩

/-- C20 as stated fails: on the default box at the inside point
`(100, 0, 500)`, the direction `d = (1, 2, 2)` has the computed magnitude 3 and
gives `49.5`, while for `k = 2^600` the squares of `k * d` overflow, the
computed magnitude is infinite, the unit components are zero and the result is
`+inf`. -/
theorem DistanceToWallDirR_scale_overflow :
    (0 : ℚ) < 2 ^ 600 ∧
    dir_magnitudeR round64 Rat.sqrt (fin (1 : ℚ)) (fin 2) (fin 2) = fin 3 ∧
    (DistToBoxWall.new : DistToBoxWall ℚ).DistanceToWallDirR round64 Rat.sqrt
        (fin 100) (fin 0) (fin 500) (fin 1) (fin 2) (fin 2) true = .ok (fin 49.5) ∧
    (DistToBoxWall.new : DistToBoxWall ℚ).DistanceToWallDirR round64 Rat.sqrt
        (fin 100) (fin 0) (fin 500) (fin (2 ^ 600 * 1)) (fin (2 ^ 600 * 2)) (fin (2 ^ 600 * 2))
        true = .ok pinf := by
  have h9 : Rat.sqrt 9 = 3 := by norm_num
  have h1 : dir_magnitudeR round64 Rat.sqrt (fin (1 : ℚ)) (fin 2) (fin 2) = fin 3 := by
    rw [(dir_magnitudeR_round64 Rat.sqrt (1 : ℚ) 2 2 (by norm_num) (by norm_num) (by norm_num)
      (by norm_num [h9])).1]
    norm_num [h9]
  have hbig : dir_magnitudeR round64 Rat.sqrt (fin (2 ^ 600 * 1 : ℚ)) (fin (2 ^ 600 * 2))
      (fin (2 ^ 600 * 2)) = pinf := by
    rw [dir_magnitudeR,
      pow2R_round64_overflow (by rw [abs_of_pos (by positivity)]; norm_num :
        (2 : ℚ) ^ 512 ≤ |2 ^ 600 * 1|),
      pow2R_round64_overflow (by rw [abs_of_pos (by positivity)]; norm_num :
        (2 : ℚ) ^ 512 ≤ |2 ^ 600 * 2|)]
    simp [sqrtR, addR, rd, Dbl.sqrt, add_def, add, isNaN, toFin?]
  have ho : (ofBounds (0 : ℚ) 256.35 (-116.5) 116.5 0 1036.8).outside (fin 100) (fin 0)
      (fin 500) = false := (outside_eq_false_iff _ _ _ _ _ _ _ _ _).mpr (by norm_num)
  have hyz : subR round64 (fin (256.35 : ℚ)) (fin 100) = fin 156.35 := by
    rw [subR_round64_fin_pos (by norm_num) (by norm_num)]
    norm_num
  have hxy : subR round64 (fin (1036.8 : ℚ)) (fin 500) = fin 536.8 := by
    rw [subR_round64_fin_pos (by norm_num) (by norm_num)]
    norm_num
  have hzx : subR round64 (fin (116.5 : ℚ)) (fin 100) = fin 16.5 := by
    rw [subR_round64_fin_pos (by norm_num) (by norm_num)]
    norm_num
  refine ⟨by positivity, h1, ?_, ?_⟩
  · have hux : divR round64 (fin (1 : ℚ)) (fin 3) = fin (1 / 3) :=
      divR_round64_fin_pos (by norm_num) (by norm_num) (by norm_num) (by norm_num)
    have huz : divR round64 (fin (2 : ℚ)) (fin 3) = fin (2 / 3) :=
      divR_round64_fin_pos (by norm_num) (by norm_num) (by norm_num) (by norm_num)
    have dyz : divR round64 (fin (156.35 : ℚ)) (fin (1 / 3)) = fin 469.05 := by
      rw [divR_round64_fin_pos (by norm_num) (by norm_num) (by norm_num) (by norm_num)]
      norm_num
    have dxy : divR round64 (fin (536.8 : ℚ)) (fin (2 / 3)) = fin 805.2 := by
      rw [divR_round64_fin_pos (by norm_num) (by norm_num) (by norm_num) (by norm_num)]
      norm_num
    have dzx : divR round64 (fin (16.5 : ℚ)) (fin (1 / 3)) = fin 49.5 := by
      rw [divR_round64_fin_pos (by norm_num) (by norm_num) (by norm_num) (by norm_num)]
      norm_num
    rw [new_eq_ofBounds]
    simp only [DistanceToWallDirR, ho, h1, isZero_fin, hux, huz, Bool.not_true,
      Bool.false_eq_true, if_false, lt_fin_fin]
    simp only [ofBounds, Matrix.cons_val_zero, Matrix.cons_val_one, Matrix.head_cons,
      Matrix.cons_val_two, Matrix.tail_cons, hyz, hxy, hzx, dyz, dxy, dzx]
    norm_num [lt_fin_fin]
  · have hux : ∀ v : ℚ, 0 ≤ v → divR round64 (fin v) pinf = fin 0 :=
      fun v hv => divR_fin_pinf round64 hv
    have dyz : divR round64 (fin (156.35 : ℚ)) (fin 0) = pinf := divR_fin_zero round64 (by norm_num)
    have dxy : divR round64 (fin (536.8 : ℚ)) (fin 0) = pinf := divR_fin_zero round64 (by norm_num)
    have dzx : divR round64 (fin (16.5 : ℚ)) (fin 0) = pinf := divR_fin_zero round64 (by norm_num)
    rw [new_eq_ofBounds]
    simp only [DistanceToWallDirR, ho, hbig, hux _ (by positivity : (0 : ℚ) ≤ 2 ^ 600 * 1),
      hux _ (by positivity : (0 : ℚ) ≤ 2 ^ 600 * 2), Bool.not_true,
      Bool.false_eq_true, if_false, lt_fin_fin]
    simp only [ofBounds, Matrix.cons_val_zero, Matrix.cons_val_one, Matrix.head_cons,
      Matrix.cons_val_two, Matrix.tail_cons, hyz, hxy, hzx, dyz, dxy, dzx]
    simp [isZero, toFin?, Dbl.lt, isNaN]

/-- The value returned by `DistanceToWallDirR` is the minimum, taken as in
lines 236-238, of the rounded quotients of the three recorded divisions. -/
theorem DistanceToWallDirR_of_divisions (rnd : K → Dbl K) (rsqrt : K → K)
    (self : DistToBoxWall K) (x y z dirx diry dirz : Dbl K) (fwd : Bool)
    (a b c : Dbl K × Dbl K)
    (h : self.DistanceToWallDirDivisionsR rnd rsqrt x y z dirx diry dirz fwd = [a, b, c]) :
    self.DistanceToWallDirR rnd rsqrt x y z dirx diry dirz fwd =
      .ok (if (if (divR rnd a.1 a.2).lt (divR rnd c.1 c.2) then divR rnd a.1 a.2
            else divR rnd c.1 c.2).lt (divR rnd b.1 b.2)
        then (if (divR rnd a.1 a.2).lt (divR rnd c.1 c.2) then divR rnd a.1 a.2
            else divR rnd c.1 c.2)
        else divR rnd b.1 b.2) := by
  unfold DistanceToWallDirDivisionsR at h
  unfold DistanceToWallDirR
  by_cases ho : self.outside x y z = true
  · simp [ho] at h
  · by_cases hm : (dir_magnitudeR rnd rsqrt dirx diry dirz).isZero = true
    · simp [ho, hm] at h
    · simp only [ho, hm, Bool.false_eq_true, if_false, List.cons.injEq, and_true] at h
      obtain ⟨ha, hb, hc⟩ := h
      simp only [ho, hm, Bool.false_eq_true, if_false, ← ha, ← hb, ← hc]
      congr 1
      split_ifs <;> rfl

/-- A unit direction component computed with `round64`, for a component of
magnitude in `[2^-511, 2^511]` and a magnitude in `[2^-512, 2^513]`: the
quotient is stored exactly and is inside the binary64 range. -/
theorem unit_dir_round64 {dir m : K} (hd : 1 / 2 ^ 511 ≤ |dir| ∧ |dir| ≤ 2 ^ 511)
    (hm : 1 / 2 ^ 512 ≤ m ∧ m ≤ 2 ^ 513) (fwd : Bool) :
    (if (!fwd) = true then mulR round64 (divR round64 (fin dir) (fin m)) (fin (-1))
      else divR round64 (fin dir) (fin m)) = fin (unitDir dir m fwd) ∧
    1 / 2 ^ 1075 < |unitDir dir m fwd| ∧ |unitDir dir m fwd| < 2 ^ 1024 - 2 ^ 970 := by
  have hmpos : 0 < m := lt_of_lt_of_le (by positivity) hm.1
  have hdpos : 0 < |dir| := lt_of_lt_of_le (by positivity) hd.1
  have hdne : dir ≠ 0 := abs_pos.mp hdpos
  have habs : |dir / m| = |dir| / m := by rw [abs_div, abs_of_pos hmpos]
  have hlo : 1 / 2 ^ 1075 < |dir / m| := by
    rw [habs, lt_div_iff₀ hmpos]
    calc 1 / 2 ^ 1075 * m ≤ 1 / 2 ^ 1075 * 2 ^ 513 :=
          mul_le_mul_of_nonneg_left hm.2 (by positivity)
      _ < 1 / 2 ^ 511 := by norm_num
      _ ≤ |dir| := hd.1
  have hhi : |dir / m| < 2 ^ 1024 - 2 ^ 970 := by
    rw [habs, div_lt_iff₀ hmpos]
    calc |dir| ≤ 2 ^ 511 := hd.2
      _ < (2 ^ 1024 - 2 ^ 970) * (1 / 2 ^ 512) := by norm_num
      _ ≤ (2 ^ 1024 - 2 ^ 970) * m := mul_le_mul_of_nonneg_left hm.1 (by norm_num)
  have hq : divR round64 (fin dir) (fin m) = fin (dir / m) :=
    divR_round64_fin hdne hmpos.ne' hlo hhi
  cases fwd
  · have hneg : |dir / m * -1| = |dir / m| := by rw [mul_neg_one, abs_neg]
    have hu : unitDir dir m false = dir / m * -1 := by simp [unitDir]
    rw [hu, hneg]
    refine ⟨?_, hlo, hhi⟩
    simp only [Bool.not_false, if_true, hq]
    exact mulR_round64_fin (by rwa [hneg]) (by rwa [hneg])
  · have hu : unitDir dir m true = dir / m := by simp [unitDir]
    rw [hu]
    refine ⟨?_, hlo, hhi⟩
    simp only [Bool.not_true, Bool.false_eq_true, if_false, hq]

/-- The divisor of one per-axis division for a unit direction component `u`
inside the binary64 range: `-1 * u` or `u`, a non-zero value. -/
theorem axis_divisor_round64 (n1 n2 : Dbl K) {u : K} (hlo : 1 / 2 ^ 1075 < |u|)
    (hhi : |u| < 2 ^ 1024 - 2 ^ 970) :
    (if (fin u).lt (fin 0) = true then (n1, mulR round64 (fin (-1)) (fin u))
      else (n2, fin u)).2.isZero = false := by
  have hu : u ≠ 0 := by
    intro h
    rw [h, abs_zero] at hlo
    exact absurd hlo (not_lt.mpr (by positivity))
  have habs : |-1 * u| = |u| := by rw [neg_one_mul, abs_neg]
  split_ifs
  · show (mulR round64 (fin (-1)) (fin u)).isZero = false
    rw [mulR_round64_fin (by rwa [habs]) (by rwa [habs]), isZero_fin]
    simpa using hu
  · show (fin u).isZero = false
    rw [isZero_fin]
    simpa using hu

/-- C21, amended: with the binary64 range rounding `round64`, for every finite
box, every point inside it and every direction whose three components have a
magnitude in `[2^-511, 2^511]`, the root being within a factor two of the exact
one, the function performs three per-axis divisions and each has a non-zero
divisor. -/
theorem DistanceToWallDirDivisionsR_nonzero (rsqrt : K → K)
    (x_min x_max y_min y_max z_min z_max x y z dirx diry dirz : K) (fwd : Bool)
    (hx : x_min ≤ x ∧ x ≤ x_max) (hy : y_min ≤ y ∧ y ≤ y_max) (hz : z_min ≤ z ∧ z ≤ z_max)
    (hdx : 1 / 2 ^ 511 ≤ |dirx| ∧ |dirx| ≤ 2 ^ 511)
    (hdy : 1 / 2 ^ 511 ≤ |diry| ∧ |diry| ≤ 2 ^ 511)
    (hdz : 1 / 2 ^ 511 ≤ |dirz| ∧ |dirz| ≤ 2 ^ 511)
    (hs : 0 ≤ rsqrt (dirx * dirx + diry * diry + dirz * dirz) ∧
      rsqrt (dirx * dirx + diry * diry + dirz * dirz) *
          rsqrt (dirx * dirx + diry * diry + dirz * dirz) ≤
        4 * (dirx * dirx + diry * diry + dirz * dirz) ∧
      dirx * dirx + diry * diry + dirz * dirz ≤
        4 * (rsqrt (dirx * dirx + diry * diry + dirz * dirz) *
          rsqrt (dirx * dirx + diry * diry + dirz * dirz))) :
    ((ofBounds x_min x_max y_min y_max z_min z_max).DistanceToWallDirDivisionsR round64 rsqrt
        (fin x) (fin y) (fin z) (fin dirx) (fin diry) (fin dirz) fwd).length = 3 ∧
    ∀ p ∈ (ofBounds x_min x_max y_min y_max z_min z_max).DistanceToWallDirDivisionsR round64
        rsqrt (fin x) (fin y) (fin z) (fin dirx) (fin diry) (fin dirz) fwd,
      p.2.isZero = false := by
  have ho := (outside_eq_false_iff x_min x_max y_min y_max z_min z_max x y z).mpr ⟨hx, hy, hz⟩
  obtain ⟨hmag, hzero, hrange⟩ := dir_magnitudeR_round64 rsqrt dirx diry dirz
    ⟨Or.inr hdx.1, hdx.2⟩ ⟨Or.inr hdy.1, hdy.2⟩ ⟨Or.inr hdz.1, hdz.2⟩ hs
  have hdxne : dirx ≠ 0 := abs_pos.mp (lt_of_lt_of_le (by positivity) hdx.1)
  have hmne : rsqrt (dirx * dirx + diry * diry + dirz * dirz) ≠ 0 :=
    fun h => hdxne (hzero.mp h).1
  obtain ⟨hux, huxlo, huxhi⟩ := unit_dir_round64 hdx (hrange hmne) fwd
  obtain ⟨huz, huzlo, huzhi⟩ := unit_dir_round64 hdz (hrange hmne) fwd
  simp only [DistanceToWallDirDivisionsR, ho, Bool.false_eq_true, if_false, hmag, isZero_fin,
    hmne, decide_False, hux, huz]
  constructor
  · rfl
  · intro p hp
    simp only [List.mem_cons, List.mem_singleton, List.not_mem_nil, or_false] at hp
    rcases hp with h | h | h
    · rw [h]
      exact axis_divisor_round64 _ _ huxlo huxhi
    · rw [h]
      exact axis_divisor_round64 _ _ huzlo huzhi
    · rw [h]
      exact axis_divisor_round64 _ _ huxlo huxhi

/-- C21, witness: the default box, the point `(100, 0, 500)` and the direction
`(1, 2, 2)`, whose components are in the range and whose squared magnitude 9
has the root 3. -/
theorem DistanceToWallDirDivisionsR_nonzero_witness :
    (((0 : ℚ) ≤ 100 ∧ (100 : ℚ) ≤ 256.35) ∧ ((-116.5 : ℚ) ≤ 0 ∧ (0 : ℚ) ≤ 116.5) ∧
      ((0 : ℚ) ≤ 500 ∧ (500 : ℚ) ≤ 1036.8)) ∧
    (0 ≤ Rat.sqrt (1 * 1 + 2 * 2 + 2 * 2) ∧
      Rat.sqrt (1 * 1 + 2 * 2 + 2 * 2) * Rat.sqrt (1 * 1 + 2 * 2 + 2 * 2) ≤
        4 * (1 * 1 + 2 * 2 + 2 * 2) ∧
      (1 * 1 + 2 * 2 + 2 * 2 : ℚ) ≤
        4 * (Rat.sqrt (1 * 1 + 2 * 2 + 2 * 2) * Rat.sqrt (1 * 1 + 2 * 2 + 2 * 2))) ∧
    ((DistToBoxWall.new : DistToBoxWall ℚ).DistanceToWallDirDivisionsR round64 Rat.sqrt
        (fin 100) (fin 0) (fin 500) (fin 1) (fin 2) (fin 2) true).length = 3 ∧
    ∀ p ∈ (DistToBoxWall.new : DistToBoxWall ℚ).DistanceToWallDirDivisionsR round64 Rat.sqrt
        (fin 100) (fin 0) (fin 500) (fin 1) (fin 2) (fin 2) true, p.2.isZero = false := by
  have h9 : Rat.sqrt 9 = 3 := by norm_num
  have hs : 0 ≤ Rat.sqrt (1 * 1 + 2 * 2 + 2 * 2) ∧
      Rat.sqrt (1 * 1 + 2 * 2 + 2 * 2) * Rat.sqrt (1 * 1 + 2 * 2 + 2 * 2) ≤
        4 * (1 * 1 + 2 * 2 + 2 * 2) ∧
      (1 * 1 + 2 * 2 + 2 * 2 : ℚ) ≤
        4 * (Rat.sqrt (1 * 1 + 2 * 2 + 2 * 2) * Rat.sqrt (1 * 1 + 2 * 2 + 2 * 2)) := by
    norm_num [h9]
  have hin : ((0 : ℚ) ≤ 100 ∧ (100 : ℚ) ≤ 256.35) ∧ ((-116.5 : ℚ) ≤ 0 ∧ (0 : ℚ) ≤ 116.5) ∧
      ((0 : ℚ) ≤ 500 ∧ (500 : ℚ) ≤ 1036.8) := by
    norm_num
  rw [new_eq_ofBounds]
  exact ⟨hin, hs,
    DistanceToWallDirDivisionsR_nonzero (K := ℚ) Rat.sqrt 0 256.35 (-116.5) 116.5 0 1036.8
      100 0 500 1 2 2 true hin.1 hin.2.1 hin.2.2 (by rw [abs_one]; norm_num)
      (by rw [abs_two]; norm_num) (by rw [abs_two]; norm_num) hs⟩

/-- C21 as stated fails: on the default box, for the inside point
`(128, 0, 500)` and the direction `(1, 0, 0)` of computed magnitude 1
(`forward = true`), the divisors of the three per-axis divisions are `1, 0, 1`:
the division for the XY plane has the divisor zero.  Non-zero components do not
suffice either: for the direction `2^600 * (1, 2, 2)` the squares overflow, the
computed magnitude is infinite and the three divisors are zero. -/
theorem DistanceToWallDirDivisionsR_zero_divisor :
    dir_magnitudeR round64 Rat.sqrt (fin (1 : ℚ)) (fin 0) (fin 0) = fin 1 ∧
    ((DistToBoxWall.new : DistToBoxWall ℚ).DistanceToWallDirDivisionsR round64 Rat.sqrt
        (fin 128) (fin 0) (fin 500) (fin 1) (fin 0) (fin 0) true).map Prod.snd =
      [fin 1, fin 0, fin 1] ∧
    (∃ p ∈ (DistToBoxWall.new : DistToBoxWall ℚ).DistanceToWallDirDivisionsR round64 Rat.sqrt
        (fin 128) (fin 0) (fin 500) (fin 1) (fin 0) (fin 0) true, p.2.isZero = true) ∧
    ((DistToBoxWall.new : DistToBoxWall ℚ).DistanceToWallDirDivisionsR round64 Rat.sqrt
        (fin 128) (fin 0) (fin 500) (fin (2 ^ 600 * 1)) (fin (2 ^ 600 * 2)) (fin (2 ^ 600 * 2))
        true).map Prod.snd = [fin 0, fin 0, fin 0] := by
  have h1 : Rat.sqrt 1 = 1 := by norm_num
  have hm1 : dir_magnitudeR round64 Rat.sqrt (fin (1 : ℚ)) (fin 0) (fin 0) = fin 1 := by
    rw [(dir_magnitudeR_round64 Rat.sqrt (1 : ℚ) 0 0 (by norm_num) (by norm_num) (by norm_num)
      (by norm_num [h1])).1]
    norm_num [h1]
  have hbig : dir_magnitudeR round64 Rat.sqrt (fin (2 ^ 600 * 1 : ℚ)) (fin (2 ^ 600 * 2))
      (fin (2 ^ 600 * 2)) = pinf := by
    rw [dir_magnitudeR,
      pow2R_round64_overflow (by rw [abs_of_pos (by positivity)]; norm_num :
        (2 : ℚ) ^ 512 ≤ |2 ^ 600 * 1|),
      pow2R_round64_overflow (by rw [abs_of_pos (by positivity)]; norm_num :
        (2 : ℚ) ^ 512 ≤ |2 ^ 600 * 2|)]
    simp [sqrtR, addR, rd, Dbl.sqrt, add_def, add, isNaN, toFin?]
  have ho : (ofBounds (0 : ℚ) 256.35 (-116.5) 116.5 0 1036.8).outside (fin 128) (fin 0)
      (fin 500) = false := (outside_eq_false_iff _ _ _ _ _ _ _ _ _).mpr (by norm_num)
  have hux : divR round64 (fin (1 : ℚ)) (fin 1) = fin 1 := by
    rw [divR_round64_fin_pos (by norm_num) (by norm_num) (by norm_num) (by norm_num)]
    norm_num
  have huz : divR round64 (fin (0 : ℚ)) (fin 1) = fin 0 := divR_zero_fin round64 (by norm_num)
  have hinf : ∀ v : ℚ, 0 ≤ v → divR round64 (fin v) pinf = fin 0 :=
    fun v hv => divR_fin_pinf round64 hv
  have hsnd : ((DistToBoxWall.new : DistToBoxWall ℚ).DistanceToWallDirDivisionsR round64 Rat.sqrt
      (fin 128) (fin 0) (fin 500) (fin 1) (fin 0) (fin 0) true).map Prod.snd =
      [fin 1, fin 0, fin 1] := by
    rw [new_eq_ofBounds]
    simp only [DistanceToWallDirDivisionsR, ho, hm1, isZero_fin, hux, huz, Bool.not_true,
      Bool.false_eq_true, if_false, lt_fin_fin]
    norm_num
  refine ⟨hm1, hsnd, ?_, ?_⟩
  · have hmem : (fin 0 : Dbl ℚ) ∈
        ((DistToBoxWall.new : DistToBoxWall ℚ).DistanceToWallDirDivisionsR round64 Rat.sqrt
          (fin 128) (fin 0) (fin 500) (fin 1) (fin 0) (fin 0) true).map Prod.snd := by
      rw [hsnd]
      simp
    obtain ⟨p, hp, hp0⟩ := List.mem_map.mp hmem
    exact ⟨p, hp, by rw [hp0]; simp [isZero, toFin?]⟩
  · rw [new_eq_ofBounds]
    simp only [DistanceToWallDirDivisionsR, ho, hbig, hinf _ (by positivity : (0 : ℚ) ≤ 2 ^ 600 * 1),
      hinf _ (by positivity : (0 : ℚ) ≤ 2 ^ 600 * 2), Bool.not_true,
      Bool.false_eq_true, if_false, lt_fin_fin]
    simp [isZero, toFin?]

end DistToBoxWall

end geoalgo

/-! ## `SPAlgoSingleE::IsolatedStartPtShowers` -/

namespace sptool

open geoalgo

namespace SPAlgoSingleE

variable {K : Type} [LinearOrderedField K] {SPAShower : Type}

theorem mem_push_back_if_absent (bad : List Nat) (i k : Nat) :
    k ∈ push_back_if_absent bad i ↔ k ∈ bad ∨ k = i := by
  unfold push_back_if_absent
  by_cases h : i ∈ bad
  · simp only [h, decide_True, Bool.not_true, Bool.false_eq_true, if_false]
    constructor
    · exact Or.inl
    · rintro (hk | rfl)
      · exact hk
      · exact h
  · simp [h]

/-- Membership in the list built by a loop whose every step adds the indices
described by `P`. -/
theorem mem_foldl_iff {α : Type} (f : List Nat → α → List Nat) (P : α → Nat → Prop)
    (hf : ∀ bad x k, k ∈ f bad x ↔ k ∈ bad ∨ P x k) (l : List α) (init : List Nat) (k : Nat) :
    k ∈ l.foldl f init ↔ k ∈ init ∨ ∃ x ∈ l, P x k := by
  induction l generalizing init with
  | nil => simp
  | cons a l ih =>
    rw [List.foldl_cons, ih, hf]
    simp only [List.mem_cons, exists_eq_or_imp, or_assoc]

theorem pairCorrelated_comm (Dist : SPAShower → SPAShower → Dbl K) (showers : List SPAShower)
    (i j : Nat) : pairCorrelated Dist showers i j = pairCorrelated Dist showers j i := by
  unfold pairCorrelated
  rw [min_comm, max_comm]

theorem pairCorrelated_of_lt (Dist : SPAShower → SPAShower → Dbl K) (showers : List SPAShower)
    (i j : Nat) (hij : i < j) (si sj : SPAShower) (hi : showers[i]? = some si)
    (hj : showers[j]? = some sj) :
    pairCorrelated Dist showers i j = AreShowersStartPtCorrelated Dist si sj := by
  unfold pairCorrelated
  rw [min_eq_left hij.le, max_eq_right hij.le, hi, hj]

/-- The list `bad_shower_indices` built by the nested loop of lines 155-170. -/
theorem bad_indices (Dist : SPAShower → SPAShower → Dbl K) (showers : List SPAShower) :
    ∃ bad : List Nat,
      (List.range (showers.length - 1)).foldlM
        (fun bad_shower_indices i =>
          (List.range' (i + 1) (showers.length - (i + 1))).foldlM
            (fun bad_shower_indices j =>
              (showers[i]?).bind fun si => (showers[j]?).bind fun sj =>
                if AreShowersStartPtCorrelated Dist si sj then
                  some (push_back_if_absent (push_back_if_absent bad_shower_indices i) j)
                else some bad_shower_indices)
            bad_shower_indices)
        [] = some bad ∧
      ∀ k, k ∈ bad ↔ ∃ i j, i < j ∧ j < showers.length ∧
        pairCorrelated Dist showers i j = true ∧ (k = i ∨ k = j) := by
  let step : Nat → List Nat → Nat → List Nat := fun i bad j =>
    if pairCorrelated Dist showers i j then push_back_if_absent (push_back_if_absent bad i) j
    else bad
  let inner : List Nat → Nat → List Nat := fun bad i =>
    (List.range' (i + 1) (showers.length - (i + 1))).foldl (step i) bad
  refine ⟨(List.range (showers.length - 1)).foldl inner [], ?_, ?_⟩
  · refine foldlM_option_eq_some _ inner _ (fun bad i hi => ?_) _
    have hi' : i < showers.length - 1 := List.mem_range.mp hi
    refine foldlM_option_eq_some _ (step i) _ (fun bad' j hj => ?_) _
    have hj' : i + 1 ≤ j ∧ j < i + 1 + (showers.length - (i + 1)) := List.mem_range'_1.mp hj
    have hin : i < showers.length := by omega
    have hjn : j < showers.length := by omega
    rw [List.getElem?_eq_getElem hin, List.getElem?_eq_getElem hjn]
    simp only [Option.some_bind, step]
    rw [pairCorrelated_of_lt Dist showers i j (by omega) _ _ (List.getElem?_eq_getElem hin)
      (List.getElem?_eq_getElem hjn)]
    split_ifs <;> rfl
  · intro k
    have hstep : ∀ (i : Nat) (bad : List Nat) (j k : Nat), k ∈ step i bad j ↔
        k ∈ bad ∨ (pairCorrelated Dist showers i j = true ∧ (k = i ∨ k = j)) := by
      intro i bad j k
      simp only [step]
      by_cases h : pairCorrelated Dist showers i j = true
      · simp only [h, if_true, mem_push_back_if_absent, true_and, or_assoc]
      · simp [h]
    have hinner : ∀ (bad : List Nat) (i k : Nat), k ∈ inner bad i ↔
        k ∈ bad ∨ ∃ j ∈ List.range' (i + 1) (showers.length - (i + 1)),
          pairCorrelated Dist showers i j = true ∧ (k = i ∨ k = j) := by
      intro bad i k
      exact mem_foldl_iff (step i)
        (fun j k => pairCorrelated Dist showers i j = true ∧ (k = i ∨ k = j))
        (fun bad j k => hstep i bad j k) _ bad k
    rw [mem_foldl_iff inner
      (fun i k => ∃ j ∈ List.range' (i + 1) (showers.length - (i + 1)),
        pairCorrelated Dist showers i j = true ∧ (k = i ∨ k = j)) hinner]
    simp only [List.not_mem_nil, false_or, List.mem_range, List.mem_range'_1]
    constructor
    · rintro ⟨i, hi, j, hj, hc, hk⟩
      exact ⟨i, j, by omega, by omega, hc, hk⟩
    · rintro ⟨i, j, hij, hj, hc, hk⟩
      exact ⟨i, by omega, j, by omega, hc, hk⟩

theorem isolatedIndex_iff (Dist : SPAShower → SPAShower → Dbl K) (showers : List SPAShower)
    (i : Nat) :
    isolatedIndex Dist showers i = true ↔
      ∀ j, j < showers.length → j ≠ i → pairCorrelated Dist showers i j = false := by
  simp only [isolatedIndex, List.all_eq_true, List.mem_range, Bool.or_eq_true, beq_iff_eq,
    Bool.not_eq_true']
  constructor
  · intro h j hj hne
    rcases h j hj with h1 | h1
    · exact absurd h1 hne
    · exact h1
  · intro h j hj
    by_cases hji : j = i
    · exact Or.inl hji
    · exact Or.inr (h j hj hji)

theorem not_mem_bad_iff (Dist : SPAShower → SPAShower → Dbl K) (showers : List SPAShower)
    (bad : List Nat)
    (hbad : ∀ k, k ∈ bad ↔ ∃ i j, i < j ∧ j < showers.length ∧
      pairCorrelated Dist showers i j = true ∧ (k = i ∨ k = j))
    (k : Nat) (hk : k < showers.length) :
    k ∉ bad ↔ isolatedIndex Dist showers k = true := by
  rw [isolatedIndex_iff, hbad]
  constructor
  · intro hno j hj hne
    by_contra hc
    rw [Bool.not_eq_false] at hc
    apply hno
    rcases Nat.lt_or_gt_of_ne hne with h | h
    · exact ⟨j, k, h, hk, by rw [pairCorrelated_comm]; exact hc, Or.inr rfl⟩
    · exact ⟨k, j, h, hj, hc, Or.inl rfl⟩
  · rintro h ⟨i, j, hij, hj, hc, rfl | rfl⟩
    · rw [h j hj (by omega)] at hc
      cases hc
    · rw [pairCorrelated_comm, h i (by omega) (by omega)] at hc
      cases hc

/-- The loop of lines 175-178 over a list of valid indices. -/
theorem collect_isolated (Dist : SPAShower → SPAShower → Dbl K) (showers : List SPAShower)
    (bad : List Nat)
    (hbad : ∀ k, k < showers.length → (k ∉ bad ↔ isolatedIndex Dist showers k = true))
    (l : List Nat) (hl : ∀ idx ∈ l, idx < showers.length) (acc : List SPAShower) :
    l.foldlM
        (fun isolated_showers idx =>
          if !(decide (idx ∈ bad)) then
            (showers[idx]?).bind fun s => some (isolated_showers ++ [s])
          else some isolated_showers)
        acc =
      some (acc ++ l.filterMap fun i =>
        if isolatedIndex Dist showers i then showers[i]? else none) := by
  induction l generalizing acc with
  | nil => simp
  | cons idx l ih =>
    have hidx : idx < showers.length := hl idx (List.mem_cons_self _ _)
    have hl' : ∀ i ∈ l, i < showers.length := fun i hi => hl i (List.mem_cons_of_mem _ hi)
    rw [List.foldlM_cons, List.filterMap_cons]
    by_cases hb : idx ∈ bad
    · have hiso : isolatedIndex Dist showers idx = false := by
        rw [← Bool.not_eq_true, ← hbad idx hidx]
        exact fun h => h hb
      simp only [hb, decide_True, Bool.not_true, Bool.false_eq_true, if_false, hiso]
      exact ih hl' acc
    · have hiso : isolatedIndex Dist showers idx = true := (hbad idx hidx).mp hb
      simp only [hb, decide_False, Bool.not_false, if_true, hiso,
        List.getElem?_eq_getElem hidx, Option.some_bind]
      show List.foldlM _ (acc ++ [showers[idx]]) l = _
      rw [ih hl' (acc ++ [showers[idx]])]
      simp

/-- C25: for every list of showers `IsolatedStartPtShowers` returns, no
`at` being out of range, the showers at the isolated indices in the original
order; an index is isolated when no other index of the list is correlated with
it, the correlation of a pair being `AreShowersStartPtCorrelated` on its
lower-index and higher-index shower, that is `Dist < 1`; a list of length 0
or 1 is returned unchanged. -/
theorem IsolatedStartPtShowers_eq_spec (Dist : SPAShower → SPAShower → Dbl K)
    (showers : List SPAShower) :
    IsolatedStartPtShowers Dist showers = some (IsolatedStartPtShowersSpec Dist showers) ∧
    (showers.length ≤ 1 → IsolatedStartPtShowers Dist showers = some showers) ∧
    (∀ i, isolatedIndex Dist showers i = true ↔
      ∀ j, j < showers.length → j ≠ i → pairCorrelated Dist showers i j = false) ∧
    (∀ i j si sj, i < j → showers[i]? = some si → showers[j]? = some sj →
      pairCorrelated Dist showers i j = (Dist si sj).lt (Dbl.fin 1)) := by
  refine ⟨?_, ?_, isolatedIndex_iff Dist showers, ?_⟩
  · by_cases h0 : showers.length = 0
    · have hnil : showers = [] := List.length_eq_zero.mp h0
      subst hnil
      rfl
    · by_cases h1 : showers.length = 1
      · obtain ⟨s, hs⟩ := List.length_eq_one.mp h1
        subst hs
        simp [IsolatedStartPtShowers, IsolatedStartPtShowersSpec, isolatedIndex, List.range_succ]
      · obtain ⟨bad, hbad, hmem⟩ := bad_indices Dist showers
        have hfinal := collect_isolated Dist showers bad
          (fun k hk => not_mem_bad_iff Dist showers bad hmem k hk)
          (List.range showers.length) (fun idx hidx => List.mem_range.mp hidx) []
        simp only [IsolatedStartPtShowers, h0, h1, if_false, hbad, Option.some_bind]
        rw [hfinal]
        rfl
  · intro hle
    rcases Nat.le_one_iff_eq_zero_or_eq_one.mp hle with h0 | h1
    · have hnil : showers = [] := List.length_eq_zero.mp h0
      subst hnil
      rfl
    · obtain ⟨s, hs⟩ := List.length_eq_one.mp h1
      subst hs
      simp [IsolatedStartPtShowers]
  · intro i j si sj hij hi hj
    rw [pairCorrelated_of_lt Dist showers i j hij si sj hi hj]
    simp [AreShowersStartPtCorrelated]

/-- C25, witness: with start points `0, 5, 5.5, 10` on a line, the showers at
`5` and `5.5` are correlated and removed. -/
theorem IsolatedStartPtShowers_eq_spec_witness :
    IsolatedStartPtShowers (fun a b : ℚ => (Dbl.fin |a - b| : Dbl ℚ)) [0, 5, 11 / 2, 10] =
      some [0, 10] := by
  have h0 : isolatedIndex (fun a b : ℚ => (Dbl.fin |a - b| : Dbl ℚ)) [0, 5, 11 / 2, 10] 0 =
      true := by
    simp [isolatedIndex, pairCorrelated, AreShowersStartPtCorrelated, List.range_succ,
      Dbl.lt_fin_fin]
    norm_num [abs_of_neg, abs_of_nonneg]
  have h1 : isolatedIndex (fun a b : ℚ => (Dbl.fin |a - b| : Dbl ℚ)) [0, 5, 11 / 2, 10] 1 =
      false := by
    simp [isolatedIndex, pairCorrelated, AreShowersStartPtCorrelated, List.range_succ,
      Dbl.lt_fin_fin]
    norm_num [abs_lt]
  have h2 : isolatedIndex (fun a b : ℚ => (Dbl.fin |a - b| : Dbl ℚ)) [0, 5, 11 / 2, 10] 2 =
      false := by
    simp [isolatedIndex, pairCorrelated, AreShowersStartPtCorrelated, List.range_succ,
      Dbl.lt_fin_fin]
    norm_num [abs_lt]
  have h3 : isolatedIndex (fun a b : ℚ => (Dbl.fin |a - b| : Dbl ℚ)) [0, 5, 11 / 2, 10] 3 =
      true := by
    simp [isolatedIndex, pairCorrelated, AreShowersStartPtCorrelated, List.range_succ,
      Dbl.lt_fin_fin]
    norm_num [abs_of_neg, abs_of_nonneg]
  rw [(IsolatedStartPtShowers_eq_spec (K := ℚ) (fun a b : ℚ => (Dbl.fin |a - b| : Dbl ℚ))
    [0, 5, 11 / 2, 10]).1]
  simp [IsolatedStartPtShowersSpec, List.range_succ, h0, h1, h2, h3]

end SPAlgoSingleE

end sptool
